
import Mathlib

/-!
Shallow embedding of the hbstools C trigger library
(`poissonfocus.c`, `poissonfocusses.c`, `bft.c`).

Modelling conventions:
* C `double` values are modelled as exact rationals (`ℚ`).  The two `math.h`
  functions used by the code, `log` and `sqrt`, are passed around as explicit
  function parameters `L : ℚ → ℚ` (for `log`) and `S : ℚ → ℚ` (for `sqrt`);
  theorems that depend on their values state the needed facts about `L`/`S`
  as hypotheses (facts true of the real logarithm and square root).
* C `int64_t` (`count_t`, `acc_count_t`, `acc_timestep_t`) and `int` values
  are modelled as `ℤ`; `size_t` arithmetic, which wraps modulo `2^64`, is
  made explicit via `mod64`.
* `malloc` never fails in the model, so the `*_ERROR_INVALID_ALLOCATION`
  paths are dead; the uninitialized contents of freshly allocated buffers
  are kept as explicit parameters (`buf`, `qbuf`) so that no theorem can
  silently depend on them being zeroed.
* The C loops (curve pruning, maximizer) are written with an explicit fuel
  argument strictly larger than the number of buffer slots; the invariant
  proofs show the fuel is never exhausted on reachable states.
-/

/- The Batteries rational arithmetic operations are `@[irreducible]`, which
blocks definitional evaluation of the model on concrete inputs; restore the
default reducibility for this development. -/
attribute [local semireducible] Rat.add Rat.sub Rat.mul Rat.inv

namespace Hbs

/-- `size_t` arithmetic: reduce an integer modulo `2^64` to the value a C
`size_t` expression would hold. -/
def mod64 (z : ℤ) : ℕ := (z % (18446744073709551616 : ℤ)).toNat

/-! ## poissonfocus.c : types and constants -/

/-- `enum pf_errors`. -/
inductive pf_errors
  | PF_NO_ERRORS
  | PF_ERROR_INVALID_ALLOCATION
  | PF_ERROR_INVALID_INPUT
deriving DecidableEq, Repr, Inhabited

export pf_errors (PF_NO_ERRORS PF_ERROR_INVALID_ALLOCATION PF_ERROR_INVALID_INPUT)

/-- `#define PF_MAXCURVES 64`. -/
def PF_MAXCURVES : ℕ := 64

/-- `#define STACK_LEN (PF_MAXCURVES + 1)`. -/
def STACK_LEN : ℕ := PF_MAXCURVES + 1

/-- `#define COUNT_MAX INT64_MAX`. -/
def COUNT_MAX : ℤ := 9223372036854775807

/-- `struct curve`: a candidate change-point record (`x`: accumulated counts,
`b`: accumulated background, `t`: step index, `m`: cumulative LLR). -/
structure curve where
  x : ℤ
  b : ℚ
  t : ℤ
  m : ℚ
deriving DecidableEq, Repr, Inhabited

/-- `NULL_CURVE`: the all-zeros sentinel (set by `init_helper`). -/
def NULL_CURVE : curve := ⟨0, 0, 0, 0⟩

/-- `TAIL_CURVE`: the floor sentinel, `x = INT64_MAX`, rest zero. -/
def TAIL_CURVE : curve := ⟨COUNT_MAX, 0, 0, 0⟩

/-- `struct stack`: a stack over a circular buffer of `STACK_LEN` slots.
`arr` is the malloc'd buffer (65 slots); `capacity = PF_MAXCURVES`. -/
structure stack where
  head : ℕ
  tail : ℕ
  capacity : ℕ
  arr : List curve
deriving DecidableEq, Repr, Inhabited

/-- `stack_init` (+ `stack_init_helper`): `head = tail = 0`, capacity
`PF_MAXCURVES`; the buffer contents come from `malloc` and are passed in
uninitialized as `buf`. -/
def stack_init (buf : List curve) : stack := ⟨0, 0, PF_MAXCURVES, buf⟩

/-- `stack_empty`. -/
def stack_empty (s : stack) : Bool := s.head == s.tail

/-- `stack_full`. -/
def stack_full (s : stack) : Bool :=
  if s.head == s.capacity then s.tail == 0 else s.head + 1 == s.tail

/-- `stack_push`: on a full stack first advance the tail one slot and
overwrite that slot with `TAIL_CURVE` (dropping the oldest curve), then
write `q` at the head and advance the head. -/
def stack_push (s : stack) (q : curve) : stack :=
  let s1 :=
    if stack_full s then
      let t2 := if s.tail == s.capacity then 0 else s.tail + 1
      { s with tail := t2, arr := s.arr.set t2 TAIL_CURVE }
    else s
  { s1 with arr := s1.arr.set s1.head q,
            head := if s1.head == s1.capacity then 0 else s1.head + 1 }

/-- `stack_pop`: move the head back one slot (wrapping `0 ↦ capacity`) and
return the slot there.  The C code `assert`s non-emptiness; the model is
total and the invariant proofs show the assertion never fires on the states
the algorithm reaches. -/
def stack_pop (s : stack) : stack × curve :=
  let h2 := if s.head == 0 then s.capacity else s.head - 1
  ({ s with head := h2 }, s.arr.getD h2 NULL_CURVE)

/-- `stack_peek`: read the slot below the head without popping.  Note the
wrap case reads slot `capacity - 1`, one below the slot `capacity` that
`stack_pop` would wrap to. -/
def stack_peek (s : stack) : curve :=
  s.arr.getD (if s.head == 0 then s.capacity - 1 else s.head - 1) NULL_CURVE

/-- `stack_reset`. -/
def stack_reset (s : stack) : stack := { s with head := 0, tail := 0 }

/-- `curve_max`: the Poisson LLR of the data accumulated between curve `c`
and the accumulator `acc`, `x·log(x/b) − (x − b)`. -/
def curve_max (L : ℚ → ℚ) (c acc : curve) : ℚ :=
  let x : ℚ := ((acc.x - c.x : ℤ) : ℚ)
  let b : ℚ := acc.b - c.b
  x * L (x / b) - (x - b)

/-- `curve_dominate`: sign of the cross product comparing the slopes of `p`
and `q` relative to `acc`; `+1` if `p` dominates `q`, else `-1`. -/
def curve_dominate (p q acc : curve) : ℤ :=
  let p_x : ℚ := ((acc.x - p.x : ℤ) : ℚ)
  let p_b : ℚ := acc.b - p.b
  let q_x : ℚ := ((acc.x - q.x : ℤ) : ℚ)
  let q_b : ℚ := acc.b - q.b
  if p_x * q_b - q_x * p_b > 0 then 1 else -1

/-- `struct change` (private): significance as a log-likelihood ratio and a
non-negative offset. -/
structure change where
  significance_llr : ℚ
  offset : ℤ
deriving DecidableEq, Repr, Inhabited

/-- `enum status_codes` of `poissonfocus.c`. -/
inductive pf_status_codes
  | TEST
  | STOP
deriving DecidableEq, Repr, Inhabited

/-- `struct status` of `poissonfocus.c`. -/
structure pf_status where
  code : pf_status_codes
  latest_error : pf_errors
deriving DecidableEq, Repr, Inhabited

/-- `struct pf`. -/
structure pf where
  status : pf_status
  curves : stack
  change : change
  mu_crit : ℚ
  threshold_llr : ℚ
deriving DecidableEq, Repr, Inhabited

/-- `pf_check_init_parameters`. -/
def pf_check_init_parameters (threshold_std mu_min : ℚ) : pf_errors :=
  if threshold_std ≤ 0 ∨ mu_min < 1 then PF_ERROR_INVALID_INPUT else PF_NO_ERRORS

/-- The successful path of `pf_init` / `init_helper`: status `TEST`, cleared
change, `threshold_llr = threshold_std²/2`,
`mu_crit = (mu_min − 1)/log mu_min` (or `1` when `mu_min = 1`), and the
curve stack seeded by pushing `TAIL_CURVE` then `NULL_CURVE`. -/
def pf_mk (L : ℚ → ℚ) (buf : List curve) (threshold_std mu_min : ℚ) : pf :=
  { status := ⟨pf_status_codes.TEST, PF_NO_ERRORS⟩
    curves := stack_push (stack_push (stack_init buf) TAIL_CURVE) NULL_CURVE
    change := ⟨0, 0⟩
    threshold_llr := threshold_std * threshold_std / 2
    mu_crit := if mu_min == 1 then 1 else (mu_min - 1) / L mu_min }

/-- `pf_init`: validate the parameters, then build the structure
(allocation never fails in the model, so `none` means
`PF_ERROR_INVALID_INPUT`). -/
def pf_init (L : ℚ → ℚ) (buf : List curve) (threshold_std mu_min : ℚ) :
    Option pf :=
  if threshold_std ≤ 0 ∨ mu_min < 1 then none
  else some (pf_mk L buf threshold_std mu_min)

/-- The loop of `maximize`, with explicit fuel: walk the stack downward from
slot `i`, accumulating the candidate LLR `m` for curve `p`, until a
candidate exceeds the threshold (emit `(m, acc.t − p.t)`) or the cumulative
potential `m + p.m` falls below it (emit nothing, leaving the cleared
change `(0,0)` in place). -/
def maximizeAux (L : ℚ → ℚ) (thr : ℚ) (s : stack) (acc : curve) :
    ℕ → ℕ → curve → ℚ → change
  | 0, _, _, _ => ⟨0, 0⟩
  | fuel + 1, i, p, m =>
    if m + p.m ≥ thr then
      if m ≥ thr then ⟨m, acc.t - p.t⟩
      else
        let i2 := if i = 0 then s.capacity else i - 1
        let p2 := s.arr.getD i2 NULL_CURVE
        maximizeAux L thr s acc fuel i2 p2 (curve_max L p2 acc)
    else ⟨0, 0⟩

/-- `maximize`: starting point of the walk is the stack head and the
already-computed `m = acc.m − p.m`.  Fuel `STACK_LEN + 1` is one more than
the number of buffer slots; on reachable states the walk stops at a
sentinel (whose `m` field is `0`) before looping around. -/
def maximize_change (L : ℚ → ℚ) (thr : ℚ) (s : stack) (p acc : curve) :
    change :=
  maximizeAux L thr s acc (STACK_LEN + 1) s.head p (acc.m - p.m)

/-- The pruning loop of `step_helper`, with explicit fuel: while the freshly
popped curve `p` fails to dominate the next curve down, pop again.  Returns
the pruned stack, the final `p`, and (for specification purposes) the list
of curves popped by the loop, in pop order. -/
def pruneAux : ℕ → stack → curve → curve → stack × curve × List curve
  | 0, s, p, _ => (s, p, [])
  | fuel + 1, s, p, acc =>
    if curve_dominate p (stack_peek s) acc < 0 then
      let pr := stack_pop s
      let r := pruneAux fuel pr.1 pr.2 acc
      (r.1, r.2.1, pr.2 :: r.2.2)
    else (s, p, [])

/-- The first half of `step_helper`: pop the head curve `p`, form the
accumulator `acc = (p.x + x, p.b + b, p.t + 1, p.m)`, then run the pruning
loop.  Returns `(pruned stack, final p, acc, curves popped by the loop)`. -/
def step_prune (f : pf) (x : ℤ) (b : ℚ) : stack × curve × curve × List curve :=
  let pr := stack_pop f.curves
  let p := pr.2
  let acc : curve := ⟨p.x + x, p.b + b, p.t + 1, p.m⟩
  let r := pruneAux (STACK_LEN + 1) pr.1 p acc
  (r.1, r.2.1, acc, r.2.2)

/-- The curves popped by the pruning loop of `step_helper` on state `f` with
inputs `(x, b)` (specification view of `step_prune`). -/
def stepPopped (f : pf) (x : ℤ) (b : ℚ) : List curve :=
  (step_prune f x b).2.2.2

/-- `step_helper`: clear the change, pop and prune, then either the
anomalous branch (compute `curve_max`, run `maximize`, push `p` and `acc`)
or the non-anomalous branch (reset the stack back to `TAIL`, `NULL`). -/
def step_helper (L : ℚ → ℚ) (f : pf) (x : ℤ) (b : ℚ) : pf :=
  let f1 := { f with change := (⟨0, 0⟩ : change) }
  let r := step_prune f x b
  let s2 := r.1
  let p2 := r.2.1
  let acc := r.2.2.1
  if ((acc.x - p2.x : ℤ) : ℚ) > f.mu_crit * (acc.b - p2.b) then
    let mv := curve_max L p2 acc
    let acc2 := { acc with m := p2.m + mv }
    let ch := maximize_change L f.threshold_llr s2 p2 acc2
    { f1 with change := ch, curves := stack_push (stack_push s2 p2) acc2 }
  else
    { f1 with curves :=
        stack_push (stack_push (stack_reset s2) TAIL_CURVE) NULL_CURVE }

/-- `triggered` (poissonfocus.c): the step produced a positive LLR. -/
def pf_triggered (f : pf) : Bool := f.change.significance_llr > 0

/-- `pf_step`: write `false` to the trigger flag; in `TEST` state reject
invalid input (latching `STOP`/`INVALID_INPUT`) or run `step_helper` and
report the trigger; in `STOP` state do nothing and re-emit the latched
error.  Returns `(new state, trigger flag, error code)`. -/
def pf_step (L : ℚ → ℚ) (f : pf) (x : ℤ) (b : ℚ) : pf × Bool × pf_errors :=
  match f.status.code with
  | pf_status_codes.TEST =>
    if b ≤ 0 ∨ x < 0 then
      ({ f with status := ⟨pf_status_codes.STOP, PF_ERROR_INVALID_INPUT⟩,
                change := ⟨0, 0⟩ },
       false, PF_ERROR_INVALID_INPUT)
    else
      let f2 := step_helper L f x b
      (f2, pf_triggered f2, PF_NO_ERRORS)
  | pf_status_codes.STOP => (f, false, f.status.latest_error)

/-- `struct pf_change` (public): significance in standard deviations. -/
structure pf_change where
  significance_std : ℚ
  offset : ℤ
deriving DecidableEq, Repr, Inhabited

/-- `pf_get_change`: `(sqrt(2·llr), offset)`. -/
def pf_get_change (S : ℚ → ℚ) (f : pf) : pf_change :=
  ⟨S (2 * f.change.significance_llr), f.change.offset⟩

/-- `struct pf_changepoint` (offline form); the two time fields are
`size_t`. -/
structure pf_changepoint where
  significance_std : ℚ
  changepoint : ℕ
  triggertime : ℕ
deriving DecidableEq, Repr, Inhabited

/-- `pf_change2changepoint`: `(sig, t − offset + 1, t)` with the `size_t`
subtraction wrapping modulo `2^64`. -/
def pf_change2changepoint (c : pf_change) (t : ℕ) : pf_changepoint :=
  ⟨c.significance_std, mod64 ((t : ℤ) - c.offset + 1), t⟩

/-- The loop of `pf_interface`: step through the series, breaking on the
first `PF_ERROR_INVALID_INPUT` or the first trigger.  Returns the final
focus state, the loop counter `t` at exit, and the last error code. -/
def pf_iface_loop (L : ℚ → ℚ) :
    List (ℤ × ℚ) → pf → ℕ → pf_errors → pf × ℕ × pf_errors
  | [], f, t, err => (f, t, err)
  | (x, b) :: rest, f, t, _ =>
    let r := pf_step L f x b
    if r.2.2 = PF_ERROR_INVALID_INPUT then (r.1, t, r.2.2)
    else if r.2.1 then (r.1, t, r.2.2)
    else pf_iface_loop L rest r.1 (t + 1) r.2.2

/-- `pf_interface`: init, loop, convert the final change to a changepoint
using the loop counter (`t - 1` in `size_t` arithmetic when the loop ran to
completion), terminate.  `len` is `xs.length`. -/
def pf_interface (L S : ℚ → ℚ) (buf : List curve) (xs : List ℤ) (bs : List ℚ)
    (threshold mu_min : ℚ) : pf_errors × pf_changepoint :=
  match pf_init L buf threshold mu_min with
  | none => (PF_ERROR_INVALID_INPUT, ⟨0, 0, 0⟩)
  | some f0 =>
    let r := pf_iface_loop L (xs.zip bs) f0 0 PF_NO_ERRORS
    let t := r.2.1
    let tArg := if t = xs.length then mod64 ((t : ℤ) - 1) else t
    (r.2.2, pf_change2changepoint (pf_get_change S r.1) tArg)

/-! ## poissonfocusses.c : types and operations -/

/-- `enum pfs_errors`. -/
inductive pfs_errors
  | PFS_NO_ERRORS
  | PFS_ERROR_INVALID_ALLOCATION
  | PFS_ERROR_INVALID_INPUT
deriving DecidableEq, Repr, Inhabited

export pfs_errors (PFS_NO_ERRORS PFS_ERROR_INVALID_ALLOCATION PFS_ERROR_INVALID_INPUT)

/-- `struct queue`: a FIFO of counts over a circular buffer of `len + 1`
slots (one spare slot distinguishes full from empty). -/
structure queue where
  head : ℕ
  tail : ℕ
  len : ℕ
  arr : List ℤ
deriving DecidableEq, Repr, Inhabited

/-- `queue_init` (+ `queue_init_helper`): `head = tail = 0`; the buffer of
`len + 1` slots comes from `malloc` uninitialized, passed in as `qbuf`. -/
def queue_init (qbuf : List ℤ) (len : ℕ) : queue := ⟨0, 0, len, qbuf⟩

/-- `queue_empty`. -/
def queue_empty (q : queue) : Bool := q.head == q.tail

/-- `queue_full`. -/
def queue_full (q : queue) : Bool := (q.tail + 1) % (q.len + 1) == q.head

/-- `queue_enqueue`: write at the tail, then advance it (wrapping past
`len`).  The C code `assert`s the queue is not full; the model is total and
the invariant proofs show the assertion never fires on reachable states. -/
def queue_enqueue (q : queue) (n : ℤ) : queue :=
  { q with arr := q.arr.set q.tail n,
           tail := if q.tail + 1 > q.len then 0 else q.tail + 1 }

/-- `queue_dequeue`: read at the head, then advance it (wrapping past
`len`).  The C code `assert`s the queue is not empty; same remark as for
`queue_enqueue`. -/
def queue_dequeue (q : queue) : queue × ℤ :=
  ({ q with head := if q.head + 1 > q.len then 0 else q.head + 1 },
   q.arr.getD q.head 0)

/-- `enum status_codes` of `poissonfocusses.c`. -/
inductive pfs_status_codes
  | COLLECT
  | UPDATE
  | TEST
  | STOP
deriving DecidableEq, Repr, Inhabited

/-- `struct status` of `poissonfocusses.c`. -/
structure pfs_status where
  code : pfs_status_codes
  latest_error : pfs_errors
deriving DecidableEq, Repr, Inhabited

/-- `struct pfs`. -/
structure pfs where
  focus : pf
  queue : queue
  alpha : ℚ
  m : ℤ
  sleep : ℤ
  t : ℤ
  lambda_t : ℚ
  status : pfs_status
deriving DecidableEq, Repr, Inhabited

/-- `pfs_check_init_parameters`. -/
def pfs_check_init_parameters (threshold_std mu_min alpha : ℚ) (m sleep : ℤ) :
    pfs_errors :=
  if pf_check_init_parameters threshold_std mu_min = PF_ERROR_INVALID_INPUT
      ∨ alpha < 0 ∨ alpha > 1 ∨ m < 1 ∨ sleep < 0
  then PFS_ERROR_INVALID_INPUT
  else PFS_NO_ERRORS

/-- The successful path of `pfs_init` / `init_helper`: countdown
`t = sleep + m`, status `COLLECT`.  The queue buffer has `m + 1` slots.
`lambda_t` is left uninitialized by the C code and is never read before
`set_initial_bkg` assigns it; the model uses `0` for it. -/
def pfs_mk (L : ℚ → ℚ) (buf : List curve) (qbuf : List ℤ)
    (threshold_std mu_min alpha : ℚ) (m sleep : ℤ) : pfs :=
  { focus := pf_mk L buf threshold_std mu_min
    queue := queue_init qbuf m.toNat
    alpha := alpha
    m := m
    sleep := sleep
    t := sleep + m
    lambda_t := 0
    status := ⟨pfs_status_codes.COLLECT, PFS_NO_ERRORS⟩ }

/-- `pfs_init`: validate, then build (allocation never fails in the
model). -/
def pfs_init (L : ℚ → ℚ) (buf : List curve) (qbuf : List ℤ)
    (threshold_std mu_min alpha : ℚ) (m sleep : ℤ) : Option pfs :=
  if pfs_check_init_parameters threshold_std mu_min alpha m sleep
      = PFS_ERROR_INVALID_INPUT then none
  else some (pfs_mk L buf qbuf threshold_std mu_min alpha m sleep)

/-- The summation loop of `set_initial_bkg`: walk from `i` to the queue
tail, wrapping past `len`, adding up the stored counts.  Fuel bounds the
walk; it exceeds the number of live slots on reachable states. -/
def queue_sum_loop (q : queue) : ℕ → ℕ → ℤ
  | 0, _ => 0
  | fuel + 1, i =>
    if i = q.tail then 0
    else q.arr.getD i 0 +
      queue_sum_loop q fuel (if i + 1 > q.len then 0 else i + 1)

/-- `set_initial_bkg`: set the smoothed rate to the mean of the counts in
the (full) queue. -/
def set_initial_bkg (f : pfs) : pfs :=
  { f with lambda_t :=
      ((queue_sum_loop f.queue (f.queue.len + 2) f.queue.head : ℚ)) / (f.m : ℚ) }

/-- `update_bkg`: single exponential smoothing
`alpha · x + (1 − alpha) · lambda`. -/
def update_bkg (f : pfs) (x_t : ℤ) : ℚ :=
  f.alpha * (x_t : ℚ) + (1 - f.alpha) * f.lambda_t

/-- `triggered` (poissonfocusses.c): require the inner FOCuS trigger and an
offset strictly below the smoothing window `m`.  (The `sqrt` applied by
`pf_get_change` does not affect the offset field that is inspected here.) -/
def pfs_triggered (f : pfs) (focus_triggered : Bool) : Bool :=
  if focus_triggered then
    decide ((pf_get_change (fun q => q) f.focus).offset < f.m)
  else false

/-- `step_test`: dequeue the oldest count, update the background with it,
enqueue the new count, then feed `(x_t, lambda_t)` to the inner FOCuS and
compute the quality-controlled trigger flag.  Returns
`(new state, flag, inner pf error)`. -/
def step_test (L : ℚ → ℚ) (f : pfs) (x_t : ℤ) : pfs × Bool × pf_errors :=
  let dq := queue_dequeue f.queue
  let lam := update_bkg f dq.2
  let q2 := queue_enqueue dq.1 x_t
  let r := pf_step L f.focus x_t lam
  let f2 := { f with queue := q2, lambda_t := lam, focus := r.1 }
  (f2, pfs_triggered f2 r.2.1, r.2.2)

/-- `step_update`: dequeue the oldest count, update the background with it,
enqueue the new count.  No test is run. -/
def step_update (f : pfs) (x_t : ℤ) : pfs :=
  let dq := queue_dequeue f.queue
  let lam := update_bkg f dq.2
  { f with queue := queue_enqueue dq.1 x_t, lambda_t := lam }

/-- `pfs_step`: the lifecycle state machine.  The caller's trigger flag is
an in/out parameter in C (`bool*`); the model threads its previous value
`flagIn` through, since the `UPDATE`, `COLLECT` and `STOP` branches do not
write it.  Returns `(new state, flag value, error code)`. -/
def pfs_step (L : ℚ → ℚ) (f : pfs) (flagIn : Bool) (x_t : ℤ) :
    pfs × Bool × pfs_errors :=
  match f.status.code with
  | pfs_status_codes.TEST =>
    let r := step_test L f x_t
    if r.2.2 = PF_ERROR_INVALID_INPUT then
      ({ r.1 with status := ⟨pfs_status_codes.STOP, PFS_ERROR_INVALID_INPUT⟩ },
       r.2.1, PFS_ERROR_INVALID_INPUT)
    else (r.1, r.2.1, PFS_NO_ERRORS)
  | pfs_status_codes.UPDATE =>
    let f1 := step_update f x_t
    let f2 := { f1 with t := f1.t - 1 }
    if f2.t = 0 then
      ({ f2 with status := { f2.status with code := pfs_status_codes.TEST } },
       flagIn, PFS_NO_ERRORS)
    else (f2, flagIn, PFS_NO_ERRORS)
  | pfs_status_codes.COLLECT =>
    let f1 := { f with queue := queue_enqueue f.queue x_t, t := f.t - 1 }
    if f1.t = f1.sleep then
      let f2 := set_initial_bkg f1
      ({ f2 with status := { f2.status with code :=
            if f2.sleep ≠ 0 then pfs_status_codes.UPDATE
            else pfs_status_codes.TEST } },
       flagIn, PFS_NO_ERRORS)
    else (f1, flagIn, PFS_NO_ERRORS)
  | pfs_status_codes.STOP => (f, flagIn, f.status.latest_error)

/-- `pfs_get_change`: the inner FOCuS change if its offset is below `m`,
else the zero change. -/
def pfs_get_change (S : ℚ → ℚ) (f : pfs) : pf_change :=
  let c := pf_get_change S f.focus
  if c.offset < f.m then c else ⟨0, 0⟩

/-- The loop of `pfs_interface`: step through the series, breaking on the
first `PFS_ERROR_INVALID_INPUT` or the first read of a true trigger flag.
The flag variable is declared uninitialized in C and is only written by
`TEST`-phase steps, so its indeterminate initial value is threaded in
explicitly (as `g` at the first call). -/
def pfs_iface_loop (L : ℚ → ℚ) :
    List ℤ → pfs → Bool → ℕ → pfs_errors → pfs × Bool × ℕ × pfs_errors
  | [], f, g, t, err => (f, g, t, err)
  | x :: rest, f, g, t, _ =>
    let r := pfs_step L f g x
    if r.2.2 = PFS_ERROR_INVALID_INPUT then (r.1, r.2.1, t, r.2.2)
    else if r.2.1 then (r.1, r.2.1, t, r.2.2)
    else pfs_iface_loop L rest r.1 r.2.1 (t + 1) r.2.2

/-- `pfs_interface`: init, loop, convert the final change to a changepoint
using the loop counter (`t - 1` in `size_t` arithmetic when the loop ran to
completion), terminate.  `g0` is the indeterminate initial value of the
local `got_trigger` variable. -/
def pfs_interface (L S : ℚ → ℚ) (buf : List curve) (qbuf : List ℤ)
    (g0 : Bool) (xs : List ℤ) (threshold_std mu_min alpha : ℚ)
    (m sleep : ℤ) : pfs_errors × pf_changepoint :=
  match pfs_init L buf qbuf threshold_std mu_min alpha m sleep with
  | none => (PFS_ERROR_INVALID_INPUT, ⟨0, 0, 0⟩)
  | some f0 =>
    let r := pfs_iface_loop L xs f0 g0 0 PFS_NO_ERRORS
    let t := r.2.2.1
    let tArg := if t = xs.length then mod64 ((t : ℤ) - 1) else t
    (r.2.2.2, pf_change2changepoint (pfs_get_change S r.1) tArg)

/-! ## bft.c : types and operations -/

/-- `enum bft_errors`. -/
inductive bft_errors
  | BFT_NO_ERRORS
  | BFT_ERROR_INVALID_ALLOCATION
  | BFT_ERROR_INVALID_INPUT
deriving DecidableEq, Repr, Inhabited

export bft_errors (BFT_NO_ERRORS BFT_ERROR_INVALID_ALLOCATION BFT_ERROR_INVALID_INPUT)

/-- `#define DETECTORS_NUMBER 4`. -/
def DETECTORS_NUMBER : ℕ := 4

/-- `struct bft`.  With `DETECTORS_NUMBER = 4` the dead-detector bit array
is a single byte, modelled as a natural number below 256. -/
structure bft where
  threshold_std : ℚ
  mu_min : ℚ
  alpha : ℚ
  m : ℤ
  sleep : ℤ
  majority : ℤ
  bitarray : ℕ
  fs : List pfs
deriving DecidableEq, Repr, Inhabited

/-- `bitarray_set`: set bit `n` (for `n < 8`, i.e. within the single
byte). -/
def bitarray_set (ba : ℕ) (n : ℕ) : ℕ := ba ||| (1 <<< n)

/-- The inner loop of `bitarray_count`: examine `k` low-order bits of
`byte`, subtracting each set bit from the running count. -/
def bitcount_loop : ℕ → ℕ → ℕ → ℕ
  | 0, _, counts => counts
  | k + 1, byte, counts => bitcount_loop k (byte >>> 1) (counts - byte % 2)

/-- `bitarray_count`: the number of zeros among the low
`DETECTORS_NUMBER % 8 = 4` bits, i.e. the number of working detectors. -/
def bitarray_count (ba : ℕ) : ℕ := bitcount_loop (DETECTORS_NUMBER % 8) ba DETECTORS_NUMBER

/-- `bft_check_init_parameters`. -/
def bft_check_init_parameters (threshold_std mu_min alpha : ℚ)
    (m sleep majority : ℤ) : bft_errors :=
  if pfs_check_init_parameters threshold_std mu_min alpha m sleep
      = PFS_ERROR_INVALID_INPUT
      ∨ majority < 1 ∨ majority > (DETECTORS_NUMBER : ℤ)
  then BFT_ERROR_INVALID_INPUT
  else BFT_NO_ERRORS

/-- The successful path of `bft_init` / `init_helper`: zeroed bit array and
one FOCuS-SES instance per detector, each built over its own malloc'd
buffers (`bufs i` gives detector `i`'s uninitialized stack and queue
buffers). -/
def bft_mk (L : ℚ → ℚ) (bufs : ℕ → List curve × List ℤ)
    (threshold_std mu_min alpha : ℚ) (m sleep majority : ℤ) : bft :=
  { threshold_std := threshold_std
    mu_min := mu_min
    alpha := alpha
    m := m
    sleep := sleep
    majority := majority
    bitarray := 0
    fs := (List.range DETECTORS_NUMBER).map fun i =>
      pfs_mk L (bufs i).1 (bufs i).2 threshold_std mu_min alpha m sleep }

/-- `bft_init`: validate, then build (allocation never fails in the
model). -/
def bft_init (L : ℚ → ℚ) (bufs : ℕ → List curve × List ℤ)
    (threshold_std mu_min alpha : ℚ) (m sleep majority : ℤ) : Option bft :=
  if bft_check_init_parameters threshold_std mu_min alpha m sleep majority
      = BFT_ERROR_INVALID_INPUT then none
  else some (bft_mk L bufs threshold_std mu_min alpha m sleep majority)

/-- The detector loop of `bft_step`: step each FOCuS-SES with the shared
`focusdes_triggered` flag variable threaded through (the C code passes the
same `bool*` to every call), set the dead bit on `PFS_ERROR_INVALID_INPUT`,
otherwise count the detector if the flag reads true.  Returns
`(new instances, final flag, bit array, triggered count)`. -/
def bft_loop (L : ℚ → ℚ) :
    List (pfs × ℤ) → Bool → ℕ → ℕ → ℕ → List pfs × Bool × ℕ × ℕ
  | [], g, ba, cnt, _ => ([], g, ba, cnt)
  | (f, x) :: rest, g, ba, cnt, i =>
    let r := pfs_step L f g x
    let ba2 := if r.2.2 = PFS_ERROR_INVALID_INPUT then bitarray_set ba i else ba
    let cnt2 :=
      if r.2.2 = PFS_ERROR_INVALID_INPUT then cnt
      else if r.2.1 then cnt + 1 else cnt
    let r2 := bft_loop L rest r.2.1 ba2 cnt2 (i + 1)
    (r.1 :: r2.1, r2.2)

/-- `bft_step`: run the detector loop (the local flag starts at `false`),
report a trigger when at least `majority` detectors counted, and return
`BFT_ERROR_INVALID_INPUT` exactly when the surviving detectors drop below
`majority`. -/
def bft_step (L : ℚ → ℚ) (b : bft) (xs : List ℤ) : bft × Bool × bft_errors :=
  let r := bft_loop L (b.fs.zip xs) false b.bitarray 0 0
  let got := decide ((r.2.2.2 : ℤ) ≥ b.majority)
  let err :=
    if (bitarray_count r.2.2.1 : ℤ) < b.majority then BFT_ERROR_INVALID_INPUT
    else BFT_NO_ERRORS
  ({ b with fs := r.1, bitarray := r.2.2.1 }, got, err)

/-- `struct bft_changes` / `bft_get_changes`: the per-detector changes. -/
def bft_get_changes (S : ℚ → ℚ) (b : bft) : List pf_change :=
  b.fs.map (pfs_get_change S)

/-- `bft_changes2changepoints`. -/
def bft_changes2changepoints (cs : List pf_change) (t : ℕ) :
    List pf_changepoint :=
  cs.map (fun c => pf_change2changepoint c t)

/-- The loop of `bft_interface`: at step `t` gather
`xs = [xss[i·len + t] | i < 4]`, run `bft_step`, and break on the first
`BFT_ERROR_INVALID_INPUT` or the first trigger.  Recursion is on the number
of remaining steps. -/
def bft_iface_loop (L : ℚ → ℚ) (xss : List ℤ) (len : ℕ) :
    ℕ → ℕ → bft → bft_errors → bft × ℕ × bft_errors
  | 0, t, b, err => (b, t, err)
  | rem + 1, t, b, _ =>
    let xs := (List.range DETECTORS_NUMBER).map fun i => xss.getD (i * len + t) 0
    let r := bft_step L b xs
    if r.2.2 = BFT_ERROR_INVALID_INPUT then (r.1, t, r.2.2)
    else if r.2.1 then (r.1, t, r.2.2)
    else bft_iface_loop L xss len rem (t + 1) r.1 r.2.2

/-- `bft_interface`: init, loop over the `(4 × len)` flat buffer, convert
the final changes to changepoints with the same `t`/`t - 1` convention as
the other drivers, terminate. -/
def bft_interface (L S : ℚ → ℚ) (bufs : ℕ → List curve × List ℤ)
    (xss : List ℤ) (len : ℕ) (threshold_std mu_min alpha : ℚ)
    (m sleep majority : ℤ) : bft_errors × List pf_changepoint :=
  match bft_init L bufs threshold_std mu_min alpha m sleep majority with
  | none => (BFT_ERROR_INVALID_INPUT,
             List.replicate DETECTORS_NUMBER (⟨0, 0, 0⟩ : pf_changepoint))
  | some b0 =>
    let r := bft_iface_loop L xss len len 0 b0 BFT_NO_ERRORS
    let t := r.2.1
    let tArg := if t = len then mod64 ((t : ℤ) - 1) else t
    (r.2.2, bft_changes2changepoints (bft_get_changes S r.1) tArg)

/-! ## Specification views and reachability

The following definitions do not correspond to C functions; they are the
vocabulary in which the properties of the code are stated: the abstract
contents of the circular buffers, run functions iterating the step
operations, and inductive reachability predicates. -/

/-- Number of elements currently stored in the curve stack. -/
def stackSize (s : stack) : ℕ :=
  (s.head + (s.capacity + 1) - s.tail) % (s.capacity + 1)

/-- The `k`-th stored curve counting from the bottom of the stack (the
element at the tail). -/
def liveGet (s : stack) (k : ℕ) : curve :=
  s.arr.getD ((s.tail + k) % (s.capacity + 1)) NULL_CURVE

/-- The stored curves, bottom first. -/
def liveList (s : stack) : List curve :=
  (List.range (stackSize s)).map (liveGet s)

/-- Number of counts currently stored in the queue. -/
def qsize (q : queue) : ℕ := (q.tail + (q.len + 1) - q.head) % (q.len + 1)

/-- Iterate `pf_step` over a list of `(x, b)` inputs, keeping the final
state. -/
def pf_run (L : ℚ → ℚ) : pf → List (ℤ × ℚ) → pf
  | f, [] => f
  | f, (x, b) :: rest => pf_run L (pf_step L f x b).1 rest

/-- Iterate `pfs_step` over a list of counts, threading the caller's
trigger-flag variable exactly as a C caller reusing one `bool` would.
Returns the final state and the final flag value. -/
def pfs_run (L : ℚ → ℚ) : pfs → Bool → List ℤ → pfs × Bool
  | f, g, [] => (f, g)
  | f, g, x :: rest =>
    let r := pfs_step L f g x
    pfs_run L r.1 r.2.1 rest

/-- The state `pf_step` latches when it rejects an input in `TEST` state. -/
def pf_latched (f : pf) : pf :=
  { f with status := ⟨pf_status_codes.STOP, PF_ERROR_INVALID_INPUT⟩,
           change := (⟨0, 0⟩ : change) }

/-- The non-anomalous branch condition of `step_helper`:
`(acc.x − p.x) ≤ mu_crit · (acc.b − p.b)` for the post-pruning `p`. -/
def stepNonAnomalous (f : pf) (x : ℤ) (b : ℚ) : Prop :=
  ¬(((((step_prune f x b).2.2.1.x - (step_prune f x b).2.1.x : ℤ)) : ℚ) >
      f.mu_crit * ((step_prune f x b).2.2.1.b - (step_prune f x b).2.1.b))

/-- States of a FOCuS instance reachable by `pf_init` and `pf_step`, indexed
by the total of the non-negative counts consumed so far.  Steps with a
valid observation carry the hypothesis that the running count total stays
below `INT64_MAX` (beyond which the C accumulator arithmetic would
overflow, which is undefined behavior); steps with an invalid observation
need no bound since they do not touch the stack. -/
inductive PfReach (L : ℚ → ℚ) : pf → ℤ → Prop
  | init (buf : List curve) (thr mu : ℚ) (hthr : 0 < thr) (hmu : 1 ≤ mu)
      (hbuf : buf.length = STACK_LEN) :
      PfReach L (pf_mk L buf thr mu) 0
  | step_ok {f : pf} {X : ℤ} (x : ℤ) (b : ℚ) (hf : PfReach L f X)
      (hx : 0 ≤ x) (hb : 0 < b) (hX : X + x < COUNT_MAX) :
      PfReach L (pf_step L f x b).1 (X + x)
  | step_bad {f : pf} {X : ℤ} (x : ℤ) (b : ℚ) (hf : PfReach L f X)
      (hxb : x < 0 ∨ b ≤ 0) :
      PfReach L (pf_step L f x b).1 X

/-- States of a FOCuS instance reachable by `pf_init` and arbitrary
`pf_step` calls (no conditions on the observations). -/
inductive PfAny (L : ℚ → ℚ) : pf → Prop
  | init (buf : List curve) (thr mu : ℚ) (hthr : 0 < thr) (hmu : 1 ≤ mu) :
      PfAny L (pf_mk L buf thr mu)
  | step {f : pf} (x : ℤ) (b : ℚ) (hf : PfAny L f) :
      PfAny L (pf_step L f x b).1

/-- States of a FOCuS-SES instance reachable by `pfs_init` and arbitrary
`pfs_step` calls. -/
inductive PfsReach (L : ℚ → ℚ) : pfs → Prop
  | init (buf : List curve) (qbuf : List ℤ) (thr mu alpha : ℚ) (m sleep : ℤ)
      (h : pfs_check_init_parameters thr mu alpha m sleep = PFS_NO_ERRORS)
      (hq : qbuf.length = m.toNat + 1) :
      PfsReach L (pfs_mk L buf qbuf thr mu alpha m sleep)
  | step {f : pfs} (g : Bool) (x : ℤ) (hf : PfsReach L f) :
      PfsReach L (pfs_step L f g x).1

/-- States of a BFT instance reachable by `bft_init` and arbitrary
`bft_step` calls on count vectors of the right width. -/
inductive BftReach (L : ℚ → ℚ) : bft → Prop
  | init (bufs : ℕ → List curve × List ℤ) (thr mu alpha : ℚ)
      (m sleep majority : ℤ)
      (h : bft_check_init_parameters thr mu alpha m sleep majority
            = BFT_NO_ERRORS)
      (hq : ∀ i, (bufs i).2.length = m.toNat + 1) :
      BftReach L (bft_mk L bufs thr mu alpha m sleep majority)
  | step {b : bft} (xs : List ℤ) (hxs : xs.length = DETECTORS_NUMBER)
      (hb : BftReach L b) :
      BftReach L (bft_step L b xs).1

/-- Well-formedness of the curve stack buffer geometry. -/
structure StackWF (s : stack) : Prop where
  cap : s.capacity = PF_MAXCURVES
  len : s.arr.length = STACK_LEN
  head_le : s.head ≤ PF_MAXCURVES
  tail_le : s.tail ≤ PF_MAXCURVES

/-- The curve-stack invariant maintained by every reachable FOCuS state
with count total `X`:

* the buffer geometry is well formed and at least the two sentinels are
  stored;
* the bottom stored curve is `TAIL_CURVE`;
* whenever the tail sits at slot `64`, the stale slot `63` (which
  `stack_peek` reads in its wrap case, one below the slot `stack_pop`
  wraps to) also holds `TAIL_CURVE`;
* every stored curve above the bottom has `0 ≤ x ≤ X` and `0 ≤ b`, and
  both coordinates are monotone from bottom to top. -/
structure PfInv (f : pf) (X : ℤ) : Prop where
  wf : StackWF f.curves
  size2 : 2 ≤ stackSize f.curves
  Xnn : 0 ≤ X
  bottom : liveGet f.curves 0 = TAIL_CURVE
  t64 : f.curves.tail = 64 → f.curves.arr.getD 63 NULL_CURVE = TAIL_CURVE
  xnn : ∀ k, 1 ≤ k → k < stackSize f.curves → 0 ≤ (liveGet f.curves k).x
  xle : ∀ k, 1 ≤ k → k < stackSize f.curves → (liveGet f.curves k).x ≤ X
  bnn : ∀ k, 1 ≤ k → k < stackSize f.curves → 0 ≤ (liveGet f.curves k).b
  mono : ∀ j k, 1 ≤ j → j ≤ k → k < stackSize f.curves →
    (liveGet f.curves j).x ≤ (liveGet f.curves k).x ∧
    (liveGet f.curves j).b ≤ (liveGet f.curves k).b

/-- The loop invariant of the pruning loop of `step_helper`, relating the
current stack `s` and the freshly popped curve `p` to the fixed
accumulator `acc` (built from the step inputs `(x, b)`) and the running
count total `X`: the stack keeps the shape facts of `PfInv` (well-formed,
nonempty, `TAIL` at the bottom, stale `TAIL` below a wrapped tail), every
stored curve above the bottom is bounded and below `p`, and `acc`
dominates `p` by at least the step margin `(x, b)`. -/
structure PruneInv (X x : ℤ) (b : ℚ) (acc : curve) (s : stack) (p : curve) :
    Prop where
  wf : StackWF s
  size1 : 1 ≤ stackSize s
  bottom : liveGet s 0 = TAIL_CURVE
  t64 : s.tail = 64 → s.arr.getD 63 NULL_CURVE = TAIL_CURVE
  xnn : ∀ k, 1 ≤ k → k < stackSize s → 0 ≤ (liveGet s k).x
  xle : ∀ k, 1 ≤ k → k < stackSize s → (liveGet s k).x ≤ X
  bnn : ∀ k, 1 ≤ k → k < stackSize s → 0 ≤ (liveGet s k).b
  mono : ∀ j k, 1 ≤ j → j ≤ k → k < stackSize s →
    (liveGet s j).x ≤ (liveGet s k).x ∧ (liveGet s j).b ≤ (liveGet s k).b
  ple : ∀ k, 1 ≤ k → k < stackSize s →
    (liveGet s k).x ≤ p.x ∧ (liveGet s k).b ≤ p.b
  pxnn : 0 ≤ p.x
  pxle : p.x ≤ X
  pbnn : 0 ≤ p.b
  paccx : p.x + x ≤ acc.x
  paccb : p.b + b ≤ acc.b

/-- Well-formedness of the count queue buffer geometry. -/
structure QueueWF (q : queue) : Prop where
  len : q.arr.length = q.len + 1
  head_le : q.head ≤ q.len
  tail_le : q.tail ≤ q.len

/-- The FOCuS-SES invariant maintained by every reachable state: parameter
domains, queue geometry, the queue fill level in each lifecycle phase, the
countdown range, and the latched facts in the `STOP` phase. -/
structure PfsInv (f : pfs) : Prop where
  m1 : 1 ≤ f.m
  sleep0 : 0 ≤ f.sleep
  qlen : f.queue.len = f.m.toNat
  qwf : QueueWF f.queue
  collect : f.status.code = pfs_status_codes.COLLECT →
    (qsize f.queue : ℤ) = f.sleep + f.m - f.t ∧ f.sleep < f.t ∧
    f.t ≤ f.sleep + f.m
  update : f.status.code = pfs_status_codes.UPDATE →
    (qsize f.queue : ℤ) = f.m ∧ 0 < f.t ∧ f.t ≤ f.sleep
  test : f.status.code = pfs_status_codes.TEST → (qsize f.queue : ℤ) = f.m
  notStop : f.status.code ≠ pfs_status_codes.STOP →
    f.focus.status.code = pf_status_codes.TEST
  stopFacts : f.status.code = pfs_status_codes.STOP →
    f.status.latest_error = PFS_ERROR_INVALID_INPUT ∧
    f.focus.change = (⟨0, 0⟩ : change) ∧
    f.focus.status.code = pf_status_codes.STOP

/-- The BFT invariant maintained by every reachable state: four detectors,
each satisfying the FOCuS-SES invariant, sharing the manager's `sleep` and
`m`; a dead bitmap below `2^4` whose set bits point at stopped detectors;
and phase synchronization: either all detectors are in the same warm-up
phase with the same countdown, or every detector is in `TEST` or `STOP`. -/
structure BftInv (b : bft) : Prop where
  len4 : b.fs.length = DETECTORS_NUMBER
  maj1 : 1 ≤ b.majority
  ba16 : b.bitarray < 16
  each : ∀ f ∈ b.fs, PfsInv f
  sleepEq : ∀ f ∈ b.fs, f.sleep = b.sleep
  deadBit : ∀ i, i < DETECTORS_NUMBER → b.bitarray.testBit i →
    (b.fs.getD i default).status.code = pfs_status_codes.STOP
  sync :
    (∃ t0 c, (c = pfs_status_codes.COLLECT ∨ c = pfs_status_codes.UPDATE) ∧
      ∀ f ∈ b.fs, f.status.code = c ∧ f.t = t0) ∨
    (∀ f ∈ b.fs, f.status.code = pfs_status_codes.TEST ∨
      f.status.code = pfs_status_codes.STOP)

/-- A concrete stand-in for `log` used to instantiate theorems whose
conclusions do not depend on the value of `log`. -/
def Lzero : ℚ → ℚ := fun _ => 0

/-- A concrete stand-in for `sqrt` with `Szero 0 = 0`, as the real square
root satisfies. -/
def Szero : ℚ → ℚ := fun _ => 0

/-- A concrete stand-in for `log` with `1 ≤ Lone 8`, as the real (natural)
logarithm satisfies. -/
def Lone : ℚ → ℚ := fun _ => 1

/-- A concrete zeroed curve-stack buffer of `STACK_LEN` slots. -/
def bufZ : List curve := List.replicate STACK_LEN NULL_CURVE

/-- A concrete zeroed queue buffer of `n` slots. -/
def qbufZ (n : ℕ) : List ℤ := List.replicate n 0

/-- Concrete zeroed per-detector buffers (stack and queue for `m = 1`). -/
def bufsZ : ℕ → List curve × List ℤ := fun _ => (bufZ, qbufZ 2)

/-! ## Theorems -/

set_option maxHeartbeats 4000000 in
/-- C1 (code-bug evaluation): the offline drivers, run on error-free and
trigger-free series, convert the change using `t = len − 1`, producing the
changepoint `(0, len, len − 1)` — not the `(0, len + 1, len)` documented in
the source comments and the specification.  Evaluated here at `len = 1`
(`pf`: `xs = [0]`, `bs = [1]`) and `len = 2` (`pfs`: `xs = [5,5]`, `m = 1`,
`sleep = 0`, `alpha = 0`): the code returns `(0, 1, 0)` and `(0, 2, 1)`
where the claim demands `(0, 2, 1)` and `(0, 3, 2)` respectively. -/
theorem C1_offline_no_trigger_eval :
    pf_interface Lzero Szero bufZ [0] [1] 1 1
      = (PF_NO_ERRORS, (⟨0, 1, 0⟩ : pf_changepoint)) ∧
    pfs_interface Lzero Szero bufZ (qbufZ 2) false [5, 5] 1 1 0 1 0
      = (PFS_NO_ERRORS, (⟨0, 2, 1⟩ : pf_changepoint)) :=
  ⟨rfl, rfl⟩

set_option maxHeartbeats 4000000 in
/-- C2 (counterexample): the all-zeros FOCuS-SES scenario does not return
the changepoint `(0, 7, 6)` stated by the claim; the error occurs at loop
index `t = 5` (0-based) and the driver returns `(0, 6, 5)`. -/
theorem C2_counterexample :
    (pfs_interface Lzero Szero bufZ (qbufZ 6) false (List.replicate 20 0)
        5 (11/10) (1/10) 5 0).2 ≠ (⟨0, 7, 6⟩ : pf_changepoint) := by
  decide

set_option maxHeartbeats 4000000 in
/-- C2 (amended): with `threshold_std = 5`, `mu_min = 1.1`, `alpha = 0.1`,
`m = 5`, `sleep = 0` and input `[0]*20`, the background seeds to `0` at the
fifth call (the state is then in `TEST`), the sixth call feeds `b = 0` into
FOCuS and latches `INVALID_INPUT`, and the offline driver returns
`PFS_ERROR_INVALID_INPUT` with changepoint `(0, 6, 5)`: the error step is
`t = 5` in the driver's 0-based counting, so the `(0, t + 1, t)` convention
yields `(0, 6, 5)`, not the `(0, 7, 6)` of the claim.  The run never
consults the `log` stand-in (the error fires before any anomalous branch),
which the final conjunct witnesses by replaying it under a different one;
of `sqrt` only `sqrt 0 = 0` is used, as `Szero` satisfies. -/
theorem C2_all_zeros_scenario :
    (pfs_run Lzero (pfs_mk Lzero bufZ (qbufZ 6) 5 (11/10) (1/10) 5 0) false
        (List.replicate 5 0)).1.lambda_t = 0 ∧
    (pfs_run Lzero (pfs_mk Lzero bufZ (qbufZ 6) 5 (11/10) (1/10) 5 0) false
        (List.replicate 5 0)).1.status.code = pfs_status_codes.TEST ∧
    (pfs_run Lzero (pfs_mk Lzero bufZ (qbufZ 6) 5 (11/10) (1/10) 5 0) false
        (List.replicate 6 0)).1.status
      = (⟨pfs_status_codes.STOP, PFS_ERROR_INVALID_INPUT⟩ : pfs_status) ∧
    pfs_interface Lzero Szero bufZ (qbufZ 6) false (List.replicate 20 0)
        5 (11/10) (1/10) 5 0
      = (PFS_ERROR_INVALID_INPUT, (⟨0, 6, 5⟩ : pf_changepoint)) ∧
    pfs_interface Lone Szero bufZ (qbufZ 6) false (List.replicate 20 0)
        5 (11/10) (1/10) 5 0
      = (PFS_ERROR_INVALID_INPUT, (⟨0, 6, 5⟩ : pf_changepoint)) :=
  ⟨rfl, rfl, rfl, rfl, rfl⟩


/-- C10: for every valid set of init parameters, the offline drivers called
with `len = 0` return `NO_ERRORS` yet compute the changepoint from
`t = len − 1` wrapped modulo `2^64`: `triggertime = 2^64 − 1` and
`changepoint = (2^64 − 1) − 0 + 1 ≡ 0 (mod 2^64)`. -/
theorem C10_len_zero_wraparound (L S : ℚ → ℚ) (hS : S 0 = 0)
    (buf : List curve) (qbuf : List ℤ) (bufs : ℕ → List curve × List ℤ)
    (thr mu alpha : ℚ) (m sleep majority : ℤ)
    (hthr : 0 < thr) (hmu : 1 ≤ mu) (ha0 : 0 ≤ alpha) (ha1 : alpha ≤ 1)
    (hm : 1 ≤ m) (hs : 0 ≤ sleep) (hj1 : 1 ≤ majority) (hj4 : majority ≤ 4) :
    pf_interface L S buf [] [] thr mu
      = (PF_NO_ERRORS, (⟨0, 0, 18446744073709551615⟩ : pf_changepoint)) ∧
    pfs_interface L S buf qbuf false [] thr mu alpha m sleep
      = (PFS_NO_ERRORS, (⟨0, 0, 18446744073709551615⟩ : pf_changepoint)) ∧
    bft_interface L S bufs [] 0 thr mu alpha m sleep majority
      = (BFT_NO_ERRORS,
         List.replicate 4 (⟨0, 0, 18446744073709551615⟩ : pf_changepoint)) := by
  have hpf : ¬(thr ≤ 0 ∨ mu < 1) := by
    push_neg
    exact ⟨hthr, hmu⟩
  have hc1 : pf_check_init_parameters thr mu = PF_NO_ERRORS := by
    rw [pf_check_init_parameters, if_neg hpf]
  have hc2 : pfs_check_init_parameters thr mu alpha m sleep = PFS_NO_ERRORS := by
    rw [pfs_check_init_parameters, if_neg]
    rintro (h | h | h | h | h)
    · rw [hc1] at h
      exact absurd h (by decide)
    · linarith
    · linarith
    · linarith
    · linarith
  have hc3 : bft_check_init_parameters thr mu alpha m sleep majority
      = BFT_NO_ERRORS := by
    rw [bft_check_init_parameters, if_neg]
    rintro (h | h | h)
    · rw [hc2] at h
      exact absurd h (by decide)
    · linarith
    · simp only [DETECTORS_NUMBER] at h
      push_cast at h
      linarith
  have hmod1 : mod64 ((0 : ℤ) - 1) = 18446744073709551615 := by decide
  have hmod2 : mod64 ((18446744073709551615 : ℕ) - (0 : ℤ) + 1) = 0 := by decide
  have hS2 : S (2 * 0) = 0 := by
    rw [mul_zero]
    exact hS
  have h0m : (0 : ℤ) < m := by linarith
  refine ⟨?_, ?_, ?_⟩
  · simp only [pf_interface, pf_init, if_neg hpf, List.zip, List.zipWith,
      pf_iface_loop, List.length_nil, if_pos rfl, hmod1, pf_get_change, pf_mk,
      pf_change2changepoint, hS2, hmod2]
    norm_num [mod64]
    decide
  · simp only [pfs_interface, pfs_init, hc2, if_neg (by decide : ¬(PFS_NO_ERRORS = PFS_ERROR_INVALID_INPUT)),
      pfs_iface_loop, List.length_nil, if_pos rfl, hmod1, pfs_get_change,
      pf_get_change, pfs_mk, pf_mk, pf_change2changepoint, if_pos h0m, hS2,
      hmod2]
    norm_num [mod64]
    decide
  · simp only [bft_interface, bft_init, hc3, if_neg (by decide : ¬(BFT_NO_ERRORS = BFT_ERROR_INVALID_INPUT)),
      bft_iface_loop, if_pos rfl, hmod1, bft_get_changes,
      bft_changes2changepoints, bft_mk, pfs_mk, DETECTORS_NUMBER,
      show List.range 4 = [0, 1, 2, 3] from rfl, List.map_cons, List.map_nil,
      pfs_get_change, pf_get_change, pf_mk, if_pos h0m, hS2, hmod2]
    norm_num [mod64]
    decide

/-- C10 (witness): the length-zero theorem applied at concrete values. -/
theorem C10_len_zero_wraparound_witness :
    pf_interface Lzero Szero bufZ [] [] 1 1
      = (PF_NO_ERRORS, (⟨0, 0, 18446744073709551615⟩ : pf_changepoint)) ∧
    pfs_interface Lzero Szero bufZ (qbufZ 2) false [] 1 1 0 1 0
      = (PFS_NO_ERRORS, (⟨0, 0, 18446744073709551615⟩ : pf_changepoint)) ∧
    bft_interface Lzero Szero (fun _ => (bufZ, qbufZ 2)) [] 0 1 1 0 1 0 1
      = (BFT_NO_ERRORS,
         List.replicate 4 (⟨0, 0, 18446744073709551615⟩ : pf_changepoint)) :=
  C10_len_zero_wraparound Lzero Szero rfl bufZ (qbufZ 2)
    (fun _ => (bufZ, qbufZ 2)) 1 1 0 1 0 1 (by decide) (by decide) (by decide)
    (by decide) (by decide) (by decide) (by decide) (by decide)

/-! ### Buffer index lemmas -/

theorem getD_set_self {α : Type} (l : List α) (i : ℕ) (a d : α)
    (h : i < l.length) : (l.set i a).getD i d = a := by
  induction l generalizing i with
  | nil => simp at h
  | cons x xs ih =>
    cases i with
    | zero => rfl
    | succ n =>
      simp only [List.set_cons_succ, List.getD_cons_succ]
      exact ih n (by simpa using h)

theorem getD_set_ne {α : Type} (l : List α) {i j : ℕ} (a d : α)
    (h : i ≠ j) : (l.set i a).getD j d = l.getD j d := by
  induction l generalizing i j with
  | nil => rfl
  | cons x xs ih =>
    cases i with
    | zero =>
      cases j with
      | zero => exact absurd rfl h
      | succ n => rfl
    | succ n =>
      cases j with
      | zero => rfl
      | succ k =>
        simp only [List.set_cons_succ, List.getD_cons_succ]
        exact ih (fun e => h (congrArg Nat.succ e))

/-- Size of a well-formed stack never exceeds `PF_MAXCURVES`. -/
theorem stackSize_le (s : stack) (hwf : StackWF s) :
    stackSize s ≤ PF_MAXCURVES := by
  have hc := hwf.cap
  rw [PF_MAXCURVES] at hc
  unfold stackSize PF_MAXCURVES
  rw [hc]
  omega

/-- C6: `stack_push` on a full stack advances the tail one slot, overwrites
that slot with `TAIL_CURVE`, writes the new curve at the (old) head and
advances the head; the stored sequence afterwards is `TAIL_CURVE`, then the
old stored curves with the bottom two (the old `TAIL_CURVE` and the oldest
real curve) removed, then the new curve — so the oldest real curve is
discarded, the stack still holds exactly 64 curves, and (final conjunct) no
well-formed stack ever holds more than `PF_MAXCURVES = 64` curves.  `push`
is total: overflow produces no error and does not halt the algorithm. -/
theorem C6_stack_push_overflow (s : stack) (q : curve)
    (hwf : StackWF s) (hfull : stack_full s = true) :
    (stack_push s q).tail = (s.tail + 1) % 65 ∧
    (stack_push s q).arr.getD ((s.tail + 1) % 65) NULL_CURVE = TAIL_CURVE ∧
    (stack_push s q).arr.getD s.head NULL_CURVE = q ∧
    (stack_push s q).head = (s.head + 1) % 65 ∧
    stackSize (stack_push s q) = 64 ∧
    liveGet (stack_push s q) 0 = TAIL_CURVE ∧
    (∀ k, 1 ≤ k → k ≤ 62 → liveGet (stack_push s q) k = liveGet s (k + 1)) ∧
    liveGet (stack_push s q) 63 = q ∧
    (∀ s2 : stack, StackWF s2 → stackSize s2 ≤ 64) := by
  obtain ⟨hcap, hlen, hhead, htail⟩ := hwf
  rw [PF_MAXCURVES] at hcap hhead htail
  rw [STACK_LEN, PF_MAXCURVES] at hlen
  -- arithmetic form of fullness
  have hfull2 : (s.head + 1) % 65 = s.tail := by
    rw [stack_full, hcap] at hfull
    by_cases hh : s.head = 64
    · simp only [hh, beq_self_eq_true, if_true, beq_iff_eq] at hfull
      omega
    · rw [if_neg (by simpa using hh)] at hfull
      have := beq_iff_eq.mp hfull
      omega
  have hfullb : stack_full s = true := hfull
  -- unfold the push on a full stack
  have hpush : stack_push s q =
      { s with
        tail := if s.tail == s.capacity then 0 else s.tail + 1,
        arr := ((s.arr.set (if s.tail == s.capacity then 0 else s.tail + 1)
                  TAIL_CURVE).set s.head q),
        head := if s.head == s.capacity then 0 else s.head + 1 } := by
    rw [stack_push, if_pos hfullb]
  have ht2 : (if s.tail == s.capacity then 0 else s.tail + 1)
      = (s.tail + 1) % 65 := by
    rw [hcap]
    by_cases ht : s.tail = 64
    · simp [ht]
    · rw [if_neg (by simpa using ht)]
      omega
  have hh2 : (if s.head == s.capacity then 0 else s.head + 1)
      = (s.head + 1) % 65 := by
    rw [hcap]
    by_cases hh : s.head = 64
    · simp [hh]
    · rw [if_neg (by simpa using hh)]
      omega
  rw [ht2, hh2] at hpush
  have hne : s.head ≠ (s.tail + 1) % 65 := by omega
  have htlt : (s.tail + 1) % 65 < s.arr.length := by omega
  have hhlt : s.head < s.arr.length := by omega
  have hhlt2 : s.head < (s.arr.set ((s.tail + 1) % 65) TAIL_CURVE).length := by
    simpa using hhlt
  have harr : (stack_push s q).arr
      = (s.arr.set ((s.tail + 1) % 65) TAIL_CURVE).set s.head q := by
    rw [hpush]
  have hhd : (stack_push s q).head = (s.head + 1) % 65 := by rw [hpush]
  have htl : (stack_push s q).tail = (s.tail + 1) % 65 := by rw [hpush]
  have hcp : (stack_push s q).capacity = 64 := by rw [hpush]; exact hcap
  refine ⟨htl, ?_, ?_, hhd, ?_, ?_, ?_, ?_, ?_⟩
  · rw [harr, getD_set_ne _ _ _ hne, getD_set_self _ _ _ _ htlt]
  · rw [harr, getD_set_self _ _ _ _ hhlt2]
  · unfold stackSize
    rw [hhd, htl, hcp]
    omega
  · unfold liveGet
    rw [harr, htl, hcp]
    have hidx : ((s.tail + 1) % 65 + 0) % (64 + 1) = (s.tail + 1) % 65 := by
      omega
    rw [hidx, getD_set_ne _ _ _ hne, getD_set_self _ _ _ _ htlt]
  · intro k hk1 hk2
    unfold liveGet
    rw [harr, htl, hcp]
    have hidx : ((s.tail + 1) % 65 + k) % (64 + 1) = (s.tail + k + 1) % 65 := by
      omega
    rw [hidx]
    have h1 : s.head ≠ (s.tail + k + 1) % 65 := by omega
    have h2 : (s.tail + 1) % 65 ≠ (s.tail + k + 1) % 65 := by omega
    rw [getD_set_ne _ _ _ h1, getD_set_ne _ _ _ h2]
    have hidx2 : (s.tail + (k + 1)) % (s.capacity + 1) = (s.tail + k + 1) % 65 := by
      rw [hcap]
      omega
    rw [hidx2]
  · unfold liveGet
    rw [harr, htl, hcp]
    have hidx : ((s.tail + 1) % 65 + 63) % (64 + 1) = s.head := by omega
    rw [hidx, getD_set_self _ _ _ _ hhlt2]
  · intro s2 hwf2
    exact stackSize_le s2 hwf2

/-- C6 (witness): a concrete full stack with `TAIL_CURVE` at the bottom. -/
theorem C6_stack_push_overflow_witness :
    (stack_push ⟨64, 0, 64, TAIL_CURVE :: List.replicate 64 NULL_CURVE⟩
        (⟨7, 1, 3, 0⟩ : curve)).tail = 1 ∧
    stackSize (stack_push ⟨64, 0, 64, TAIL_CURVE :: List.replicate 64 NULL_CURVE⟩
        (⟨7, 1, 3, 0⟩ : curve)) = 64 := by
  have h := C6_stack_push_overflow
    ⟨64, 0, 64, TAIL_CURVE :: List.replicate 64 NULL_CURVE⟩ (⟨7, 1, 3, 0⟩ : curve)
    ⟨rfl, by decide, by decide, by decide⟩ (by decide)
  exact ⟨h.1, h.2.2.2.2.1⟩

/-! ### Step-level behavior of the latched states -/

/-- Whenever `pf_step` reports an error, it has written `false` to the
trigger flag. -/
theorem pf_step_flag_false_of_err (L : ℚ → ℚ) (f : pf) (x : ℤ) (b : ℚ)
    (h : (pf_step L f x b).2.2 ≠ PF_NO_ERRORS) :
    (pf_step L f x b).2.1 = false := by
  cases hc : f.status.code with
  | TEST =>
    by_cases hcond : (b ≤ 0 ∨ x < 0)
    · simp [pf_step, hc, hcond]
    · simp [pf_step, hc, hcond] at h
  | STOP => simp [pf_step, hc]

/-- `step_helper` does not change the status. -/
theorem step_helper_status (L : ℚ → ℚ) (f : pf) (x : ℤ) (b : ℚ) :
    (step_helper L f x b).status = f.status := by
  rw [step_helper]
  split <;> rfl

/-- `pf_step` in the `STOP` state does nothing and re-emits the latched
error with the flag cleared. -/
theorem pf_step_stop (L : ℚ → ℚ) (f : pf) (x : ℤ) (b : ℚ)
    (h : f.status.code = pf_status_codes.STOP) :
    pf_step L f x b = (f, false, f.status.latest_error) := by
  simp [pf_step, h]

/-- `pf_run` from a stopped state never changes the state. -/
theorem pf_run_stop (L : ℚ → ℚ) (f : pf)
    (h : f.status.code = pf_status_codes.STOP) :
    ∀ xs : List (ℤ × ℚ), pf_run L f xs = f := by
  intro xs
  induction xs with
  | nil => rfl
  | cons p rest ih =>
    obtain ⟨x, b⟩ := p
    rw [pf_run, pf_step_stop L f x b h]
    exact ih

/-- `pfs_step` in the `STOP` state does nothing, re-emits the latched
error, and leaves the caller's flag variable unwritten. -/
theorem pfs_step_stop (L : ℚ → ℚ) (f : pfs) (g : Bool) (x : ℤ)
    (h : f.status.code = pfs_status_codes.STOP) :
    pfs_step L f g x = (f, g, f.status.latest_error) := by
  simp [pfs_step, h]

/-- `pfs_run` from a stopped state changes neither the state nor the
threaded flag. -/
theorem pfs_run_stop (L : ℚ → ℚ) (f : pfs) (g : Bool)
    (h : f.status.code = pfs_status_codes.STOP) :
    ∀ xs : List ℤ, pfs_run L f g xs = (f, g) := by
  intro xs
  induction xs with
  | nil => rfl
  | cons x rest ih =>
    rw [pfs_run]
    simp only [pfs_step_stop L f g x h]
    exact ih

/-- C4: on a running (`TEST`) FOCuS instance, an observation with `x < 0`
or `b ≤ 0` makes `pf_step` latch `STOP`/`INVALID_INPUT`, clear the change,
and return `INVALID_INPUT` with `trigger = false`; every subsequent
`pf_step` call performs no state update and returns the latched
`INVALID_INPUT` with `trigger = false` (also along arbitrary further runs).
`pfs_step` behaves the same when its inner FOCuS rejects the input: the
erroring call reports `trigger = false` and latches `STOP`, and subsequent
calls leave the state and the (false) threaded flag unchanged while
re-emitting the latched `INVALID_INPUT`. -/
theorem C4_invalid_input_latches_stop :
    (∀ (L : ℚ → ℚ) (f : pf) (x : ℤ) (b : ℚ),
      f.status.code = pf_status_codes.TEST → (x < 0 ∨ b ≤ 0) →
      pf_step L f x b = (pf_latched f, false, PF_ERROR_INVALID_INPUT)) ∧
    (∀ (L : ℚ → ℚ) (f : pf) (x : ℤ) (b : ℚ),
      f.status.code = pf_status_codes.STOP →
      f.status.latest_error = PF_ERROR_INVALID_INPUT →
      pf_step L f x b = (f, false, PF_ERROR_INVALID_INPUT)) ∧
    (∀ (L : ℚ → ℚ) (f : pf) (xs : List (ℤ × ℚ)),
      f.status.code = pf_status_codes.STOP → pf_run L f xs = f) ∧
    (∀ (L : ℚ → ℚ) (f : pfs) (g : Bool) (x : ℤ),
      f.status.code = pfs_status_codes.TEST →
      (pfs_step L f g x).2.2 = PFS_ERROR_INVALID_INPUT →
      (pfs_step L f g x).1.status
          = (⟨pfs_status_codes.STOP, PFS_ERROR_INVALID_INPUT⟩ : pfs_status) ∧
      (pfs_step L f g x).2.1 = false) ∧
    (∀ (L : ℚ → ℚ) (f : pfs) (g : Bool) (x : ℤ),
      f.status.code = pfs_status_codes.STOP →
      f.status.latest_error = PFS_ERROR_INVALID_INPUT →
      pfs_step L f g x = (f, g, PFS_ERROR_INVALID_INPUT)) ∧
    (∀ (L : ℚ → ℚ) (f : pfs) (xs : List ℤ),
      f.status.code = pfs_status_codes.STOP →
      pfs_run L f false xs = (f, false)) := by
  refine ⟨?_, ?_, ?_, ?_, ?_, ?_⟩
  · intro L f x b hc hbad
    have hcond : b ≤ 0 ∨ x < 0 := hbad.symm
    simp [pf_step, hc, if_pos hcond, pf_latched]
  · intro L f x b hc herr
    rw [pf_step_stop L f x b hc, herr]
  · intro L f xs hc
    exact pf_run_stop L f hc xs
  · intro L f g x hc herr
    simp only [pfs_step, hc] at herr ⊢
    by_cases hcond : (step_test L f x).2.2 = PF_ERROR_INVALID_INPUT
    · rw [if_pos hcond]
      refine ⟨rfl, ?_⟩
      show (step_test L f x).2.1 = false
      simp only [step_test] at hcond ⊢
      have hflag : (pf_step L f.focus x
          (update_bkg f (queue_dequeue f.queue).2)).2.1 = false := by
        apply pf_step_flag_false_of_err
        rw [hcond]
        decide
      simp only [pfs_triggered, hflag, Bool.false_eq_true, if_false]
    · rw [if_neg hcond] at herr
      simp at herr
  · intro L f g x hc herr
    rw [pfs_step_stop L f g x hc, herr]
  · intro L f xs hc
    exact pfs_run_stop L f false hc xs

/-- C4 (witness): the latch-and-stop theorem applied at concrete inputs: a
fresh FOCuS fed `x = −1`, and a FOCuS-SES just past its collect phase
(`m = 1`, `sleep = 0`) fed `x = −3` in `TEST` state. -/
theorem C4_invalid_input_latches_stop_witness :
    pf_step Lzero (pf_mk Lzero bufZ 1 1) (-1) 1
      = (pf_latched (pf_mk Lzero bufZ 1 1), false, PF_ERROR_INVALID_INPUT) ∧
    pf_run Lzero (pf_latched (pf_mk Lzero bufZ 1 1)) [((5 : ℤ), (1 : ℚ))]
      = pf_latched (pf_mk Lzero bufZ 1 1) ∧
    ((pfs_step Lzero
        (pfs_run Lzero (pfs_mk Lzero bufZ (qbufZ 2) 1 1 0 1 0) false [2]).1
        false (-3)).1.status
      = (⟨pfs_status_codes.STOP, PFS_ERROR_INVALID_INPUT⟩ : pfs_status) ∧
     (pfs_step Lzero
        (pfs_run Lzero (pfs_mk Lzero bufZ (qbufZ 2) 1 1 0 1 0) false [2]).1
        false (-3)).2.1 = false) ∧
    pfs_run Lzero
      (pfs_step Lzero
        (pfs_run Lzero (pfs_mk Lzero bufZ (qbufZ 2) 1 1 0 1 0) false [2]).1
        false (-3)).1 false [0, 1]
      = ((pfs_step Lzero
          (pfs_run Lzero (pfs_mk Lzero bufZ (qbufZ 2) 1 1 0 1 0) false [2]).1
          false (-3)).1, false) :=
  ⟨C4_invalid_input_latches_stop.1 Lzero (pf_mk Lzero bufZ 1 1) (-1) 1 rfl
      (Or.inl (by decide)),
   C4_invalid_input_latches_stop.2.2.1 Lzero (pf_latched (pf_mk Lzero bufZ 1 1))
      [((5 : ℤ), (1 : ℚ))] rfl,
   C4_invalid_input_latches_stop.2.2.2.1 Lzero
      (pfs_run Lzero (pfs_mk Lzero bufZ (qbufZ 2) 1 1 0 1 0) false [2]).1
      false (-3) rfl rfl,
   C4_invalid_input_latches_stop.2.2.2.2.2 Lzero
      (pfs_step Lzero
        (pfs_run Lzero (pfs_mk Lzero bufZ (qbufZ 2) 1 1 0 1 0) false [2]).1
        false (-3)).1 [0, 1] rfl⟩

/-! ### Queue arithmetic -/

theorem queue_wf_enqueue (q : queue) (n : ℤ) (h : QueueWF q) :
    QueueWF (queue_enqueue q n) := by
  obtain ⟨hl, hh, ht⟩ := h
  refine ⟨?_, ?_, ?_⟩ <;> simp only [queue_enqueue, List.length_set]
  · exact hl
  · exact hh
  · split <;> omega

theorem queue_wf_dequeue (q : queue) (h : QueueWF q) :
    QueueWF (queue_dequeue q).1 := by
  obtain ⟨hl, hh, ht⟩ := h
  refine ⟨hl, ?_, ht⟩
  simp only [queue_dequeue]
  split <;> omega

/-- Closed form of the queue fill level on well-formed queues (no modulus
with a symbolic divisor). -/
theorem qsize_closed (q : queue) (h : QueueWF q) :
    qsize q = if q.head ≤ q.tail then q.tail - q.head
              else q.tail + (q.len + 1) - q.head := by
  obtain ⟨hl, hh, ht⟩ := h
  unfold qsize
  by_cases hcase : q.head ≤ q.tail
  · rw [if_pos hcase]
    have hge : q.len + 1 ≤ q.tail + (q.len + 1) - q.head := by omega
    rw [Nat.mod_eq_sub_mod hge]
    have heq : q.tail + (q.len + 1) - q.head - (q.len + 1)
        = q.tail - q.head := by omega
    rw [heq]
    exact Nat.mod_eq_of_lt (by omega)
  · rw [if_neg hcase]
    exact Nat.mod_eq_of_lt (by omega)

theorem qsize_enqueue (q : queue) (n : ℤ) (h : QueueWF q)
    (hlt : qsize q < q.len) : qsize (queue_enqueue q n) = qsize q + 1 := by
  have h2 := queue_wf_enqueue q n h
  rw [qsize_closed _ h2, qsize_closed _ h]
  rw [qsize_closed _ h] at hlt
  obtain ⟨hl, hh, ht⟩ := h
  simp only [queue_enqueue] at *
  split_ifs at * <;> omega

theorem qsize_dequeue (q : queue) (h : QueueWF q) (h1 : 1 ≤ qsize q) :
    qsize (queue_dequeue q).1 = qsize q - 1 := by
  have h2 := queue_wf_dequeue q h
  rw [qsize_closed _ h2, qsize_closed _ h]
  rw [qsize_closed _ h] at h1
  obtain ⟨hl, hh, ht⟩ := h
  simp only [queue_dequeue] at *
  split_ifs at * <;> omega

theorem queue_full_iff (q : queue) (h : QueueWF q) :
    queue_full q = true ↔ qsize q = q.len := by
  rw [qsize_closed _ h]
  obtain ⟨hl, hh, ht⟩ := h
  unfold queue_full
  rw [beq_iff_eq]
  by_cases hcase : q.tail = q.len
  · rw [hcase, Nat.mod_self]
    split_ifs
    omega
  · rw [Nat.mod_eq_of_lt (by omega)]
    split_ifs <;> omega

theorem queue_empty_iff (q : queue) (h : QueueWF q) :
    queue_empty q = true ↔ qsize q = 0 := by
  rw [qsize_closed _ h]
  obtain ⟨hl, hh, ht⟩ := h
  unfold queue_empty
  rw [beq_iff_eq]
  split_ifs <;> omega

/-! ### The FOCuS-SES invariant -/

/-- A freshly initialized FOCuS-SES state (validated parameters, queue
buffer of `m + 1` slots) satisfies `PfsInv`. -/
theorem pfsInv_init (L : ℚ → ℚ) (buf : List curve) (qbuf : List ℤ)
    (thr mu alpha : ℚ) (m sleep : ℤ)
    (hck : pfs_check_init_parameters thr mu alpha m sleep = PFS_NO_ERRORS)
    (hq : qbuf.length = m.toNat + 1) :
    PfsInv (pfs_mk L buf qbuf thr mu alpha m sleep) := by
  have hms : 1 ≤ m ∧ 0 ≤ sleep := by
    rw [pfs_check_init_parameters] at hck
    by_cases hcond : (pf_check_init_parameters thr mu = PF_ERROR_INVALID_INPUT
        ∨ alpha < 0 ∨ alpha > 1 ∨ m < 1 ∨ sleep < 0)
    · rw [if_pos hcond] at hck
      exact absurd hck (by decide)
    · push_neg at hcond
      omega
  refine ⟨hms.1, hms.2, rfl, ⟨hq, by simp [pfs_mk, queue_init],
      by simp [pfs_mk, queue_init]⟩, ?_, ?_, ?_, ?_, ?_⟩
  · intro _
    refine ⟨?_, by simp [pfs_mk]; omega, by simp [pfs_mk]⟩
    have hz : qsize (pfs_mk L buf qbuf thr mu alpha m sleep).queue = 0 := by
      simp [pfs_mk, queue_init, qsize]
    rw [hz]
    simp [pfs_mk]
  · intro hcode
    simp [pfs_mk] at hcode
  · intro hcode
    simp [pfs_mk] at hcode
  · intro _
    rfl
  · intro hcode
    simp [pfs_mk] at hcode

/-- `pfs_step` preserves `PfsInv` (for either incoming flag value and any
count). -/
theorem pfsInv_step (L : ℚ → ℚ) (f : pfs) (g : Bool) (x : ℤ)
    (ih : PfsInv f) : PfsInv (pfs_step L f g x).1 := by
  cases hc : f.status.code with
  | COLLECT =>
    obtain ⟨hsz, hts, htm⟩ := ih.collect hc
    have hqlt : qsize f.queue < f.queue.len := by
      rw [ih.qlen]
      omega
    have hwf2 := queue_wf_enqueue f.queue x ih.qwf
    have hsz2 := qsize_enqueue f.queue x ih.qwf hqlt
    simp only [pfs_step, hc]
    by_cases hcond : f.t - 1 = f.sleep
    · rw [if_pos hcond]
      refine ⟨ih.m1, ih.sleep0, ih.qlen, hwf2, ?_, ?_, ?_, ?_, ?_⟩
      · intro hcode
        have hcode2 : (if f.sleep ≠ 0 then pfs_status_codes.UPDATE
            else pfs_status_codes.TEST) = pfs_status_codes.COLLECT := hcode
        split at hcode2 <;> simp at hcode2
      · intro hcode
        have hcode2 : (if f.sleep ≠ 0 then pfs_status_codes.UPDATE
            else pfs_status_codes.TEST) = pfs_status_codes.UPDATE := hcode
        have hs : f.sleep ≠ 0 := by
          by_contra hs0
          rw [if_neg (not_not_intro hs0)] at hcode2
          exact absurd hcode2 (by decide)
        refine ⟨?_, ?_, ?_⟩
        · show (qsize (queue_enqueue f.queue x) : ℤ) = f.m
          rw [hsz2]
          push_cast
          omega
        · show (0 : ℤ) < f.t - 1
          have := ih.sleep0
          omega
        · show f.t - 1 ≤ f.sleep
          omega
      · intro _
        show (qsize (queue_enqueue f.queue x) : ℤ) = f.m
        rw [hsz2]
        push_cast
        omega
      · intro _
        exact ih.notStop (by rw [hc]; decide)
      · intro hcode
        have hcode2 : (if f.sleep ≠ 0 then pfs_status_codes.UPDATE
            else pfs_status_codes.TEST) = pfs_status_codes.STOP := hcode
        split at hcode2 <;> simp at hcode2
    · rw [if_neg hcond]
      dsimp only
      refine ⟨ih.m1, ih.sleep0, ih.qlen, hwf2, ?_, ?_, ?_, ?_, ?_⟩
      · intro _
        refine ⟨?_, ?_, ?_⟩
        · show (qsize (queue_enqueue f.queue x) : ℤ) = f.sleep + f.m - (f.t - 1)
          rw [hsz2]
          push_cast
          omega
        · show f.sleep < f.t - 1
          omega
        · show f.t - 1 ≤ f.sleep + f.m
          omega
      · intro hcode
        simp [hc] at hcode
      · intro hcode
        simp [hc] at hcode
      · intro _
        exact ih.notStop (by rw [hc]; decide)
      · intro hcode
        simp [hc] at hcode
  | UPDATE =>
    obtain ⟨hsz, ht0, hts⟩ := ih.update hc
    have h1 : 1 ≤ qsize f.queue := by
      have := ih.m1
      omega
    have hwfd := queue_wf_dequeue f.queue ih.qwf
    have hszd := qsize_dequeue f.queue ih.qwf h1
    have hqlt : qsize (queue_dequeue f.queue).1 < (queue_dequeue f.queue).1.len := by
      have : (queue_dequeue f.queue).1.len = f.queue.len := rfl
      rw [this, ih.qlen]
      omega
    have hwf2 := queue_wf_enqueue (queue_dequeue f.queue).1 x hwfd
    have hsz2 := qsize_enqueue (queue_dequeue f.queue).1 x hwfd hqlt
    have hszfin : (qsize (queue_enqueue (queue_dequeue f.queue).1 x) : ℤ)
        = f.m := by
      rw [hsz2, hszd]
      push_cast
      omega
    simp only [pfs_step, hc, step_update]
    by_cases hcond : f.t - 1 = 0
    · rw [if_pos hcond]
      dsimp only
      refine ⟨ih.m1, ih.sleep0, ih.qlen, hwf2, ?_, ?_, ?_, ?_, ?_⟩
      · intro hcode
        simp [hc] at hcode
      · intro hcode
        simp [hc] at hcode
      · intro _
        exact hszfin
      · intro _
        exact ih.notStop (by rw [hc]; decide)
      · intro hcode
        simp [hc] at hcode
    · rw [if_neg hcond]
      dsimp only
      refine ⟨ih.m1, ih.sleep0, ih.qlen, hwf2, ?_, ?_, ?_, ?_, ?_⟩
      · intro hcode
        simp [hc] at hcode
      · intro _
        refine ⟨hszfin, ?_, ?_⟩
        · show (0 : ℤ) < f.t - 1
          omega
        · show f.t - 1 ≤ f.sleep
          omega
      · intro hcode
        simp [hc] at hcode
      · intro _
        exact ih.notStop (by rw [hc]; decide)
      · intro hcode
        simp [hc] at hcode
  | TEST =>
    have hszm := ih.test hc
    have h1 : 1 ≤ qsize f.queue := by
      have := ih.m1
      omega
    have hwfd := queue_wf_dequeue f.queue ih.qwf
    have hszd := qsize_dequeue f.queue ih.qwf h1
    have hqlt : qsize (queue_dequeue f.queue).1 < (queue_dequeue f.queue).1.len := by
      have heq : (queue_dequeue f.queue).1.len = f.queue.len := rfl
      rw [heq, ih.qlen]
      have := ih.m1
      omega
    have hwf2 := queue_wf_enqueue (queue_dequeue f.queue).1 x hwfd
    have hsz2 := qsize_enqueue (queue_dequeue f.queue).1 x hwfd hqlt
    have hszfin : (qsize (queue_enqueue (queue_dequeue f.queue).1 x) : ℤ)
        = f.m := by
      rw [hsz2, hszd]
      push_cast
      omega
    have hfocus := ih.notStop (by rw [hc]; decide)
    simp only [pfs_step, hc]
    by_cases hcond : (step_test L f x).2.2 = PF_ERROR_INVALID_INPUT
    · rw [if_pos hcond]
      dsimp only
      have hinner : (step_test L f x).1.focus
          = (pf_step L f.focus x
              (update_bkg f (queue_dequeue f.queue).2)).1 := rfl
      have hbad : (pf_step L f.focus x
          (update_bkg f (queue_dequeue f.queue).2)).2.2
          = PF_ERROR_INVALID_INPUT := hcond
      have hlatch : (pf_step L f.focus x
          (update_bkg f (queue_dequeue f.queue).2)).1
          = pf_latched f.focus ∧
          (pf_step L f.focus x
            (update_bkg f (queue_dequeue f.queue).2)).2.2
          = PF_ERROR_INVALID_INPUT := by
        by_cases hxb : (update_bkg f (queue_dequeue f.queue).2 ≤ 0 ∨ x < 0)
        · constructor
          · simp [pf_step, hfocus, if_pos hxb, pf_latched]
          · exact hbad
        · exfalso
          simp [pf_step, hfocus, if_neg hxb] at hbad
      refine ⟨ih.m1, ih.sleep0, ih.qlen, hwf2, ?_, ?_, ?_, ?_, ?_⟩
      · intro hcode
        simp [hc] at hcode
      · intro hcode
        simp [hc] at hcode
      · intro hcode
        simp [hc] at hcode
      · intro hcode
        simp [hc] at hcode
      · intro _
        refine ⟨rfl, ?_, ?_⟩
        · show (step_test L f x).1.focus.change = (⟨0, 0⟩ : change)
          rw [hinner, hlatch.1]
          rfl
        · show (step_test L f x).1.focus.status.code = pf_status_codes.STOP
          rw [hinner, hlatch.1]
          rfl
    · rw [if_neg hcond]
      dsimp only
      have hok : (pf_step L f.focus x
          (update_bkg f (queue_dequeue f.queue).2)).2.2
          = PF_NO_ERRORS := by
        by_cases hxb : (update_bkg f (queue_dequeue f.queue).2 ≤ 0 ∨ x < 0)
        · exfalso
          apply hcond
          show (pf_step L f.focus x
            (update_bkg f (queue_dequeue f.queue).2)).2.2
            = PF_ERROR_INVALID_INPUT
          simp [pf_step, hfocus, if_pos hxb]
        · simp [pf_step, hfocus, if_neg hxb]
      have hsteq : (step_test L f x).1.focus.status.code
          = pf_status_codes.TEST := by
        show (pf_step L f.focus x
          (update_bkg f (queue_dequeue f.queue).2)).1.status.code
          = pf_status_codes.TEST
        by_cases hxb : (update_bkg f (queue_dequeue f.queue).2 ≤ 0 ∨ x < 0)
        · exfalso
          apply hcond
          show (pf_step L f.focus x
            (update_bkg f (queue_dequeue f.queue).2)).2.2
            = PF_ERROR_INVALID_INPUT
          simp [pf_step, hfocus, if_pos hxb]
        · simp only [pf_step, hfocus, if_neg hxb]
          rw [step_helper_status]
          exact hfocus
      have hstat : (step_test L f x).1.status = f.status := rfl
      refine ⟨ih.m1, ih.sleep0, ih.qlen, hwf2, ?_, ?_, ?_, ?_, ?_⟩
      · intro hcode
        rw [hstat, hc] at hcode
        exact absurd hcode (by decide)
      · intro hcode
        rw [hstat, hc] at hcode
        exact absurd hcode (by decide)
      · intro _
        exact hszfin
      · intro _
        exact hsteq
      · intro hcode
        rw [hstat, hc] at hcode
        exact absurd hcode (by decide)
  | STOP =>
    rw [pfs_step_stop L f g x hc]
    exact ih

/-- Every reachable FOCuS-SES state satisfies `PfsInv`. -/
theorem pfsReach_inv (L : ℚ → ℚ) (f : pfs) (h : PfsReach L f) : PfsInv f := by
  induction h with
  | init buf qbuf thr mu alpha m sleep hck hq =>
    exact pfsInv_init L buf qbuf thr mu alpha m sleep hck hq
  | step g x hf ih =>
    exact pfsInv_step L _ g x ih

/-- **C9.**  On every state of a FOCuS-SES instance reachable by `pfs_init`
and arbitrary `pfs_step` calls, the count queue's misuse assertions never
fire: in the `COLLECT` phase (the only phase that enqueues without first
dequeuing) the queue is not full and holds fewer than `m` counts, and in
the `UPDATE` and `TEST` phases (which dequeue one count and then enqueue)
the queue holds exactly `m` counts, is not empty before the dequeue, and is
not full at the enqueue that follows the dequeue. -/
theorem C9_queue_never_misused (L : ℚ → ℚ) (f : pfs) (h : PfsReach L f) :
    (f.status.code = pfs_status_codes.COLLECT →
      queue_full f.queue = false ∧ (qsize f.queue : ℤ) < f.m) ∧
    ((f.status.code = pfs_status_codes.UPDATE ∨
      f.status.code = pfs_status_codes.TEST) →
      (qsize f.queue : ℤ) = f.m ∧ queue_empty f.queue = false ∧
      queue_full (queue_dequeue f.queue).1 = false) := by
  have inv := pfsReach_inv L f h
  have hm := inv.m1
  have hql := inv.qlen
  constructor
  · intro hc
    obtain ⟨hsz, hts, htm⟩ := inv.collect hc
    constructor
    · have hnf : ¬ (queue_full f.queue = true) := by
        rw [queue_full_iff _ inv.qwf]
        omega
      simpa using hnf
    · omega
  · intro hc
    have hsz : (qsize f.queue : ℤ) = f.m := by
      rcases hc with hc | hc
      · exact (inv.update hc).1
      · exact inv.test hc
    have h1 : 1 ≤ qsize f.queue := by omega
    have hwfd := queue_wf_dequeue f.queue inv.qwf
    have hszd := qsize_dequeue f.queue inv.qwf h1
    refine ⟨hsz, ?_, ?_⟩
    · have hne : ¬ (queue_empty f.queue = true) := by
        rw [queue_empty_iff _ inv.qwf]
        omega
      simpa using hne
    · have hnf : ¬ (queue_full (queue_dequeue f.queue).1 = true) := by
        rw [queue_full_iff _ hwfd]
        have hlen : (queue_dequeue f.queue).1.len = f.queue.len := rfl
        rw [hlen]
        omega
      simpa using hnf

/-- Witness for **C9** at the freshly initialized instance with
`threshold_std = 1`, `mu_min = 1`, `alpha = 0`, `m = 1`, `sleep = 0`. -/
theorem C9_queue_never_misused_witness :
    queue_full (pfs_mk Lzero bufZ (qbufZ 2) 1 1 0 1 0).queue = false ∧
    (qsize (pfs_mk Lzero bufZ (qbufZ 2) 1 1 0 1 0).queue : ℤ)
      < (pfs_mk Lzero bufZ (qbufZ 2) 1 1 0 1 0).m :=
  (C9_queue_never_misused Lzero _
    (PfsReach.init bufZ (qbufZ 2) 1 1 0 1 0 (by decide) (by decide))).1 rfl

/-! ### Error behavior of the step functions -/

/-- In every state reachable by arbitrary (also invalid) observations, a
stopped FOCuS instance has a cleared change and `INVALID_INPUT` latched. -/
theorem pfAny_stop (L : ℚ → ℚ) (f : pf) (h : PfAny L f) :
    f.status.code = pf_status_codes.STOP →
    f.change = (⟨0, 0⟩ : change) ∧
    f.status.latest_error = PF_ERROR_INVALID_INPUT := by
  induction h with
  | init buf thr mu hthr hmu =>
    intro hc
    exact absurd hc (by simp [pf_mk])
  | step x b hf ih =>
    rename_i f0
    intro hc
    cases hc0 : f0.status.code with
    | TEST =>
      by_cases hcond : (b ≤ 0 ∨ x < 0)
      · constructor <;> simp [pf_step, hc0, hcond]
      · exfalso
        have hstat : (pf_step L f0 x b).1.status = f0.status := by
          simp only [pf_step, hc0, if_neg hcond]
          exact step_helper_status L f0 x b
        rw [hstat, hc0] at hc
        exact absurd hc (by decide)
    | STOP =>
      rw [pf_step_stop L f0 x b hc0]
      exact ih hc0

/-- Whenever `pf_step` on a reachable state reports an error, the
post-state's change is cleared. -/
theorem pf_step_err_change (L : ℚ → ℚ) (f : pf) (x : ℤ) (b : ℚ)
    (h : PfAny L f) (herr : (pf_step L f x b).2.2 ≠ PF_NO_ERRORS) :
    (pf_step L f x b).1.change = (⟨0, 0⟩ : change) := by
  cases hc : f.status.code with
  | TEST =>
    by_cases hcond : (b ≤ 0 ∨ x < 0)
    · simp [pf_step, hc, hcond]
    · exfalso
      apply herr
      simp [pf_step, hc, hcond]
  | STOP =>
    rw [pf_step_stop L f x b hc]
    exact (pfAny_stop L f h hc).1

/-- Error behavior of `pfs_step` on an invariant-satisfying state: an
error can only be reported from the `TEST` phase (where the erroring call
writes `false` to the flag) or the `STOP` phase (where the caller's flag
variable is left untouched); in both cases the reported error is
`INVALID_INPUT`, the post-state is stopped with a cleared inner change,
and `m` is unchanged. -/
theorem pfs_step_err (L : ℚ → ℚ) (f : pfs) (g : Bool) (x : ℤ)
    (inv : PfsInv f) (herr : (pfs_step L f g x).2.2 ≠ PFS_NO_ERRORS) :
    (pfs_step L f g x).2.2 = PFS_ERROR_INVALID_INPUT ∧
    (f.status.code = pfs_status_codes.TEST ∨
     f.status.code = pfs_status_codes.STOP) ∧
    (f.status.code = pfs_status_codes.TEST → (pfs_step L f g x).2.1 = false) ∧
    (f.status.code = pfs_status_codes.STOP → (pfs_step L f g x).2.1 = g) ∧
    (pfs_step L f g x).1.status.code = pfs_status_codes.STOP ∧
    (pfs_step L f g x).1.focus.change = (⟨0, 0⟩ : change) ∧
    (pfs_step L f g x).1.m = f.m := by
  cases hc : f.status.code with
  | COLLECT =>
    exfalso
    apply herr
    simp only [pfs_step, hc]
    split <;> rfl
  | UPDATE =>
    exfalso
    apply herr
    simp only [pfs_step, hc]
    split <;> rfl
  | TEST =>
    have hfocus := inv.notStop (by rw [hc]; decide)
    by_cases hcond : (step_test L f x).2.2 = PF_ERROR_INVALID_INPUT
    · have hinner : (step_test L f x).2.2
          = (pf_step L f.focus x (update_bkg f (queue_dequeue f.queue).2)).2.2
          := rfl
      have hpferr : (pf_step L f.focus x
          (update_bkg f (queue_dequeue f.queue).2)).2.2
          = PF_ERROR_INVALID_INPUT := by rw [← hinner]; exact hcond
      have hpfflag : (pf_step L f.focus x
          (update_bkg f (queue_dequeue f.queue).2)).2.1 = false :=
        pf_step_flag_false_of_err L f.focus x _ (by rw [hpferr]; decide)
      have hpfchange : (pf_step L f.focus x
          (update_bkg f (queue_dequeue f.queue).2)).1.change
          = (⟨0, 0⟩ : change) := by
        by_cases hxb : (update_bkg f (queue_dequeue f.queue).2 ≤ 0 ∨ x < 0)
        · simp [pf_step, hfocus, hxb]
        · exfalso
          simp [pf_step, hfocus, hxb] at hpferr
      have hflag : (step_test L f x).2.1 = false := by
        show pfs_triggered _ (pf_step L f.focus x
          (update_bkg f (queue_dequeue f.queue).2)).2.1 = false
        rw [hpfflag]
        rfl
      simp only [pfs_step, hc, if_pos hcond]
      refine ⟨trivial, Or.inl trivial, fun _ => hflag, ?_, trivial,
        hpfchange, rfl⟩
      intro hstop
      exact absurd hstop (by decide)
    · exfalso
      apply herr
      simp only [pfs_step, hc, if_neg hcond]
  | STOP =>
    obtain ⟨hlat, hch, _⟩ := inv.stopFacts hc
    rw [pfs_step_stop L f g x hc]
    refine ⟨hlat, Or.inr rfl, ?_, fun _ => rfl, hc, hch, rfl⟩
    intro htest
    exact absurd htest (by decide)

/-- On an invariant-satisfying stopped FOCuS-SES state, `pfs_get_change`
returns the trivial change (assuming only `sqrt 0 = 0` about the
square-root routine). -/
theorem pfs_get_change_stop (S : ℚ → ℚ) (hS : S 0 = 0) (f : pfs)
    (inv : PfsInv f) (hc : f.status.code = pfs_status_codes.STOP) :
    pfs_get_change S f = (⟨0, 0⟩ : pf_change) := by
  obtain ⟨_, hch, _⟩ := inv.stopFacts hc
  have hm := inv.m1
  have h0m : (0 : ℤ) < f.m := by omega
  simp [pfs_get_change, pf_get_change, hch, h0m, hS]

/-- In the `TEST` phase, `pfs_step` ignores the incoming flag value. -/
theorem pfs_step_test_gindep (L : ℚ → ℚ) (f : pfs) (g g' : Bool) (x : ℤ)
    (hc : f.status.code = pfs_status_codes.TEST) :
    pfs_step L f g x = pfs_step L f g' x := by
  simp only [pfs_step, hc]

/-- In a warm-up phase (`COLLECT` or `UPDATE`), `pfs_step` reports no
error and returns the incoming flag unchanged. -/
theorem pfs_step_warmup_out (L : ℚ → ℚ) (f : pfs) (g : Bool) (x : ℤ)
    (hc : f.status.code = pfs_status_codes.COLLECT ∨
          f.status.code = pfs_status_codes.UPDATE) :
    (pfs_step L f g x).2 = (g, PFS_NO_ERRORS) := by
  rcases hc with hc | hc <;>
  · simp only [pfs_step, hc]
    split <;> rfl

/-- `pfs_step` never changes `m` or `sleep`. -/
theorem pfs_step_params (L : ℚ → ℚ) (f : pfs) (g : Bool) (x : ℤ) :
    (pfs_step L f g x).1.m = f.m ∧ (pfs_step L f g x).1.sleep = f.sleep := by
  cases hc : f.status.code with
  | TEST =>
    by_cases hcond : (step_test L f x).2.2 = PF_ERROR_INVALID_INPUT
    · simp only [pfs_step, hc, if_pos hcond]
      constructor <;> trivial
    · simp only [pfs_step, hc, if_neg hcond]
      constructor <;> trivial
  | UPDATE =>
    simp only [pfs_step, hc]
    split <;> constructor <;> trivial
  | COLLECT =>
    simp only [pfs_step, hc]
    split <;> constructor <;> trivial
  | STOP =>
    simp only [pfs_step, hc]
    constructor <;> trivial

/-- The countdown and phase effect of a `COLLECT` step. -/
theorem pfs_step_collect_next (L : ℚ → ℚ) (f : pfs) (g : Bool) (x : ℤ)
    (hc : f.status.code = pfs_status_codes.COLLECT) :
    (pfs_step L f g x).1.t = f.t - 1 ∧
    (pfs_step L f g x).1.status.code =
      (if f.t - 1 = f.sleep then
        (if f.sleep ≠ 0 then pfs_status_codes.UPDATE
         else pfs_status_codes.TEST)
       else pfs_status_codes.COLLECT) := by
  simp only [pfs_step, hc, set_initial_bkg]
  by_cases hcond : f.t - 1 = f.sleep
  · simp only [if_pos hcond]
    constructor <;> trivial
  · simp only [if_neg hcond]
    constructor <;> trivial

/-- The countdown and phase effect of an `UPDATE` step. -/
theorem pfs_step_update_next (L : ℚ → ℚ) (f : pfs) (g : Bool) (x : ℤ)
    (hc : f.status.code = pfs_status_codes.UPDATE) :
    (pfs_step L f g x).1.t = f.t - 1 ∧
    (pfs_step L f g x).1.status.code =
      (if f.t - 1 = 0 then pfs_status_codes.TEST
       else pfs_status_codes.UPDATE) := by
  simp only [pfs_step, hc, step_update]
  by_cases hcond : f.t - 1 = 0
  · simp only [if_pos hcond]
    constructor <;> trivial
  · simp only [if_neg hcond]
    constructor <;> trivial

/-- A `TEST` step lands in `TEST` or `STOP`. -/
theorem pfs_step_test_next (L : ℚ → ℚ) (f : pfs) (g : Bool) (x : ℤ)
    (hc : f.status.code = pfs_status_codes.TEST) :
    (pfs_step L f g x).1.status.code = pfs_status_codes.TEST ∨
    (pfs_step L f g x).1.status.code = pfs_status_codes.STOP := by
  by_cases hcond : (step_test L f x).2.2 = PF_ERROR_INVALID_INPUT
  · simp only [pfs_step, hc, if_pos hcond]
    exact Or.inr trivial
  · simp only [pfs_step, hc, if_neg hcond]
    exact Or.inl hc

/-- The detector loop when every detector is in a warm-up phase
(`COLLECT` or `UPDATE`): every step returns `NO_ERRORS` without writing
the shared flag variable, so the flag stays `false`, the dead bitmap and
the trigger count are unchanged, and each detector steps independently. -/
theorem bft_loop_warmup (L : ℚ → ℚ) (lst : List (pfs × ℤ))
    (hph : ∀ p ∈ lst, p.1.status.code = pfs_status_codes.COLLECT ∨
      p.1.status.code = pfs_status_codes.UPDATE) :
    ∀ ba cnt i, bft_loop L lst false ba cnt i =
      (lst.map (fun p => (pfs_step L p.1 false p.2).1), false, ba, cnt) := by
  induction lst with
  | nil =>
    intro ba cnt i
    rfl
  | cons p rest ih =>
    intro ba cnt i
    have hout := pfs_step_warmup_out L p.1 false p.2
      (hph p (List.mem_cons_self p rest))
    have hflag : (pfs_step L p.1 false p.2).2.1 = false := by rw [hout]
    have herr : (pfs_step L p.1 false p.2).2.2 = PFS_NO_ERRORS := by rw [hout]
    rw [bft_loop]
    simp only [hflag, herr, List.map_cons]
    rw [if_neg (by decide : ¬(PFS_NO_ERRORS = PFS_ERROR_INVALID_INPUT)),
      if_neg (by decide : ¬(PFS_NO_ERRORS = PFS_ERROR_INVALID_INPUT)),
      if_neg (by decide : ¬(false = true))]
    rw [ih (fun q hq => hph q (List.mem_cons_of_mem p hq)) ba cnt (i + 1)]

/-- `bitarray_set` sets exactly bit `n`. -/
theorem testBit_bitarray_set (ba n j : ℕ) :
    (bitarray_set ba n).testBit j ↔ (ba.testBit j ∨ j = n) := by
  rw [bitarray_set, Nat.testBit_or, Nat.shiftLeft_eq, one_mul,
    Nat.testBit_two_pow]
  constructor
  · intro h
    rcases Bool.or_eq_true_iff.mp h with h | h
    · exact Or.inl h
    · exact Or.inr (by simpa [eq_comm] using of_decide_eq_true h)
  · intro h
    rcases h with h | h
    · exact Bool.or_eq_true_iff.mpr (Or.inl h)
    · exact Bool.or_eq_true_iff.mpr (Or.inr (by simp [h]))

/-- A `getD` at an in-range index is a member of the list. -/
theorem getD_mem_of_lt {α : Type} (l : List α) (n : ℕ) (d : α)
    (h : n < l.length) : l.getD n d ∈ l := by
  rw [List.getD_eq_getElem?_getD, List.getElem?_eq_getElem h]
  exact List.getElem_mem h

/-- `getD` through `map` at an in-range index. -/
theorem getD_map_lt {α β : Type} (l : List α) (f : α → β) (n : ℕ)
    (d : β) (d' : α) (h : n < l.length) :
    (l.map f).getD n d = f (l.getD n d') := by
  rw [List.getD_eq_getElem?_getD, List.getD_eq_getElem?_getD,
    List.getElem?_eq_getElem h, List.getElem?_eq_getElem (by simpa using h),
    List.getElem_map]
  simp

/-- `getD` through `zip` at an in-range index. -/
theorem getD_zip_lt {α β : Type} (l1 : List α) (l2 : List β) (n : ℕ)
    (d : α × β) (d1 : α) (d2 : β) (h1 : n < l1.length) (h2 : n < l2.length) :
    (l1.zip l2).getD n d = (l1.getD n d1, l2.getD n d2) := by
  have hz : n < (l1.zip l2).length := by
    rw [List.length_zip l1 l2]
    omega
  rw [List.getD_eq_getElem?_getD, List.getElem?_eq_getElem hz,
    List.getD_eq_getElem?_getD, List.getD_eq_getElem?_getD,
    List.getElem?_eq_getElem h1, List.getElem?_eq_getElem h2]
  simp [List.getElem_zip]

/-- Bits already set in the dead bitmap stay set through the detector
loop. -/
theorem bft_loop_ba_mono (L : ℚ → ℚ) (lst : List (pfs × ℤ)) :
    ∀ g ba cnt i j, ba.testBit j →
      (bft_loop L lst g ba cnt i).2.2.1.testBit j := by
  induction lst with
  | nil =>
    intro g ba cnt i j hj
    exact hj
  | cons p rest ih =>
    obtain ⟨f0, x0⟩ := p
    intro g ba cnt i j hj
    rw [bft_loop]
    by_cases herr : (pfs_step L f0 g x0).2.2 = PFS_ERROR_INVALID_INPUT
    · simp only [if_pos herr]
      exact ih _ _ _ _ j ((testBit_bitarray_set ba i j).mpr (Or.inl hj))
    · simp only [if_neg herr]
      exact ih _ _ _ _ j hj

/-- The dead bitmap stays below `2^4` through the detector loop when the
loop index stays below `DETECTORS_NUMBER`. -/
theorem bft_loop_ba_lt16 (L : ℚ → ℚ) (lst : List (pfs × ℤ)) :
    ∀ g ba cnt i, ba < 16 → i + lst.length ≤ 4 →
      (bft_loop L lst g ba cnt i).2.2.1 < 16 := by
  induction lst with
  | nil =>
    intro g ba cnt i hba _
    exact hba
  | cons p rest ih =>
    obtain ⟨f0, x0⟩ := p
    intro g ba cnt i hba hlen
    have hset : bitarray_set ba i < 16 := by
      have hd : ∀ b < 16, ∀ k < 4, bitarray_set b k < 16 := by decide
      apply hd ba hba i
      simp only [List.length_cons] at hlen
      omega
    rw [bft_loop]
    by_cases herr : (pfs_step L f0 g x0).2.2 = PFS_ERROR_INVALID_INPUT
    · simp only [if_pos herr]
      apply ih _ _ _ _ hset
      simp only [List.length_cons] at hlen
      omega
    · simp only [if_neg herr]
      apply ih _ _ _ _ hba
      simp only [List.length_cons] at hlen
      omega

/-- The detector loop when every detector is in `TEST` or `STOP` and
satisfies the FOCuS-SES invariant: the per-detector outcomes do not depend
on the threaded flag variable, so the final trigger count adds one per
detector that stepped without error and reported a trigger, and the final
bitmap's set bits are the old ones plus the positions of the detectors
that reported `INVALID_INPUT`. -/
theorem bft_loop_teststop (L : ℚ → ℚ) (lst : List (pfs × ℤ))
    (hph : ∀ p ∈ lst, PfsInv p.1 ∧
      (p.1.status.code = pfs_status_codes.TEST ∨
       p.1.status.code = pfs_status_codes.STOP)) :
    ∀ g ba cnt i,
      (bft_loop L lst g ba cnt i).1
        = lst.map (fun p => (pfs_step L p.1 false p.2).1) ∧
      (bft_loop L lst g ba cnt i).2.2.2
        = cnt + lst.countP (fun p =>
            ((pfs_step L p.1 false p.2).2.2 == PFS_NO_ERRORS)
              && (pfs_step L p.1 false p.2).2.1) ∧
      (∀ j, (bft_loop L lst g ba cnt i).2.2.1.testBit j ↔
        (ba.testBit j ∨ ∃ k, k < lst.length ∧ j = i + k ∧
          (pfs_step L (lst.getD k default).1 false
            (lst.getD k default).2).2.2 = PFS_ERROR_INVALID_INPUT)) := by
  induction lst with
  | nil =>
    intro g ba cnt i
    refine ⟨rfl, by simp [bft_loop], ?_⟩
    intro j
    simp [bft_loop]
  | cons p rest ih =>
    obtain ⟨f0, x0⟩ := p
    intro g ba cnt i
    obtain ⟨hinv, hph1⟩ := hph (f0, x0) (List.mem_cons_self _ rest)
    replace hinv : PfsInv f0 := hinv
    replace hph1 : f0.status.code = pfs_status_codes.TEST ∨
        f0.status.code = pfs_status_codes.STOP := hph1
    have ihr := ih fun q hq => hph q (List.mem_cons_of_mem _ hq)
    rcases hph1 with hc | hc
    · have hgind := pfs_step_test_gindep L f0 g false x0 hc
      rw [bft_loop]
      simp only [hgind, List.map_cons, List.countP_cons, List.length_cons]
      by_cases herr : (pfs_step L f0 false x0).2.2 = PFS_ERROR_INVALID_INPUT
      · have hflag : (pfs_step L f0 false x0).2.1 = false :=
          (pfs_step_err L f0 false x0 hinv (by rw [herr]; decide)).2.2.1 hc
        rw [if_pos herr, if_pos herr]
        obtain ⟨ih1, ih2, ih3⟩ :=
          ihr (pfs_step L f0 false x0).2.1 (bitarray_set ba i) cnt (i + 1)
        refine ⟨by rw [ih1], ?_, ?_⟩
        · rw [ih2]
          simp [herr]
        · intro j
          rw [ih3 j, testBit_bitarray_set]
          constructor
          · rintro ((hb | hji) | ⟨k, hk, hjk, hcond⟩)
            · exact Or.inl hb
            · exact Or.inr ⟨0, by omega, by omega, by simpa using herr⟩
            · exact Or.inr ⟨k + 1, by omega, by omega, by simpa using hcond⟩
          · rintro (hb | ⟨k, hk, hjk, hcond⟩)
            · exact Or.inl (Or.inl hb)
            · cases k with
              | zero => exact Or.inl (Or.inr (by omega))
              | succ k =>
                exact Or.inr ⟨k, by omega, by omega, by simpa using hcond⟩
      · have hno : (pfs_step L f0 false x0).2.2 = PFS_NO_ERRORS := by
          by_cases hcond : (step_test L f0 x0).2.2 = PF_ERROR_INVALID_INPUT
          · exfalso
            apply herr
            simp [pfs_step, hc, hcond]
          · simp [pfs_step, hc, hcond]
        rw [if_neg herr, if_neg herr]
        obtain ⟨ih1, ih2, ih3⟩ :=
          ihr (pfs_step L f0 false x0).2.1 ba
            (if (pfs_step L f0 false x0).2.1 = true then cnt + 1 else cnt)
            (i + 1)
        refine ⟨by rw [ih1], ?_, ?_⟩
        · rw [ih2]
          cases hfl : (pfs_step L f0 false x0).2.1 <;> simp [hno, hfl] <;> omega
        · intro j
          rw [ih3 j]
          constructor
          · rintro (hb | ⟨k, hk, hjk, hcond⟩)
            · exact Or.inl hb
            · exact Or.inr ⟨k + 1, by omega, by omega, by simpa using hcond⟩
          · rintro (hb | ⟨k, hk, hjk, hcond⟩)
            · exact Or.inl hb
            · cases k with
              | zero => exact absurd (by simpa using hcond) herr
              | succ k =>
                exact Or.inr ⟨k, by omega, by omega, by simpa using hcond⟩
    · have hstop := pfs_step_stop L f0 g x0 hc
      have hstopf := pfs_step_stop L f0 false x0 hc
      have hlat : f0.status.latest_error = PFS_ERROR_INVALID_INPUT :=
        (hinv.stopFacts hc).1
      have herr : (pfs_step L f0 false x0).2.2 = PFS_ERROR_INVALID_INPUT := by
        rw [hstopf]
        exact hlat
      rw [bft_loop]
      simp only [hstop, hlat, List.map_cons, List.countP_cons,
        List.length_cons, if_true]
      obtain ⟨ih1, ih2, ih3⟩ := ihr g (bitarray_set ba i) cnt (i + 1)
      refine ⟨?_, ?_, ?_⟩
      · rw [ih1, hstopf]
      · rw [ih2]
        simp [herr]
      · intro j
        rw [ih3 j, testBit_bitarray_set]
        constructor
        · rintro ((hb | hji) | ⟨k, hk, hjk, hcond⟩)
          · exact Or.inl hb
          · exact Or.inr ⟨0, by omega, by omega, by simpa using herr⟩
          · exact Or.inr ⟨k + 1, by omega, by omega, by simpa using hcond⟩
        · rintro (hb | ⟨k, hk, hjk, hcond⟩)
          · exact Or.inl (Or.inl hb)
          · cases k with
            | zero => exact Or.inl (Or.inr (by omega))
            | succ k =>
              exact Or.inr ⟨k, by omega, by omega, by simpa using hcond⟩

/-- A freshly initialized BFT instance satisfies `BftInv`. -/
theorem bftInv_init (L : ℚ → ℚ) (bufs : ℕ → List curve × List ℤ)
    (thr mu alpha : ℚ) (m sleep majority : ℤ)
    (h : bft_check_init_parameters thr mu alpha m sleep majority
          = BFT_NO_ERRORS)
    (hq : ∀ i, (bufs i).2.length = m.toNat + 1) :
    BftInv (bft_mk L bufs thr mu alpha m sleep majority) := by
  have hok : pfs_check_init_parameters thr mu alpha m sleep = PFS_NO_ERRORS
      ∧ 1 ≤ majority := by
    rw [bft_check_init_parameters] at h
    by_cases hcond : (pfs_check_init_parameters thr mu alpha m sleep
        = PFS_ERROR_INVALID_INPUT ∨ majority < 1
        ∨ majority > (DETECTORS_NUMBER : ℤ))
    · rw [if_pos hcond] at h
      exact absurd h (by decide)
    · push_neg at hcond
      obtain ⟨h1, h2, h3⟩ := hcond
      refine ⟨?_, by omega⟩
      by_cases hc2 : (pf_check_init_parameters thr mu
          = PF_ERROR_INVALID_INPUT ∨ alpha < 0 ∨ alpha > 1 ∨ m < 1
          ∨ sleep < 0)
      · rw [pfs_check_init_parameters, if_pos hc2] at h1
        exact absurd rfl h1
      · rw [pfs_check_init_parameters, if_neg hc2]
  refine ⟨?_, hok.2, by norm_num [bft_mk], ?_, ?_, ?_, ?_⟩
  · simp [bft_mk]
  · intro f hf
    simp only [bft_mk, List.mem_map, List.mem_range] at hf
    obtain ⟨i, hi, rfl⟩ := hf
    exact pfsInv_init L (bufs i).1 (bufs i).2 thr mu alpha m sleep
      hok.1 (hq i)
  · intro f hf
    simp only [bft_mk, List.mem_map, List.mem_range] at hf
    obtain ⟨i, hi, rfl⟩ := hf
    rfl
  · intro i hi hbit
    exact absurd hbit (by simp [bft_mk])
  · left
    refine ⟨sleep + m, pfs_status_codes.COLLECT, Or.inl rfl, ?_⟩
    intro f hf
    simp only [bft_mk, List.mem_map, List.mem_range] at hf
    obtain ⟨i, hi, rfl⟩ := hf
    exact ⟨rfl, rfl⟩

/-- `bft_step` preserves `BftInv` (for count vectors of width 4). -/
theorem bftInv_step (L : ℚ → ℚ) (b : bft) (xs : List ℤ)
    (hxs : xs.length = DETECTORS_NUMBER) (inv : BftInv b) :
    BftInv (bft_step L b xs).1 := by
  have hziplen : (b.fs.zip xs).length = 4 := by
    rw [List.length_zip b.fs xs, inv.len4, hxs]
    decide
  have hfs : (bft_step L b xs).1.fs
      = (bft_loop L (b.fs.zip xs) false b.bitarray 0 0).1 := rfl
  have hba : (bft_step L b xs).1.bitarray
      = (bft_loop L (b.fs.zip xs) false b.bitarray 0 0).2.2.1 := rfl
  have hsleepstep : (bft_step L b xs).1.sleep = b.sleep := rfl
  have hmaj : (bft_step L b xs).1.majority = b.majority := rfl
  rcases inv.sync with ⟨t0, c, hcu, hall⟩ | hall
  · have hph : ∀ p ∈ b.fs.zip xs,
        p.1.status.code = pfs_status_codes.COLLECT ∨
        p.1.status.code = pfs_status_codes.UPDATE := by
      intro p hp
      have h1 := (hall p.1 (List.of_mem_zip hp).1).1
      rcases hcu with hcu | hcu
      · exact Or.inl (by rw [h1, hcu])
      · exact Or.inr (by rw [h1, hcu])
    have hloop := bft_loop_warmup L (b.fs.zip xs) hph b.bitarray 0 0
    have hfs2 : (bft_step L b xs).1.fs
        = (b.fs.zip xs).map (fun p => (pfs_step L p.1 false p.2).1) := by
      rw [hfs, hloop]
    have hba2 : (bft_step L b xs).1.bitarray = b.bitarray := by
      rw [hba, hloop]
    refine ⟨?_, ?_, ?_, ?_, ?_, ?_, ?_⟩
    · rw [hfs2, List.length_map, hziplen]
      rfl
    · rw [hmaj]
      exact inv.maj1
    · rw [hba2]
      exact inv.ba16
    · intro f hf
      rw [hfs2] at hf
      obtain ⟨p, hp, rfl⟩ := List.mem_map.mp hf
      exact pfsInv_step L p.1 false p.2 (inv.each p.1 (List.of_mem_zip hp).1)
    · intro f hf
      rw [hfs2] at hf
      obtain ⟨p, hp, rfl⟩ := List.mem_map.mp hf
      rw [hsleepstep, (pfs_step_params L p.1 false p.2).2]
      exact inv.sleepEq p.1 (List.of_mem_zip hp).1
    · intro i hi hbit
      rw [hba2] at hbit
      have hstop := inv.deadBit i hi hbit
      have hmem : b.fs.getD i default ∈ b.fs :=
        getD_mem_of_lt b.fs i default (by rw [inv.len4]; exact hi)
      have hcdt := (hall _ hmem).1
      rw [hstop] at hcdt
      rcases hcu with hcu | hcu <;> rw [hcu] at hcdt <;>
        exact absurd hcdt (by decide)
    · rcases hcu with hcu | hcu
      · subst hcu
        by_cases hdone : t0 - 1 = b.sleep
        · by_cases hs0 : b.sleep = 0
          · right
            intro f hf
            rw [hfs2] at hf
            obtain ⟨p, hp, rfl⟩ := List.mem_map.mp hf
            obtain ⟨hpc, hpt⟩ := hall p.1 (List.of_mem_zip hp).1
            have hsl := inv.sleepEq p.1 (List.of_mem_zip hp).1
            left
            rw [(pfs_step_collect_next L p.1 false p.2 hpc).2, hpt, hsl,
              if_pos hdone, if_neg (not_not_intro hs0)]
          · left
            refine ⟨t0 - 1, pfs_status_codes.UPDATE, Or.inr rfl, ?_⟩
            intro f hf
            rw [hfs2] at hf
            obtain ⟨p, hp, rfl⟩ := List.mem_map.mp hf
            obtain ⟨hpc, hpt⟩ := hall p.1 (List.of_mem_zip hp).1
            have hsl := inv.sleepEq p.1 (List.of_mem_zip hp).1
            constructor
            · rw [(pfs_step_collect_next L p.1 false p.2 hpc).2, hpt, hsl,
                if_pos hdone, if_pos hs0]
            · rw [(pfs_step_collect_next L p.1 false p.2 hpc).1, hpt]
        · left
          refine ⟨t0 - 1, pfs_status_codes.COLLECT, Or.inl rfl, ?_⟩
          intro f hf
          rw [hfs2] at hf
          obtain ⟨p, hp, rfl⟩ := List.mem_map.mp hf
          obtain ⟨hpc, hpt⟩ := hall p.1 (List.of_mem_zip hp).1
          have hsl := inv.sleepEq p.1 (List.of_mem_zip hp).1
          constructor
          · rw [(pfs_step_collect_next L p.1 false p.2 hpc).2, hpt, hsl,
              if_neg hdone]
          · rw [(pfs_step_collect_next L p.1 false p.2 hpc).1, hpt]
      · subst hcu
        by_cases hdone : t0 - 1 = 0
        · right
          intro f hf
          rw [hfs2] at hf
          obtain ⟨p, hp, rfl⟩ := List.mem_map.mp hf
          obtain ⟨hpc, hpt⟩ := hall p.1 (List.of_mem_zip hp).1
          left
          rw [(pfs_step_update_next L p.1 false p.2 hpc).2, hpt,
            if_pos hdone]
        · left
          refine ⟨t0 - 1, pfs_status_codes.UPDATE, Or.inr rfl, ?_⟩
          intro f hf
          rw [hfs2] at hf
          obtain ⟨p, hp, rfl⟩ := List.mem_map.mp hf
          obtain ⟨hpc, hpt⟩ := hall p.1 (List.of_mem_zip hp).1
          constructor
          · rw [(pfs_step_update_next L p.1 false p.2 hpc).2, hpt,
              if_neg hdone]
          · rw [(pfs_step_update_next L p.1 false p.2 hpc).1, hpt]
  · have hph : ∀ p ∈ b.fs.zip xs, PfsInv p.1 ∧
        (p.1.status.code = pfs_status_codes.TEST ∨
         p.1.status.code = pfs_status_codes.STOP) := fun p hp =>
      ⟨inv.each p.1 (List.of_mem_zip hp).1, hall p.1 (List.of_mem_zip hp).1⟩
    obtain ⟨h1, h2, h3⟩ :=
      bft_loop_teststop L (b.fs.zip xs) hph false b.bitarray 0 0
    have hfs2 : (bft_step L b xs).1.fs
        = (b.fs.zip xs).map (fun p => (pfs_step L p.1 false p.2).1) := by
      rw [hfs, h1]
    refine ⟨?_, ?_, ?_, ?_, ?_, ?_, ?_⟩
    · rw [hfs2, List.length_map, hziplen]
      rfl
    · rw [hmaj]
      exact inv.maj1
    · rw [hba]
      exact bft_loop_ba_lt16 L (b.fs.zip xs) false b.bitarray 0 0 inv.ba16
        (by rw [hziplen])
    · intro f hf
      rw [hfs2] at hf
      obtain ⟨p, hp, rfl⟩ := List.mem_map.mp hf
      exact pfsInv_step L p.1 false p.2 (inv.each p.1 (List.of_mem_zip hp).1)
    · intro f hf
      rw [hfs2] at hf
      obtain ⟨p, hp, rfl⟩ := List.mem_map.mp hf
      rw [hsleepstep, (pfs_step_params L p.1 false p.2).2]
      exact inv.sleepEq p.1 (List.of_mem_zip hp).1
    · intro i hi hbit
      rw [hba] at hbit
      have hi4 : i < 4 := hi
      have hpost : (bft_step L b xs).1.fs.getD i default
          = (pfs_step L ((b.fs.zip xs).getD i default).1 false
              ((b.fs.zip xs).getD i default).2).1 := by
        rw [hfs2]
        exact getD_map_lt (b.fs.zip xs) _ i default default
          (by rw [hziplen]; exact hi4)
      rcases (h3 i).mp hbit with hb | ⟨k, hk, hik, herrk⟩
      · have hstop := inv.deadBit i hi hb
        have hzipd : ((b.fs.zip xs).getD i default).1 = b.fs.getD i default := by
          rw [getD_zip_lt b.fs xs i default default 0
            (by rw [inv.len4]; exact hi) (by rw [hxs]; exact hi)]
        rw [hpost, hzipd, pfs_step_stop L _ _ _ hstop]
        exact hstop
      · have hik2 : i = k := by omega
        subst hik2
        have hinvk : PfsInv ((b.fs.zip xs).getD i default).1 :=
          (hph _ (getD_mem_of_lt (b.fs.zip xs) i default
            (by rw [hziplen]; exact hi4))).1
        have hperr := pfs_step_err L ((b.fs.zip xs).getD i default).1 false
          ((b.fs.zip xs).getD i default).2 hinvk (by rw [herrk]; decide)
        rw [hpost]
        exact hperr.2.2.2.2.1
    · right
      intro f hf
      rw [hfs2] at hf
      obtain ⟨p, hp, rfl⟩ := List.mem_map.mp hf
      rcases hall p.1 (List.of_mem_zip hp).1 with hcp | hcp
      · exact pfs_step_test_next L p.1 false p.2 hcp
      · right
        rw [pfs_step_stop L p.1 false p.2 hcp]
        exact hcp

/-- A count over a list is bounded by the count, over the index range, of
any predicate implied positionwise. -/
theorem countP_le_range {α : Type} [Inhabited α] (q : ℕ → Bool) :
    ∀ (l : List α) (p : α → Bool) (i : ℕ),
      (∀ k, k < l.length → p (l.getD k default) = true → q (i + k) = true) →
      l.countP p ≤ (List.range' i l.length).countP q := by
  intro l
  induction l with
  | nil =>
    intro p i h
    simp
  | cons a t ih =>
    intro p i h
    rw [List.countP_cons, List.length_cons, List.range'_succ,
      List.countP_cons]
    have hh : p a = true → q i = true := by
      intro hpa
      have := h 0 (by simp) (by simpa using hpa)
      simpa using this
    have ht := ih p (i + 1) (fun k hk hpk => by
      have := h (k + 1) (by simp only [List.length_cons]; omega)
        (by simpa using hpk)
      rw [show i + 1 + k = i + (k + 1) by omega]
      exact this)
    by_cases hpa : p a = true
    · rw [if_pos hpa, if_pos (hh hpa)]
      omega
    · rw [if_neg hpa]
      split
      · omega
      · omega

/-- For a bitmap below `2^4`, `bitarray_count` is the number of clear bits
among the low four, i.e. the number of alive detectors. -/
theorem bitarray_count_eq_countP (v : ℕ) (hv : v < 16) :
    bitarray_count v
      = (List.range' 0 4).countP (fun k => !(v.testBit k)) := by
  have hall : ∀ w, w < 16 → bitarray_count w
      = (List.range' 0 4).countP (fun k => !(w.testBit k)) := by decide
  exact hall v hv

/-- For a bitmap below `2^4`, `bitarray_count` is `DETECTORS_NUMBER` minus
the number of set bits. -/
theorem bitarray_count_eq_sub (v : ℕ) (hv : v < 16) :
    bitarray_count v = DETECTORS_NUMBER
      - ((v.testBit 0).toNat + (v.testBit 1).toNat
          + (v.testBit 2).toNat + (v.testBit 3).toNat) := by
  have hall : ∀ w, w < 16 → bitarray_count w = DETECTORS_NUMBER
      - ((w.testBit 0).toNat + (w.testBit 1).toNat
          + (w.testBit 2).toNat + (w.testBit 3).toNat) := by decide
  exact hall v hv

/-- Every reachable BFT state satisfies `BftInv`. -/
theorem bftReach_inv (L : ℚ → ℚ) (b : bft) (h : BftReach L b) : BftInv b := by
  induction h with
  | init bufs thr mu alpha m sleep majority hck hq =>
    exact bftInv_init L bufs thr mu alpha m sleep majority hck hq
  | step xs hxs hb ih =>
    exact bftInv_step L _ xs hxs ih

/-- The outward-facing facts of one `bft_step` call on an
invariant-satisfying state: the trigger decision counts exactly the
detectors that stepped without error and reported a trigger, that count
never exceeds the number of detectors still alive afterwards, and the
error return compares the alive count against the majority. -/
theorem bft_step_facts (L : ℚ → ℚ) (b : bft) (xs : List ℤ)
    (inv : BftInv b) (hxs : xs.length = DETECTORS_NUMBER) :
    ((bft_step L b xs).2.1 = true ↔
      b.majority ≤ (((b.fs.zip xs).countP (fun p =>
        ((pfs_step L p.1 false p.2).2.2 == PFS_NO_ERRORS)
          && (pfs_step L p.1 false p.2).2.1) : ℕ) : ℤ)) ∧
    ((((b.fs.zip xs).countP (fun p =>
        ((pfs_step L p.1 false p.2).2.2 == PFS_NO_ERRORS)
          && (pfs_step L p.1 false p.2).2.1) : ℕ) : ℤ)
      ≤ (bitarray_count (bft_step L b xs).1.bitarray : ℤ)) ∧
    ((bft_step L b xs).2.2 = BFT_ERROR_INVALID_INPUT ↔
      (bitarray_count (bft_step L b xs).1.bitarray : ℤ) < b.majority) ∧
    ((bft_step L b xs).2.2 = BFT_ERROR_INVALID_INPUT ∨
     (bft_step L b xs).2.2 = BFT_NO_ERRORS) := by
  have hziplen : (b.fs.zip xs).length = 4 := by
    rw [List.length_zip b.fs xs, inv.len4, hxs]
    decide
  have hba : (bft_step L b xs).1.bitarray
      = (bft_loop L (b.fs.zip xs) false b.bitarray 0 0).2.2.1 := rfl
  have hgot : (bft_step L b xs).2.1
      = decide (((bft_loop L (b.fs.zip xs) false b.bitarray 0 0).2.2.2 : ℤ)
          ≥ b.majority) := rfl
  have herrdef : (bft_step L b xs).2.2
      = (if (bitarray_count
            (bft_loop L (b.fs.zip xs) false b.bitarray 0 0).2.2.1 : ℤ)
            < b.majority
         then BFT_ERROR_INVALID_INPUT else BFT_NO_ERRORS) := rfl
  have herr_iff : (bft_step L b xs).2.2 = BFT_ERROR_INVALID_INPUT ↔
      (bitarray_count (bft_step L b xs).1.bitarray : ℤ) < b.majority := by
    rw [herrdef, hba]
    constructor
    · intro h
      by_contra hnot
      rw [if_neg hnot] at h
      exact absurd h (by decide)
    · intro h
      rw [if_pos h]
  have herr_dichotomy : (bft_step L b xs).2.2 = BFT_ERROR_INVALID_INPUT ∨
      (bft_step L b xs).2.2 = BFT_NO_ERRORS := by
    rw [herrdef]
    split
    · exact Or.inl rfl
    · exact Or.inr rfl
  rcases hsync : inv.sync with ⟨t0, c, hcu, hall⟩ | hall
  · have hph : ∀ p ∈ b.fs.zip xs,
        p.1.status.code = pfs_status_codes.COLLECT ∨
        p.1.status.code = pfs_status_codes.UPDATE := by
      intro p hp
      have h1 := (hall p.1 (List.of_mem_zip hp).1).1
      rcases hcu with hcu | hcu
      · exact Or.inl (by rw [h1, hcu])
      · exact Or.inr (by rw [h1, hcu])
    have hloop := bft_loop_warmup L (b.fs.zip xs) hph b.bitarray 0 0
    have hcnt0 : (b.fs.zip xs).countP (fun p =>
        ((pfs_step L p.1 false p.2).2.2 == PFS_NO_ERRORS)
          && (pfs_step L p.1 false p.2).2.1) = 0 := by
      rw [List.countP_eq_zero]
      intro p hp
      have hout := pfs_step_warmup_out L p.1 false p.2 (hph p hp)
      have hflag : (pfs_step L p.1 false p.2).2.1 = false := by rw [hout]
      simp [hflag]
    have hmaj := inv.maj1
    refine ⟨?_, ?_, herr_iff, herr_dichotomy⟩
    · rw [hgot, hloop, hcnt0]
      constructor
      · intro h
        simp at h
        omega
      · intro h
        push_cast at h
        omega
    · rw [hcnt0]
      push_cast
      exact Int.ofNat_nonneg _
  · have hph : ∀ p ∈ b.fs.zip xs, PfsInv p.1 ∧
        (p.1.status.code = pfs_status_codes.TEST ∨
         p.1.status.code = pfs_status_codes.STOP) := fun p hp =>
      ⟨inv.each p.1 (List.of_mem_zip hp).1, hall p.1 (List.of_mem_zip hp).1⟩
    obtain ⟨h1, h2, h3⟩ :=
      bft_loop_teststop L (b.fs.zip xs) hph false b.bitarray 0 0
    have hba16 : (bft_loop L (b.fs.zip xs) false b.bitarray 0 0).2.2.1 < 16 :=
      bft_loop_ba_lt16 L (b.fs.zip xs) false b.bitarray 0 0 inv.ba16
        (by rw [hziplen])
    have hle : (b.fs.zip xs).countP (fun p =>
        ((pfs_step L p.1 false p.2).2.2 == PFS_NO_ERRORS)
          && (pfs_step L p.1 false p.2).2.1)
        ≤ bitarray_count (bft_step L b xs).1.bitarray := by
      have hpoint : ∀ k, k < (b.fs.zip xs).length →
          ((fun p => ((pfs_step L p.1 false p.2).2.2 == PFS_NO_ERRORS)
              && (pfs_step L p.1 false p.2).2.1)
            ((b.fs.zip xs).getD k default)) = true →
          ((fun j =>
            !((bft_loop L (b.fs.zip xs) false b.bitarray 0 0).2.2.1.testBit
                j)) (0 + k)) = true := by
        intro k hk hp
        have hk4 : k < 4 := by omega
        have herrNO : (pfs_step L ((b.fs.zip xs).getD k default).1 false
            ((b.fs.zip xs).getD k default).2).2.2 = PFS_NO_ERRORS := by
          have hand := hp
          simp only [Bool.and_eq_true, beq_iff_eq] at hand
          exact hand.1
        simp only [Nat.zero_add, Bool.not_eq_true']
        cases htb : (bft_loop L (b.fs.zip xs) false
            b.bitarray 0 0).2.2.1.testBit k
        · rfl
        · exfalso
          rcases (h3 k).mp htb with hbit | ⟨k2, hk2, hkk2, herrk⟩
          · have hstop := inv.deadBit k hk4 hbit
            have hzipd : ((b.fs.zip xs).getD k default).1
                = b.fs.getD k default := by
              rw [getD_zip_lt b.fs xs k default default 0
                (by rw [inv.len4]; exact hk4) (by rw [hxs]; exact hk4)]
            have hlat : (b.fs.getD k default).status.latest_error
                = PFS_ERROR_INVALID_INPUT :=
              ((inv.each _ (getD_mem_of_lt b.fs k default
                (by rw [inv.len4]; exact hk4))).stopFacts hstop).1
            rw [hzipd, pfs_step_stop L _ _ _ hstop] at herrNO
            have herrNO2 : (b.fs.getD k default).status.latest_error
                = PFS_NO_ERRORS := herrNO
            rw [hlat] at herrNO2
            exact absurd herrNO2 (by decide)
          · have hkk : k2 = k := by omega
            rw [hkk] at herrk
            rw [herrk] at herrNO
            exact absurd herrNO (by decide)
      have := countP_le_range
        (fun j =>
          !((bft_loop L (b.fs.zip xs) false b.bitarray 0 0).2.2.1.testBit j))
        (b.fs.zip xs)
        (fun p => ((pfs_step L p.1 false p.2).2.2 == PFS_NO_ERRORS)
          && (pfs_step L p.1 false p.2).2.1)
        0 hpoint
      rw [hziplen] at this
      rw [hba, bitarray_count_eq_countP _ hba16]
      exact this
    refine ⟨?_, by exact_mod_cast hle, herr_iff, herr_dichotomy⟩
    rw [hgot, h2]
    simp only [Nat.zero_add, ge_iff_le, decide_eq_true_eq]


/-- **C7.**  For every `bft_step` call on a reachable BFT state with a
four-wide count vector: already-set dead bits stay set, and each detector
whose FOCuS-SES step reports `INVALID_INPUT` gets its dead bit set;
`got_trigger` is set to `true` exactly when at least `majority` detectors
stepped without error and reported a trigger; the alive count is
`DETECTORS_NUMBER` minus the number of set dead bits; and the call returns
`INVALID_INPUT` exactly when the alive count is below `majority`, else
`NO_ERRORS`. -/
theorem C7_bft_majority (L : ℚ → ℚ) (b : bft) (xs : List ℤ)
    (hb : BftReach L b) (hxs : xs.length = DETECTORS_NUMBER) :
    (∀ j, b.bitarray.testBit j → (bft_step L b xs).1.bitarray.testBit j) ∧
    (∀ k, k < DETECTORS_NUMBER →
      (pfs_step L (b.fs.getD k default) false (xs.getD k 0)).2.2
        = PFS_ERROR_INVALID_INPUT →
      (bft_step L b xs).1.bitarray.testBit k) ∧
    ((bft_step L b xs).2.1 = true ↔
      b.majority ≤ (((b.fs.zip xs).countP (fun p =>
        ((pfs_step L p.1 false p.2).2.2 == PFS_NO_ERRORS)
          && (pfs_step L p.1 false p.2).2.1) : ℕ) : ℤ)) ∧
    (bitarray_count (bft_step L b xs).1.bitarray
      = DETECTORS_NUMBER
        - (((bft_step L b xs).1.bitarray.testBit 0).toNat
          + ((bft_step L b xs).1.bitarray.testBit 1).toNat
          + ((bft_step L b xs).1.bitarray.testBit 2).toNat
          + ((bft_step L b xs).1.bitarray.testBit 3).toNat)) ∧
    ((bft_step L b xs).2.2 = BFT_ERROR_INVALID_INPUT ↔
      (bitarray_count (bft_step L b xs).1.bitarray : ℤ) < b.majority) ∧
    ((bft_step L b xs).2.2 = BFT_ERROR_INVALID_INPUT ∨
     (bft_step L b xs).2.2 = BFT_NO_ERRORS) := by
  have inv := bftReach_inv L b hb
  have postinv := bftInv_step L b xs hxs inv
  obtain ⟨hgot, hle, herr_iff, hdich⟩ := bft_step_facts L b xs inv hxs
  have hziplen : (b.fs.zip xs).length = 4 := by
    rw [List.length_zip b.fs xs, inv.len4, hxs]
    decide
  have hba : (bft_step L b xs).1.bitarray
      = (bft_loop L (b.fs.zip xs) false b.bitarray 0 0).2.2.1 := rfl
  refine ⟨?_, ?_, hgot, ?_, herr_iff, hdich⟩
  · intro j hj
    rw [hba]
    exact bft_loop_ba_mono L (b.fs.zip xs) false b.bitarray 0 0 j hj
  · intro k hk herrk
    have hk4 : k < 4 := hk
    have hzipd : (b.fs.zip xs).getD k default
        = (b.fs.getD k default, xs.getD k 0) :=
      getD_zip_lt b.fs xs k default default 0
        (by rw [inv.len4]; exact hk) (by rw [hxs]; exact hk)
    rcases inv.sync with ⟨t0, c, hcu, hall⟩ | hall
    · exfalso
      have hmem : b.fs.getD k default ∈ b.fs :=
        getD_mem_of_lt b.fs k default (by rw [inv.len4]; exact hk)
      have hcd := (hall _ hmem).1
      have hwarm : (b.fs.getD k default).status.code
          = pfs_status_codes.COLLECT ∨
          (b.fs.getD k default).status.code = pfs_status_codes.UPDATE := by
        rcases hcu with hcu | hcu
        · exact Or.inl (by rw [hcd, hcu])
        · exact Or.inr (by rw [hcd, hcu])
      have hout := pfs_step_warmup_out L (b.fs.getD k default) false
        (xs.getD k 0) hwarm
      have hsnd : (pfs_step L (b.fs.getD k default) false (xs.getD k 0)).2.2
          = PFS_NO_ERRORS := congrArg Prod.snd hout
      rw [herrk] at hsnd
      exact absurd hsnd (by decide)
    · have hph : ∀ p ∈ b.fs.zip xs, PfsInv p.1 ∧
          (p.1.status.code = pfs_status_codes.TEST ∨
           p.1.status.code = pfs_status_codes.STOP) := fun p hp =>
        ⟨inv.each p.1 (List.of_mem_zip hp).1, hall p.1 (List.of_mem_zip hp).1⟩
      obtain ⟨h1, h2, h3⟩ :=
        bft_loop_teststop L (b.fs.zip xs) hph false b.bitarray 0 0
      rw [hba]
      refine (h3 k).mpr (Or.inr ⟨k, by omega, by omega, ?_⟩)
      rw [hzipd]
      exact herrk
  · exact bitarray_count_eq_sub _ postinv.ba16

/-- Witness for **C7** at a freshly initialized BFT instance
(`threshold_std = 1`, `mu_min = 1`, `alpha = 0`, `m = 1`, `sleep = 0`,
`majority = 1`) stepped on four zero counts. -/
theorem C7_bft_majority_witness :
    (bft_step Lzero (bft_mk Lzero bufsZ 1 1 0 1 0 1) [0, 0, 0, 0]).2.2
        = BFT_ERROR_INVALID_INPUT ∨
    (bft_step Lzero (bft_mk Lzero bufsZ 1 1 0 1 0 1) [0, 0, 0, 0]).2.2
        = BFT_NO_ERRORS :=
  (C7_bft_majority Lzero _ [0, 0, 0, 0]
    (BftReach.init bufsZ 1 1 0 1 0 1 (by decide) (fun _ => rfl))
    (by decide)).2.2.2.2.2

set_option maxHeartbeats 4000000 in
/-- Counterexample to **C3** as frozen: a `pfs_step` call on a stopped
FOCuS-SES instance (reached by running the spec's all-zeros scenario for
six steps) returns `INVALID_INPUT`, yet the caller's trigger-flag variable
is not written: if the variable held `true` before the call, it still
holds `true` after it. -/
theorem C3_counterexample :
    (pfs_step Lzero
        (pfs_run Lzero (pfs_mk Lzero bufZ (qbufZ 6) 5 (11/10) (1/10) 5 0)
          false (List.replicate 6 0)).1 true 0).2.2
      = PFS_ERROR_INVALID_INPUT ∧
    (pfs_step Lzero
        (pfs_run Lzero (pfs_mk Lzero bufZ (qbufZ 6) 5 (11/10) (1/10) 5 0)
          false (List.replicate 6 0)).1 true 0).2.1
      = true := by
  constructor
  · with_unfolding_all rfl
  · with_unfolding_all rfl

/-- **C3** (amended).  On error the layers behave as follows.  `pf_step`
always writes `false` to the caller's flag when it reports an error, and
the change it exposes is `(0, 0)`.  `pfs_step` reports errors only from
the `TEST` phase (writing `false` to the flag) or from the `STOP` phase
(leaving the caller's flag variable with whatever value `g` it already
held), and its exposed change is `(0, 0)`.  `bft_step` reports
`got_trigger = false` whenever it returns an error, and every detector
marked dead exposes the change `(0, 0)`. -/
theorem C3_error_flag_and_change (L S : ℚ → ℚ) (hS : S 0 = 0) :
    (∀ (f : pf) (x : ℤ) (bq : ℚ), PfAny L f →
      (pf_step L f x bq).2.2 ≠ PF_NO_ERRORS →
      (pf_step L f x bq).2.1 = false ∧
      pf_get_change S (pf_step L f x bq).1 = (⟨0, 0⟩ : pf_change)) ∧
    (∀ (f : pfs) (g : Bool) (x : ℤ), PfsReach L f →
      (pfs_step L f g x).2.2 ≠ PFS_NO_ERRORS →
      ((f.status.code = pfs_status_codes.TEST →
         (pfs_step L f g x).2.1 = false) ∧
       (f.status.code = pfs_status_codes.STOP →
         (pfs_step L f g x).2.1 = g) ∧
       pfs_get_change S (pfs_step L f g x).1 = (⟨0, 0⟩ : pf_change))) ∧
    (∀ (b : bft) (xs : List ℤ), BftReach L b →
      xs.length = DETECTORS_NUMBER →
      (bft_step L b xs).2.2 ≠ BFT_NO_ERRORS →
      (bft_step L b xs).2.1 = false ∧
      (∀ i, i < DETECTORS_NUMBER →
        (bft_step L b xs).1.bitarray.testBit i →
        (bft_get_changes S (bft_step L b xs).1).getD i (⟨1, 1⟩ : pf_change)
          = (⟨0, 0⟩ : pf_change))) := by
  refine ⟨?_, ?_, ?_⟩
  · intro f x bq hreach herr
    refine ⟨pf_step_flag_false_of_err L f x bq herr, ?_⟩
    have hch := pf_step_err_change L f x bq hreach herr
    rw [pf_get_change, hch]
    simp [hS]
  · intro f g x hreach herr
    have inv := pfsReach_inv L f hreach
    have he := pfs_step_err L f g x inv herr
    refine ⟨he.2.2.1, he.2.2.2.1, ?_⟩
    have hpostinv : PfsInv (pfs_step L f g x).1 := pfsInv_step L f g x inv
    exact pfs_get_change_stop S hS _ hpostinv he.2.2.2.2.1
  · intro b xs hreach hxs herr
    have inv := bftReach_inv L b hreach
    have postinv := bftInv_step L b xs hxs inv
    obtain ⟨hgot, hle, herr_iff, hdich⟩ := bft_step_facts L b xs inv hxs
    constructor
    · have herr2 : (bft_step L b xs).2.2 = BFT_ERROR_INVALID_INPUT := by
        rcases hdich with h | h
        · exact h
        · exact absurd h herr
      have halive := herr_iff.mp herr2
      cases hg : (bft_step L b xs).2.1
      · rfl
      · exfalso
        have := hgot.mp hg
        omega
    · intro i hi hbit
      have hstop := postinv.deadBit i hi hbit
      have hlen : i < (bft_step L b xs).1.fs.length := by
        rw [postinv.len4]
        exact hi
      have hmap : (bft_get_changes S (bft_step L b xs).1).getD i
          (⟨1, 1⟩ : pf_change)
          = pfs_get_change S ((bft_step L b xs).1.fs.getD i default) := by
        rw [bft_get_changes]
        exact getD_map_lt (bft_step L b xs).1.fs _ i (⟨1, 1⟩ : pf_change)
          default hlen
      rw [hmap]
      exact pfs_get_change_stop S hS _
        (postinv.each _ (getD_mem_of_lt _ _ _ hlen)) hstop

/-- Witness for the amended **C3** at the `pf` layer: a fresh FOCuS
instance fed the invalid observation `(x, b) = (0, 0)`. -/
theorem C3_error_flag_and_change_witness :
    (pf_step Lzero (pf_mk Lzero bufZ 1 1) 0 0).2.1 = false ∧
    pf_get_change Szero (pf_step Lzero (pf_mk Lzero bufZ 1 1) 0 0).1
      = (⟨0, 0⟩ : pf_change) :=
  (C3_error_flag_and_change Lzero Szero rfl).1 (pf_mk Lzero bufZ 1 1) 0 0
    (PfAny.init bufZ 1 1 (by decide) (by decide)) (by decide)

/-- Running `pfs_run` over a concatenation runs the two pieces in
sequence. -/
theorem pfs_run_append (L : ℚ → ℚ) (xs : List ℤ) :
    ∀ (f : pfs) (g : Bool) (ys : List ℤ),
      pfs_run L f g (xs ++ ys)
        = pfs_run L (pfs_run L f g xs).1 (pfs_run L f g xs).2 ys := by
  induction xs with
  | nil =>
    intro f g ys
    rfl
  | cons x rest ih =>
    intro f g ys
    rw [List.cons_append, pfs_run, pfs_run]
    exact ih _ _ ys

/-- While the countdown `t` has not expired, every `pfs_step` is a warm-up
step (`COLLECT` or `UPDATE`) and leaves the threaded flag variable
untouched. -/
theorem pfs_run_warmup_flag (L : ℚ → ℚ) :
    ∀ (xs : List ℤ) (f : pfs) (g : Bool),
      (f.status.code = pfs_status_codes.COLLECT ∨
       f.status.code = pfs_status_codes.UPDATE) →
      (xs.length : ℤ) ≤ f.t →
      (pfs_run L f g xs).2 = g := by
  intro xs
  induction xs with
  | nil =>
    intro f g _ _
    rfl
  | cons x rest ih =>
    intro f g hw hlen
    rw [pfs_run]
    have hout := pfs_step_warmup_out L f g x hw
    have hflag : (pfs_step L f g x).2.1 = g := congrArg Prod.fst hout
    rw [hflag]
    rcases hw with hc | hc
    · obtain ⟨ht, hcode⟩ := pfs_step_collect_next L f g x hc
      by_cases hdone : f.t - 1 = f.sleep
      · by_cases hs0 : f.sleep = 0
        · have hrest : rest = [] := by
            rw [← List.length_eq_zero]
            simp only [List.length_cons] at hlen
            push_cast at hlen
            omega
          rw [hrest]
          rfl
        · refine ih _ g (Or.inr ?_) ?_
          · rw [hcode, if_pos hdone, if_pos hs0]
          · rw [ht]
            simp only [List.length_cons] at hlen
            push_cast at hlen ⊢
            omega
      · refine ih _ g (Or.inl ?_) ?_
        · rw [hcode, if_neg hdone]
        · rw [ht]
          simp only [List.length_cons] at hlen
          push_cast at hlen ⊢
          omega
    · obtain ⟨ht, hcode⟩ := pfs_step_update_next L f g x hc
      by_cases hdone : f.t - 1 = 0
      · have hrest : rest = [] := by
          rw [← List.length_eq_zero]
          simp only [List.length_cons] at hlen
          push_cast at hlen
          omega
        rw [hrest]
        rfl
      · refine ih _ g (Or.inr ?_) ?_
        · rw [hcode, if_neg hdone]
        · rw [ht]
          simp only [List.length_cons] at hlen
          push_cast at hlen ⊢
          omega

set_option maxHeartbeats 4000000 in
/-- **C8.**  For every FOCuS-SES instance and every input sequence, none
of the first `sleep + m` calls to `pfs_step` emits a trigger: the caller's
flag variable still holds its initial value after any run of at most
`sleep + m` steps.  Step `sleep + m + 1` is the earliest possible trigger:
with `threshold_std = 1`, `mu_min = 1`, `alpha = 0`, `m = 2`, `sleep = 0`
and counts `[1, 1, 8]`, the third call (step `sleep + m + 1 = 3`) raises
the flag (under the true fact `1 ≤ log 8` about the math library's
logarithm). -/
theorem C8_no_early_trigger (L : ℚ → ℚ) (h8 : 1 ≤ L 8) :
    (∀ (buf : List curve) (qbuf : List ℤ) (thr mu alpha : ℚ) (m sleep : ℤ)
       (g : Bool) (xs : List ℤ),
      (xs.length : ℤ) ≤ sleep + m →
      (pfs_run L (pfs_mk L buf qbuf thr mu alpha m sleep) g xs).2 = g) ∧
    (pfs_run L (pfs_mk L bufZ (qbufZ 3) 1 1 0 2 0) false [1, 1, 8]).2
      = true := by
  constructor
  · intro buf qbuf thr mu alpha m sleep g xs hlen
    exact pfs_run_warmup_flag L xs _ g (Or.inl rfl) hlen
  ·
    have hpf : pf_mk L bufZ 1 1
        = (⟨⟨pf_status_codes.TEST, PF_NO_ERRORS⟩,
            ⟨2, 0, 64,
              ((List.replicate 65 NULL_CURVE).set 0 TAIL_CURVE).set 1
                NULL_CURVE⟩,
            ⟨0, 0⟩, 1, 1 * 1 / 2⟩ : pf) := by
      with_unfolding_all rfl
    have happ := pfs_run_append L [1, 1] (pfs_mk L bufZ (qbufZ 3) 1 1 0 2 0)
      false [8]
    have h2 : pfs_run L (pfs_mk L bufZ (qbufZ 3) 1 1 0 2 0) false [1, 1]
        = ((⟨(⟨⟨pf_status_codes.TEST, PF_NO_ERRORS⟩,
              ⟨2, 0, 64,
                ((List.replicate 65 NULL_CURVE).set 0 TAIL_CURVE).set 1
                  NULL_CURVE⟩,
              ⟨0, 0⟩, 1, 1 * 1 / 2⟩ : pf),
            ⟨0, 2, 2, [1, 1, 0]⟩, 0, 2, 0, 0, 1,
            ⟨pfs_status_codes.TEST, PFS_NO_ERRORS⟩⟩ : pfs), false) := by
      with_unfolding_all rfl
    rw [show ([1, 1, 8] : List ℤ) = [1, 1] ++ [8] from rfl, happ, h2]
    have hcm : curve_max L NULL_CURVE (⟨8, 1, 1, 0⟩ : curve) = 8 * L 8 - 7 := by
      simp only [curve_max, NULL_CURVE]
      norm_num
    have hsp : step_prune (⟨⟨pf_status_codes.TEST, PF_NO_ERRORS⟩,
        ⟨2, 0, 64,
          ((List.replicate 65 NULL_CURVE).set 0 TAIL_CURVE).set 1 NULL_CURVE⟩,
        ⟨0, 0⟩, 1, 1 * 1 / 2⟩ : pf) 8 1
        = ((⟨1, 0, 64,
              ((List.replicate 65 NULL_CURVE).set 0 TAIL_CURVE).set 1
                NULL_CURVE⟩ : stack),
           NULL_CURVE, (⟨8, 1, 1, 0⟩ : curve), []) := by
      with_unfolding_all rfl
    have h1 : (step_helper L (⟨⟨pf_status_codes.TEST, PF_NO_ERRORS⟩,
        ⟨2, 0, 64,
          ((List.replicate 65 NULL_CURVE).set 0 TAIL_CURVE).set 1 NULL_CURVE⟩,
        ⟨0, 0⟩, 1, 1 * 1 / 2⟩ : pf) 8 1).change
        = maximize_change L (1 * 1 / 2)
            (⟨1, 0, 64,
              ((List.replicate 65 NULL_CURVE).set 0 TAIL_CURVE).set 1
                NULL_CURVE⟩ : stack)
            NULL_CURVE
            (⟨8, 1, 1, NULL_CURVE.m + curve_max L NULL_CURVE ⟨8, 1, 1, 0⟩⟩
              : curve) := by
      simp only [step_helper, hsp]
      rw [if_pos (by norm_num [NULL_CURVE])]
    have hch : (step_helper L (⟨⟨pf_status_codes.TEST, PF_NO_ERRORS⟩,
        ⟨2, 0, 64,
          ((List.replicate 65 NULL_CURVE).set 0 TAIL_CURVE).set 1 NULL_CURVE⟩,
        ⟨0, 0⟩, 1, 1 * 1 / 2⟩ : pf) 8 1).change = (⟨8 * L 8 - 7, 1⟩ : change) := by
      rw [h1, hcm]
      rw [maximize_change]
      rw [show (STACK_LEN + 1 : ℕ) = 65 + 1 from rfl]
      rw [maximizeAux]
      rw [if_pos (by simp [NULL_CURVE]; linarith),
        if_pos (by simp [NULL_CURVE]; linarith)]
      simp [NULL_CURVE]
    have hflag3 : (pfs_step L (⟨(⟨⟨pf_status_codes.TEST, PF_NO_ERRORS⟩,
        ⟨2, 0, 64,
          ((List.replicate 65 NULL_CURVE).set 0 TAIL_CURVE).set 1 NULL_CURVE⟩,
        ⟨0, 0⟩, 1, 1 * 1 / 2⟩ : pf), ⟨0, 2, 2, [1, 1, 0]⟩, 0, 2, 0, 0, 1,
        ⟨pfs_status_codes.TEST, PFS_NO_ERRORS⟩⟩ : pfs) false 8).2.1
        = pfs_triggered (step_test L (⟨(⟨⟨pf_status_codes.TEST, PF_NO_ERRORS⟩,
        ⟨2, 0, 64,
          ((List.replicate 65 NULL_CURVE).set 0 TAIL_CURVE).set 1 NULL_CURVE⟩,
        ⟨0, 0⟩, 1, 1 * 1 / 2⟩ : pf), ⟨0, 2, 2, [1, 1, 0]⟩, 0, 2, 0, 0, 1,
        ⟨pfs_status_codes.TEST, PFS_NO_ERRORS⟩⟩ : pfs) 8).1
            (pf_triggered (step_helper L (⟨⟨pf_status_codes.TEST, PF_NO_ERRORS⟩,
        ⟨2, 0, 64,
          ((List.replicate 65 NULL_CURVE).set 0 TAIL_CURVE).set 1 NULL_CURVE⟩,
        ⟨0, 0⟩, 1, 1 * 1 / 2⟩ : pf) 8 1)) := by
      with_unfolding_all rfl
    have htrig : pf_triggered (step_helper L (⟨⟨pf_status_codes.TEST, PF_NO_ERRORS⟩,
        ⟨2, 0, 64,
          ((List.replicate 65 NULL_CURVE).set 0 TAIL_CURVE).set 1 NULL_CURVE⟩,
        ⟨0, 0⟩, 1, 1 * 1 / 2⟩ : pf) 8 1) = true := by
      rw [pf_triggered, hch]
      simp only [decide_eq_true_eq]
      norm_num
      linarith
    have hfoc : (step_test L (⟨(⟨⟨pf_status_codes.TEST, PF_NO_ERRORS⟩,
        ⟨2, 0, 64,
          ((List.replicate 65 NULL_CURVE).set 0 TAIL_CURVE).set 1 NULL_CURVE⟩,
        ⟨0, 0⟩, 1, 1 * 1 / 2⟩ : pf), ⟨0, 2, 2, [1, 1, 0]⟩, 0, 2, 0, 0, 1,
        ⟨pfs_status_codes.TEST, PFS_NO_ERRORS⟩⟩ : pfs) 8).1.focus = step_helper L (⟨⟨pf_status_codes.TEST, PF_NO_ERRORS⟩,
        ⟨2, 0, 64,
          ((List.replicate 65 NULL_CURVE).set 0 TAIL_CURVE).set 1 NULL_CURVE⟩,
        ⟨0, 0⟩, 1, 1 * 1 / 2⟩ : pf) 8 1 := by
      with_unfolding_all rfl
    have hm2 : (step_test L (⟨(⟨⟨pf_status_codes.TEST, PF_NO_ERRORS⟩,
        ⟨2, 0, 64,
          ((List.replicate 65 NULL_CURVE).set 0 TAIL_CURVE).set 1 NULL_CURVE⟩,
        ⟨0, 0⟩, 1, 1 * 1 / 2⟩ : pf), ⟨0, 2, 2, [1, 1, 0]⟩, 0, 2, 0, 0, 1,
        ⟨pfs_status_codes.TEST, PFS_NO_ERRORS⟩⟩ : pfs) 8).1.m = 2 := by with_unfolding_all rfl
    have hfin : pfs_triggered (step_test L (⟨(⟨⟨pf_status_codes.TEST, PF_NO_ERRORS⟩,
        ⟨2, 0, 64,
          ((List.replicate 65 NULL_CURVE).set 0 TAIL_CURVE).set 1 NULL_CURVE⟩,
        ⟨0, 0⟩, 1, 1 * 1 / 2⟩ : pf), ⟨0, 2, 2, [1, 1, 0]⟩, 0, 2, 0, 0, 1,
        ⟨pfs_status_codes.TEST, PFS_NO_ERRORS⟩⟩ : pfs) 8).1 true = true := by
      rw [pfs_triggered]
      simp only [if_true]
      rw [pf_get_change, hfoc, hch, hm2]
      norm_num
    have hrun : (pfs_run L (⟨(⟨⟨pf_status_codes.TEST, PF_NO_ERRORS⟩,
        ⟨2, 0, 64,
          ((List.replicate 65 NULL_CURVE).set 0 TAIL_CURVE).set 1 NULL_CURVE⟩,
        ⟨0, 0⟩, 1, 1 * 1 / 2⟩ : pf), ⟨0, 2, 2, [1, 1, 0]⟩, 0, 2, 0, 0, 1,
        ⟨pfs_status_codes.TEST, PFS_NO_ERRORS⟩⟩ : pfs) false [8]).2 = (pfs_step L (⟨(⟨⟨pf_status_codes.TEST, PF_NO_ERRORS⟩,
        ⟨2, 0, 64,
          ((List.replicate 65 NULL_CURVE).set 0 TAIL_CURVE).set 1 NULL_CURVE⟩,
        ⟨0, 0⟩, 1, 1 * 1 / 2⟩ : pf), ⟨0, 2, 2, [1, 1, 0]⟩, 0, 2, 0, 0, 1,
        ⟨pfs_status_codes.TEST, PFS_NO_ERRORS⟩⟩ : pfs) false 8).2.1 := rfl
    rw [hrun, hflag3, htrig, hfin]

/-- Witness for **C8**: the trigger scenario evaluated at the concrete
log stand-in `Lone` (which satisfies `1 ≤ Lone 8`). -/
theorem C8_no_early_trigger_witness :
    (pfs_run Lone (pfs_mk Lone bufZ (qbufZ 3) 1 1 0 2 0) false [1, 1, 8]).2
      = true :=
  (C8_no_early_trigger Lone (by decide)).2
/-! ### Curve-stack invariant machinery -/

/-- Closed form for `stackSize` on a well-formed stack. -/
theorem stackSize_closed (s : stack) (h : StackWF s) :
    stackSize s = if s.tail ≤ s.head then s.head - s.tail
                  else s.head + 65 - s.tail := by
  obtain ⟨hc, _, hh, ht⟩ := h
  rw [PF_MAXCURVES] at hc hh ht
  unfold stackSize
  rw [hc]
  split_ifs <;> omega

/-- `stack_pop` leaves `arr`, `tail` and `capacity` unchanged. -/
theorem stack_pop_frame (s : stack) :
    (stack_pop s).1.arr = s.arr ∧ (stack_pop s).1.tail = s.tail ∧
    (stack_pop s).1.capacity = s.capacity := ⟨rfl, rfl, rfl⟩

/-- `liveGet` reads are unchanged by `stack_pop`. -/
theorem liveGet_pop (s : stack) (k : ℕ) :
    liveGet (stack_pop s).1 k = liveGet s k := rfl

/-- The new head position of `stack_pop`. -/
theorem stack_pop_head (s : stack) :
    (stack_pop s).1.head = if s.head = 0 then s.capacity else s.head - 1 := by
  simp [stack_pop]

/-- `stack_pop` shrinks a nonempty well-formed stack by one. -/
theorem stack_pop_size (s : stack) (hwf : StackWF s)
    (h1 : 1 ≤ stackSize s) :
    stackSize (stack_pop s).1 = stackSize s - 1 := by
  have hc := hwf.cap
  have hh := hwf.head_le
  have ht := hwf.tail_le
  rw [PF_MAXCURVES] at hc hh ht
  unfold stackSize at h1 ⊢
  rw [hc] at h1
  rw [stack_pop_head, (stack_pop_frame s).2.1, (stack_pop_frame s).2.2, hc]
  split_ifs with h0 <;> omega

/-- `stack_pop` on a nonempty well-formed stack returns the top stored
curve. -/
theorem stack_pop_top (s : stack) (hwf : StackWF s)
    (h1 : 1 ≤ stackSize s) :
    (stack_pop s).2 = liveGet s (stackSize s - 1) := by
  have hc := hwf.cap
  have hh := hwf.head_le
  have ht := hwf.tail_le
  rw [PF_MAXCURVES] at hc hh ht
  have h2 : (stack_pop s).2
      = s.arr.getD (if s.head = 0 then s.capacity else s.head - 1)
          NULL_CURVE := by
    simp [stack_pop]
  rw [h2, liveGet, hc]
  unfold stackSize at h1 ⊢
  rw [hc] at h1 ⊢
  congr 1
  split_ifs with h0 <;> omega

/-- On a well-formed singleton stack with `TAIL` at the bottom (and the
stale-`TAIL` fact below a wrapped tail), `stack_peek` returns `TAIL`,
despite its off-by-one wrap. -/
theorem stack_peek_size1 (s : stack) (hwf : StackWF s)
    (hsz : stackSize s = 1) (hbot : liveGet s 0 = TAIL_CURVE)
    (ht64 : s.tail = 64 → s.arr.getD 63 NULL_CURVE = TAIL_CURVE) :
    stack_peek s = TAIL_CURVE := by
  have hc := hwf.cap
  have hh := hwf.head_le
  have ht := hwf.tail_le
  rw [PF_MAXCURVES] at hc hh ht
  unfold stackSize at hsz
  rw [hc] at hsz
  by_cases h0 : s.head = 0
  · have ht64' : s.tail = 64 := by omega
    have hpeek : stack_peek s = s.arr.getD 63 NULL_CURVE := by
      simp [stack_peek, h0, hc]
    rw [hpeek]
    exact ht64 ht64'
  · have hhead : s.head = s.tail + 1 := by omega
    have hpeek : stack_peek s = s.arr.getD (s.head - 1) NULL_CURVE := by
      simp [stack_peek, h0]
    rw [hpeek, hhead, Nat.add_sub_cancel]
    unfold liveGet at hbot
    rw [hc] at hbot
    rw [show (s.tail + 0) % (64 + 1) = s.tail by omega] at hbot
    exact hbot


/-- No curve within the accumulator's reach dominates negatively against
`TAIL`: the cross product is strictly positive, so `curve_dominate`
returns `1` and the pruning loop never pops past the floor. -/
theorem curve_dominate_tail (p acc : curve) (hpx : 0 ≤ acc.x - p.x)
    (hpb : 0 < acc.b - p.b) (haX : acc.x < COUNT_MAX) (hab : 0 ≤ acc.b) :
    curve_dominate p TAIL_CURVE acc = 1 := by
  have h1 : (0 : ℚ) ≤ ((acc.x - p.x : ℤ) : ℚ) := by exact_mod_cast hpx
  have h2 : (0 : ℚ) < ((9223372036854775807 - acc.x : ℤ) : ℚ) := by
    have h2i : (0 : ℤ) < 9223372036854775807 - acc.x := by
      rw [COUNT_MAX] at haX
      omega
    exact_mod_cast h2i
  simp only [curve_dominate, TAIL_CURVE, COUNT_MAX]
  split_ifs with h
  · rfl
  · exfalso
    apply h
    have hq : ((acc.x - 9223372036854775807 : ℤ) : ℚ)
        = -((9223372036854775807 - acc.x : ℤ) : ℚ) := by
      push_cast
      ring
    rw [hq]
    nlinarith [mul_nonneg h1 hab, mul_pos h2 hpb]

/-- A well-formed stack is full exactly when it stores `64` curves. -/
theorem stack_full_iff (s : stack) (hwf : StackWF s) :
    stack_full s = true ↔ stackSize s = 64 := by
  obtain ⟨hc, hl, hh, ht⟩ := hwf
  rw [PF_MAXCURVES] at hc hh ht
  unfold stack_full stackSize
  rw [hc]
  by_cases h64 : s.head = 64
  · rw [if_pos (by simpa using h64), beq_iff_eq, h64]
    constructor
    · intro h0
      omega
    · intro hsz
      omega
  · rw [if_neg (by simpa using h64), beq_iff_eq]
    constructor
    · intro h0
      omega
    · intro hsz
      omega

/-- The pruning loop preserves `PruneInv`, never pops `TAIL`, and leaves
the buffer, tail and capacity untouched. -/
theorem pruneAux_inv (X x : ℤ) (b : ℚ) (acc : curve)
    (hx : 0 ≤ x) (hb : 0 < b) (haccX : acc.x ≤ X + x)
    (hX : X + x < COUNT_MAX) :
    ∀ (fuel : ℕ) (s : stack) (p : curve), PruneInv X x b acc s p →
      PruneInv X x b acc (pruneAux fuel s p acc).1
        (pruneAux fuel s p acc).2.1 ∧
      TAIL_CURVE ∉ (pruneAux fuel s p acc).2.2 ∧
      (pruneAux fuel s p acc).1.arr = s.arr ∧
      (pruneAux fuel s p acc).1.tail = s.tail ∧
      stackSize (pruneAux fuel s p acc).1 ≤ stackSize s := by
  have hXnum : X + x < 9223372036854775807 := by
    rw [COUNT_MAX] at hX
    exact hX
  intro fuel
  induction fuel with
  | zero =>
    intro s p hinv
    exact ⟨hinv, by simp [pruneAux], rfl, rfl, le_refl _⟩
  | succ fuel ih =>
    intro s p hinv
    rw [pruneAux]
    by_cases hcond : curve_dominate p (stack_peek s) acc < 0
    · rw [if_pos hcond]
      have hsz2 : 2 ≤ stackSize s := by
        by_contra hlt
        have hsz1 : stackSize s = 1 := by
          have := hinv.size1
          omega
        have hpeek := stack_peek_size1 s hinv.wf hsz1 hinv.bottom hinv.t64
        rw [hpeek] at hcond
        have hdom := curve_dominate_tail p acc
          (by have := hinv.paccx; omega)
          (by have := hinv.paccb; linarith)
          (by rw [COUNT_MAX]; omega)
          (by have := hinv.paccb; have := hinv.pbnn; linarith)
        rw [hdom] at hcond
        exact absurd hcond (by decide)
      have htop := stack_pop_top s hinv.wf hinv.size1
      have hsize := stack_pop_size s hinv.wf hinv.size1
      have hidx1 : 1 ≤ stackSize s - 1 := by omega
      have hidx2 : stackSize s - 1 < stackSize s := by omega
      have hinv2 : PruneInv X x b acc (stack_pop s).1 (stack_pop s).2 := by
        refine ⟨?_, ?_, hinv.bottom, hinv.t64, ?_, ?_, ?_, ?_, ?_, ?_, ?_,
          ?_, ?_, ?_⟩
        · obtain ⟨hc, hl, hh, ht⟩ := hinv.wf
          refine ⟨hc, hl, ?_, ht⟩
          rw [stack_pop_head, hc]
          rw [PF_MAXCURVES] at hh ⊢
          split_ifs <;> omega
        · rw [hsize]
          omega
        · intro k h1 h2
          rw [hsize] at h2
          exact hinv.xnn k h1 (by omega)
        · intro k h1 h2
          rw [hsize] at h2
          exact hinv.xle k h1 (by omega)
        · intro k h1 h2
          rw [hsize] at h2
          exact hinv.bnn k h1 (by omega)
        · intro j k h1 h2 h3
          rw [hsize] at h3
          exact hinv.mono j k h1 h2 (by omega)
        · intro k h1 h2
          rw [hsize] at h2
          rw [htop]
          exact hinv.mono k (stackSize s - 1) h1 (by omega) (by omega)
        · rw [htop]
          exact hinv.xnn _ hidx1 hidx2
        · rw [htop]
          exact hinv.xle _ hidx1 hidx2
        · rw [htop]
          exact hinv.bnn _ hidx1 hidx2
        · rw [htop]
          have hple := hinv.ple (stackSize s - 1) hidx1 hidx2
          have := hinv.paccx
          omega
        · rw [htop]
          have hple := hinv.ple (stackSize s - 1) hidx1 hidx2
          have := hinv.paccb
          linarith [hple.2]
      obtain ⟨ih1, ih2, ih3, ih4, ih5⟩ :=
        ih (stack_pop s).1 (stack_pop s).2 hinv2
      have ih5b : stackSize (pruneAux fuel (stack_pop s).1 (stack_pop s).2
          acc).1 ≤ stackSize s := by
        rw [hsize] at ih5
        omega
      refine ⟨ih1, ?_, ih3, ih4, ih5b⟩
      intro hmem
      rcases List.mem_cons.mp hmem with heq | hmem2
      · have hxle : (stack_pop s).2.x ≤ X := by
          rw [htop]
          exact hinv.xle _ hidx1 hidx2
        rw [← heq] at hxle
        simp [TAIL_CURVE, COUNT_MAX] at hxle
        omega
      · exact ih2 hmem2
    · rw [if_neg hcond]
      exact ⟨hinv, by simp, rfl, rfl, le_refl _⟩

/-- Specification of `stack_push` on a non-full well-formed stack: the
stored window keeps its elements, the new curve lands on top, the tail
does not move, and the stale slot `63` is untouched when the tail sits at
`64`. -/
theorem stack_push_nf_spec (s : stack) (q : curve) (hwf : StackWF s)
    (hnf : stack_full s = false) :
    StackWF (stack_push s q) ∧
    stackSize (stack_push s q) = stackSize s + 1 ∧
    (∀ k, k < stackSize s → liveGet (stack_push s q) k = liveGet s k) ∧
    liveGet (stack_push s q) (stackSize s) = q ∧
    (stack_push s q).tail = s.tail ∧
    (s.tail = 64 →
      (stack_push s q).arr.getD 63 NULL_CURVE
        = s.arr.getD 63 NULL_CURVE) := by
  obtain ⟨hcap, hlen, hhead, htail⟩ := hwf
  rw [PF_MAXCURVES] at hcap hhead htail
  rw [STACK_LEN, PF_MAXCURVES] at hlen
  have hnf2 : (s.head + 1) % 65 ≠ s.tail := by
    rw [stack_full, hcap] at hnf
    by_cases hh : s.head = 64
    · simp only [hh, beq_self_eq_true, if_true] at hnf
      have := beq_eq_false_iff_ne.mp hnf
      omega
    · rw [if_neg (by simpa using hh)] at hnf
      have := beq_eq_false_iff_ne.mp hnf
      omega
  have hnfP : ¬(stack_full s = true) := by simp [hnf]
  have hpush : stack_push s q =
      { s with arr := s.arr.set s.head q,
               head := if s.head == s.capacity then 0 else s.head + 1 } := by
    rw [stack_push, if_neg hnfP]
  have hh2 : (if s.head == s.capacity then 0 else s.head + 1)
      = (s.head + 1) % 65 := by
    rw [hcap]
    by_cases hh : s.head = 64
    · simp [hh]
    · rw [if_neg (by simpa using hh)]
      omega
  rw [hh2] at hpush
  have harr : (stack_push s q).arr = s.arr.set s.head q := by rw [hpush]
  have hhd : (stack_push s q).head = (s.head + 1) % 65 := by rw [hpush]
  have htl : (stack_push s q).tail = s.tail := by rw [hpush]
  have hcp : (stack_push s q).capacity = 64 := by rw [hpush]; exact hcap
  have hlen2 : (stack_push s q).arr.length = 65 := by
    rw [harr, List.length_set]
    exact hlen
  have hhlt : s.head < s.arr.length := by omega
  refine ⟨⟨by rw [hcp, PF_MAXCURVES], by rw [STACK_LEN]; exact hlen2,
      by rw [hhd, PF_MAXCURVES]; omega, by rw [htl, PF_MAXCURVES]; omega⟩,
    ?_, ?_, ?_, htl, ?_⟩
  · unfold stackSize
    rw [hhd, htl, hcp, hcap]
    omega
  · intro k hk
    unfold stackSize at hk
    rw [hcap] at hk
    unfold liveGet
    rw [harr, htl, hcp]
    have hne : s.head ≠ (s.tail + k) % 65 := by omega
    rw [getD_set_ne _ _ _ hne, hcap]
  · unfold stackSize liveGet
    rw [harr, htl, hcp, hcap]
    have hidx : (s.tail + (s.head + (64 + 1) - s.tail) % (64 + 1)) % (64 + 1)
        = s.head := by omega
    rw [hidx, getD_set_self _ _ _ _ hhlt]
  · intro ht64
    rw [harr]
    have hne : s.head ≠ 63 := by omega
    rw [getD_set_ne _ _ _ hne]

/-- Specification of `stack_push` on a full well-formed stack with `TAIL`
at the bottom: the tail advances one slot and is overwritten with `TAIL`
(so the bottom stays `TAIL` and the oldest real curve is dropped), the
remaining curves shift down one index, the new curve lands on top, the
size stays `64`, and the slot `63` holds `TAIL` whenever the new tail sits
at `64`. -/
theorem stack_push_full_spec (s : stack) (q : curve) (hwf : StackWF s)
    (hfull : stack_full s = true) (hbot : liveGet s 0 = TAIL_CURVE) :
    StackWF (stack_push s q) ∧
    stackSize (stack_push s q) = 64 ∧
    stackSize s = 64 ∧
    liveGet (stack_push s q) 0 = TAIL_CURVE ∧
    (∀ k, 1 ≤ k → k ≤ 62 → liveGet (stack_push s q) k = liveGet s (k + 1)) ∧
    liveGet (stack_push s q) 63 = q ∧
    ((stack_push s q).tail = 64 →
      (stack_push s q).arr.getD 63 NULL_CURVE = TAIL_CURVE) := by
  obtain ⟨hcap, hlen, hhead, htail⟩ := hwf
  rw [PF_MAXCURVES] at hcap hhead htail
  rw [STACK_LEN, PF_MAXCURVES] at hlen
  have hfull2 : (s.head + 1) % 65 = s.tail := by
    rw [stack_full, hcap] at hfull
    by_cases hh : s.head = 64
    · simp only [hh, beq_self_eq_true, if_true, beq_iff_eq] at hfull
      omega
    · rw [if_neg (by simpa using hh)] at hfull
      have := beq_iff_eq.mp hfull
      omega
  have hpush : stack_push s q =
      { s with
        tail := if s.tail == s.capacity then 0 else s.tail + 1,
        arr := ((s.arr.set (if s.tail == s.capacity then 0 else s.tail + 1)
                  TAIL_CURVE).set s.head q),
        head := if s.head == s.capacity then 0 else s.head + 1 } := by
    rw [stack_push, if_pos hfull]
  have ht2 : (if s.tail == s.capacity then 0 else s.tail + 1)
      = (s.tail + 1) % 65 := by
    rw [hcap]
    by_cases ht : s.tail = 64
    · simp [ht]
    · rw [if_neg (by simpa using ht)]
      omega
  have hh2 : (if s.head == s.capacity then 0 else s.head + 1)
      = (s.head + 1) % 65 := by
    rw [hcap]
    by_cases hh : s.head = 64
    · simp [hh]
    · rw [if_neg (by simpa using hh)]
      omega
  rw [ht2, hh2] at hpush
  have hne : s.head ≠ (s.tail + 1) % 65 := by omega
  have htlt : (s.tail + 1) % 65 < s.arr.length := by omega
  have hhlt : s.head < s.arr.length := by omega
  have hhlt2 : s.head
      < (s.arr.set ((s.tail + 1) % 65) TAIL_CURVE).length := by
    simpa using hhlt
  have harr : (stack_push s q).arr
      = (s.arr.set ((s.tail + 1) % 65) TAIL_CURVE).set s.head q := by
    rw [hpush]
  have hhd : (stack_push s q).head = (s.head + 1) % 65 := by rw [hpush]
  have htl : (stack_push s q).tail = (s.tail + 1) % 65 := by rw [hpush]
  have hcp : (stack_push s q).capacity = 64 := by rw [hpush]; exact hcap
  have hsz : stackSize s = 64 := by
    unfold stackSize
    rw [hcap]
    omega
  refine ⟨⟨by rw [hcp, PF_MAXCURVES], ?_,
      by rw [hhd, PF_MAXCURVES]; omega, by rw [htl, PF_MAXCURVES]; omega⟩,
    ?_, hsz, ?_, ?_, ?_, ?_⟩
  · rw [STACK_LEN, harr]
    simpa using hlen
  · unfold stackSize
    rw [hhd, htl, hcp]
    omega
  · unfold liveGet
    rw [harr, htl, hcp]
    have hidx : ((s.tail + 1) % 65 + 0) % (64 + 1) = (s.tail + 1) % 65 := by
      omega
    rw [hidx, getD_set_ne _ _ _ hne, getD_set_self _ _ _ _ htlt]
  · intro k hk1 hk2
    unfold liveGet
    rw [harr, htl, hcp]
    have hidx : ((s.tail + 1) % 65 + k) % (64 + 1)
        = (s.tail + k + 1) % 65 := by
      omega
    rw [hidx]
    have h1 : s.head ≠ (s.tail + k + 1) % 65 := by omega
    have h2 : (s.tail + 1) % 65 ≠ (s.tail + k + 1) % 65 := by omega
    rw [getD_set_ne _ _ _ h1, getD_set_ne _ _ _ h2]
    have hidx2 : (s.tail + (k + 1)) % (s.capacity + 1)
        = (s.tail + k + 1) % 65 := by
      rw [hcap]
      omega
    rw [hidx2]
  · unfold liveGet
    rw [harr, htl, hcp]
    have hidx : ((s.tail + 1) % 65 + 63) % (64 + 1) = s.head := by omega
    rw [hidx, getD_set_self _ _ _ _ hhlt2]
  · intro ht64
    rw [htl] at ht64
    have ht63 : s.tail = 63 := by omega
    have hh62 : s.head = 62 := by omega
    rw [harr]
    have h1 : s.head ≠ 63 := by omega
    have h2 : (s.tail + 1) % 65 ≠ 63 := by omega
    rw [getD_set_ne _ _ _ h1, getD_set_ne _ _ _ h2]
    unfold liveGet at hbot
    rw [hcap] at hbot
    rw [show (s.tail + 0) % (64 + 1) = 63 by omega] at hbot
    exact hbot

/-- `stack_pop` preserves stack well-formedness. -/
theorem stack_pop_wf (s : stack) (hwf : StackWF s) :
    StackWF (stack_pop s).1 := by
  obtain ⟨hc, hl, hh, ht⟩ := hwf
  refine ⟨hc, hl, ?_, ht⟩
  rw [stack_pop_head, hc]
  rw [PF_MAXCURVES] at hh ⊢
  split_ifs <;> omega

/-- Pushing `TAIL_CURVE` then `NULL_CURVE` onto an empty well-formed stack
(the reseed performed by `init_helper` and by the non-anomalous branch of
`step_helper`) yields a well-formed stack of size `2` holding exactly
`TAIL_CURVE` then `NULL_CURVE`, with the tail still at slot `0`. -/
theorem fresh_double_push (s : stack) (h0 : s.head = 0) (ht0 : s.tail = 0)
    (hc : s.capacity = PF_MAXCURVES) (hl : s.arr.length = STACK_LEN) :
    StackWF (stack_push (stack_push s TAIL_CURVE) NULL_CURVE) ∧
    stackSize (stack_push (stack_push s TAIL_CURVE) NULL_CURVE) = 2 ∧
    (stack_push (stack_push s TAIL_CURVE) NULL_CURVE).tail = 0 ∧
    liveGet (stack_push (stack_push s TAIL_CURVE) NULL_CURVE) 0
      = TAIL_CURVE ∧
    liveGet (stack_push (stack_push s TAIL_CURVE) NULL_CURVE) 1
      = NULL_CURVE ∧
    liveList (stack_push (stack_push s TAIL_CURVE) NULL_CURVE)
      = [TAIL_CURVE, NULL_CURVE] := by
  have hwf : StackWF s := ⟨hc, hl, by rw [h0]; exact Nat.zero_le _,
    by rw [ht0]; exact Nat.zero_le _⟩
  have hsz0 : stackSize s = 0 := by
    unfold stackSize
    rw [h0, ht0, hc]
    decide
  have hnf0 : stack_full s = false := by
    cases hf : stack_full s
    · rfl
    · have h64 := (stack_full_iff s hwf).mp hf
      rw [hsz0] at h64
      exact absurd h64 (by decide)
  obtain ⟨hwf1, hsz1, hkeep1, htop1, htl1, hst1⟩ :=
    stack_push_nf_spec s TAIL_CURVE hwf hnf0
  rw [hsz0] at hsz1
  rw [hsz0] at htop1
  have hnf1 : stack_full (stack_push s TAIL_CURVE) = false := by
    cases hf : stack_full (stack_push s TAIL_CURVE)
    · rfl
    · have h64 := (stack_full_iff _ hwf1).mp hf
      rw [hsz1] at h64
      exact absurd h64 (by decide)
  obtain ⟨hwf2, hsz2, hkeep2, htop2, htl2, hst2⟩ :=
    stack_push_nf_spec (stack_push s TAIL_CURVE) NULL_CURVE hwf1 hnf1
  rw [hsz1] at hsz2
  rw [hsz1, Nat.zero_add] at htop2
  have hsz2f : stackSize (stack_push (stack_push s TAIL_CURVE) NULL_CURVE)
      = 2 := by omega
  have hg0 : liveGet (stack_push (stack_push s TAIL_CURVE) NULL_CURVE) 0
      = TAIL_CURVE := by
    rw [hkeep2 0 (by omega)]
    exact htop1
  have htlf : (stack_push (stack_push s TAIL_CURVE) NULL_CURVE).tail
      = 0 := by
    rw [htl2, htl1, ht0]
  have hlistf : liveList (stack_push (stack_push s TAIL_CURVE) NULL_CURVE)
      = [TAIL_CURVE, NULL_CURVE] := by
    unfold liveList
    rw [hsz2f, show List.range 2 = [0, 1] from by decide]
    simp only [List.map_cons, List.map_nil]
    rw [hg0, htop2]
  exact ⟨hwf2, hsz2f, htlf, hg0, htop2, hlistf⟩

/-- The curve-stack part of `PfInv` holds at any count total for a state
whose stack was just reseeded to `TAIL_CURVE`, `NULL_CURVE`. -/
theorem pfInv_fresh (f : pf) (X : ℤ) (s : stack) (hX : 0 ≤ X)
    (hcur : f.curves = stack_push (stack_push s TAIL_CURVE) NULL_CURVE)
    (h0 : s.head = 0) (ht0 : s.tail = 0) (hc : s.capacity = PF_MAXCURVES)
    (hl : s.arr.length = STACK_LEN) :
    PfInv f X ∧ liveList f.curves = [TAIL_CURVE, NULL_CURVE] := by
  obtain ⟨hw, hsz, htl, hg0, hg1, hlist⟩ := fresh_double_push s h0 ht0 hc hl
  constructor
  · refine ⟨?_, ?_, hX, ?_, ?_, ?_, ?_, ?_, ?_⟩
    · rw [hcur]
      exact hw
    · rw [hcur]
      omega
    · rw [hcur]
      exact hg0
    · intro h64
      rw [hcur, htl] at h64
      exact absurd h64 (by decide)
    · intro k h1 h2
      rw [hcur, hsz] at h2
      have hk : k = 1 := by omega
      subst hk
      rw [hcur, hg1]
      decide
    · intro k h1 h2
      rw [hcur, hsz] at h2
      have hk : k = 1 := by omega
      subst hk
      rw [hcur, hg1]
      show (0 : ℤ) ≤ X
      exact hX
    · intro k h1 h2
      rw [hcur, hsz] at h2
      have hk : k = 1 := by omega
      subst hk
      rw [hcur, hg1]
      decide
    · intro j k h1 h2 h3
      rw [hcur, hsz] at h3
      have hj : j = 1 := by omega
      have hk : k = 1 := by omega
      subst hj
      subst hk
      exact ⟨le_refl _, le_refl _⟩
  · rw [hcur]
    exact hlist

/-- Pushing a curve that dominates the stored window (in both coordinates)
onto a stack satisfying the window invariants preserves them, whether or
not the push overflows: the bottom stays `TAIL_CURVE`, the stale-slot fact
survives, the window keeps its bounds and monotonicity, and every stored
curve above the bottom stays below the pushed curve. -/
theorem push_keeps_inv (s : stack) (q : curve) (Y : ℤ) (hwf : StackWF s)
    (h1 : 1 ≤ stackSize s) (hbot : liveGet s 0 = TAIL_CURVE)
    (ht64 : s.tail = 64 → s.arr.getD 63 NULL_CURVE = TAIL_CURVE)
    (hxnn : ∀ k, 1 ≤ k → k < stackSize s → 0 ≤ (liveGet s k).x)
    (hxle : ∀ k, 1 ≤ k → k < stackSize s → (liveGet s k).x ≤ Y)
    (hbnn : ∀ k, 1 ≤ k → k < stackSize s → 0 ≤ (liveGet s k).b)
    (hmono : ∀ j k, 1 ≤ j → j ≤ k → k < stackSize s →
      (liveGet s j).x ≤ (liveGet s k).x ∧ (liveGet s j).b ≤ (liveGet s k).b)
    (hple : ∀ k, 1 ≤ k → k < stackSize s →
      (liveGet s k).x ≤ q.x ∧ (liveGet s k).b ≤ q.b)
    (hqx : 0 ≤ q.x) (hqY : q.x ≤ Y) (hqb : 0 ≤ q.b) :
    StackWF (stack_push s q) ∧ 2 ≤ stackSize (stack_push s q) ∧
    liveGet (stack_push s q) 0 = TAIL_CURVE ∧
    ((stack_push s q).tail = 64 →
      (stack_push s q).arr.getD 63 NULL_CURVE = TAIL_CURVE) ∧
    (∀ k, 1 ≤ k → k < stackSize (stack_push s q) →
      0 ≤ (liveGet (stack_push s q) k).x ∧
      (liveGet (stack_push s q) k).x ≤ Y ∧
      0 ≤ (liveGet (stack_push s q) k).b ∧
      (liveGet (stack_push s q) k).x ≤ q.x ∧
      (liveGet (stack_push s q) k).b ≤ q.b) ∧
    (∀ j k, 1 ≤ j → j ≤ k → k < stackSize (stack_push s q) →
      (liveGet (stack_push s q) j).x ≤ (liveGet (stack_push s q) k).x ∧
      (liveGet (stack_push s q) j).b ≤ (liveGet (stack_push s q) k).b) := by
  by_cases hfull : stack_full s = true
  · obtain ⟨hwf2, hsz2, hszs, hbot2, hshift, htop, ht642⟩ :=
      stack_push_full_spec s q hwf hfull hbot
    refine ⟨hwf2, by omega, hbot2, ht642, ?_, ?_⟩
    · intro k hk1 hk2
      rw [hsz2] at hk2
      by_cases hk63 : k = 63
      · subst hk63
        rw [htop]
        exact ⟨hqx, hqY, hqb, le_refl _, le_refl _⟩
      · have hk62 : k ≤ 62 := by omega
        rw [hshift k hk1 hk62]
        refine ⟨hxnn (k + 1) (by omega) (by omega),
          hxle (k + 1) (by omega) (by omega),
          hbnn (k + 1) (by omega) (by omega),
          (hple (k + 1) (by omega) (by omega)).1,
          (hple (k + 1) (by omega) (by omega)).2⟩
    · intro j k hj1 hjk hk2
      rw [hsz2] at hk2
      by_cases hk63 : k = 63
      · subst hk63
        rw [htop]
        by_cases hj63 : j = 63
        · subst hj63
          rw [htop]
          exact ⟨le_refl _, le_refl _⟩
        · have hj62 : j ≤ 62 := by omega
          rw [hshift j hj1 hj62]
          exact hple (j + 1) (by omega) (by omega)
      · have hk62 : k ≤ 62 := by omega
        rw [hshift j hj1 (by omega), hshift k (by omega) hk62]
        exact hmono (j + 1) (k + 1) (by omega) (by omega) (by omega)
  · have hnf : stack_full s = false := by
      cases hsf : stack_full s
      · rfl
      · exact absurd hsf hfull
    obtain ⟨hwf2, hsz2, hkeep, htop, htl2, hst2⟩ :=
      stack_push_nf_spec s q hwf hnf
    refine ⟨hwf2, by omega, ?_, ?_, ?_, ?_⟩
    · rw [hkeep 0 (by omega)]
      exact hbot
    · intro h64
      rw [htl2] at h64
      rw [hst2 h64]
      exact ht64 h64
    · intro k hk1 hk2
      rw [hsz2] at hk2
      by_cases hktop : k = stackSize s
      · rw [hktop, htop]
        exact ⟨hqx, hqY, hqb, le_refl _, le_refl _⟩
      · have hklt : k < stackSize s := by omega
        rw [hkeep k hklt]
        exact ⟨hxnn k hk1 hklt, hxle k hk1 hklt, hbnn k hk1 hklt,
          (hple k hk1 hklt).1, (hple k hk1 hklt).2⟩
    · intro j k hj1 hjk hk2
      rw [hsz2] at hk2
      by_cases hktop : k = stackSize s
      · rw [hktop, htop]
        by_cases hjtop : j = stackSize s
        · rw [hjtop, htop]
          exact ⟨le_refl _, le_refl _⟩
        · have hjlt : j < stackSize s := by omega
          rw [hkeep j hjlt]
          exact hple j hj1 hjlt
      · have hklt : k < stackSize s := by omega
        rw [hkeep j (by omega), hkeep k hklt]
        exact hmono j k hj1 hjk hklt

/-- `step_helper`, written as a single conditional on the post-pruning
state: the anomalous branch pushes the pruned `p` and the updated
accumulator, the non-anomalous branch resets the stack and reseeds the
sentinels. -/
theorem step_helper_eq (L : ℚ → ℚ) (f : pf) (x : ℤ) (b : ℚ) :
    step_helper L f x b =
      if ((((step_prune f x b).2.2.1.x - (step_prune f x b).2.1.x : ℤ)) : ℚ)
          > f.mu_crit
            * ((step_prune f x b).2.2.1.b - (step_prune f x b).2.1.b) then
        { f with
          change := maximize_change L f.threshold_llr (step_prune f x b).1
            (step_prune f x b).2.1
            { (step_prune f x b).2.2.1 with
              m := (step_prune f x b).2.1.m
                + curve_max L (step_prune f x b).2.1
                    (step_prune f x b).2.2.1 },
          curves := stack_push
            (stack_push (step_prune f x b).1 (step_prune f x b).2.1)
            { (step_prune f x b).2.2.1 with
              m := (step_prune f x b).2.1.m
                + curve_max L (step_prune f x b).2.1
                    (step_prune f x b).2.2.1 } }
      else
        { f with change := (⟨0, 0⟩ : change),
                 curves := stack_push (stack_push
                   (stack_reset (step_prune f x b).1) TAIL_CURVE)
                   NULL_CURVE } := rfl

/-- In the `TEST` state with a valid observation, `pf_step` returns the
`step_helper` result. -/
theorem pf_step_test_valid (L : ℚ → ℚ) (f : pf) (x : ℤ) (b : ℚ)
    (hc : f.status.code = pf_status_codes.TEST) (hx : 0 ≤ x) (hb : 0 < b) :
    (pf_step L f x b).1 = step_helper L f x b := by
  have hcond : ¬(b ≤ 0 ∨ x < 0) := by
    push_neg
    exact ⟨hb, hx⟩
  simp [pf_step, hc, hcond]

/-- `PfInv` only depends on the curve stack. -/
theorem pfInv_congr (f1 f2 : pf) (X : ℤ) (hcur : f1.curves = f2.curves)
    (h : PfInv f2 X) : PfInv f1 X := by
  refine ⟨?_, ?_, h.Xnn, ?_, ?_, ?_, ?_, ?_, ?_⟩ <;> rw [hcur]
  exacts [h.wf, h.size2, h.bottom, h.t64, h.xnn, h.xle, h.bnn, h.mono]

/-- `PfInv` weakens along an increase of the count total. -/
theorem pfInv_mono (f : pf) (X Y : ℤ) (hle : X ≤ Y) (h : PfInv f X) :
    PfInv f Y :=
  ⟨h.wf, h.size2, le_trans h.Xnn hle, h.bottom, h.t64, h.xnn,
    fun k h1 h2 => le_trans (h.xle k h1 h2) hle, h.bnn, h.mono⟩

set_option maxHeartbeats 1600000 in
/-- On an invariant-satisfying state, a valid step preserves the curve
stack invariant at the new count total, the pruning loop never pops
`TAIL_CURVE`, and a non-anomalous step leaves the stack holding exactly
`TAIL_CURVE` then `NULL_CURVE`. -/
theorem step_helper_inv (L : ℚ → ℚ) (f : pf) (X x : ℤ) (b : ℚ)
    (hinv : PfInv f X) (hx : 0 ≤ x) (hb : 0 < b) (hX : X + x < COUNT_MAX) :
    PfInv (step_helper L f x b) (X + x) ∧
    TAIL_CURVE ∉ stepPopped f x b ∧
    (stepNonAnomalous f x b →
      liveList (step_helper L f x b).curves = [TAIL_CURVE, NULL_CURVE]) := by
  have hXnn := hinv.Xnn
  have hsz2 := hinv.size2
  have hszpop := stack_pop_size f.curves hinv.wf (by omega)
  have htop := stack_pop_top f.curves hinv.wf (by omega)
  have hpop_xnn : (0 : ℤ) ≤ (stack_pop f.curves).2.x := by
    rw [htop]
    exact hinv.xnn _ (by omega) (by omega)
  have hpop_bnn : (0 : ℚ) ≤ (stack_pop f.curves).2.b := by
    rw [htop]
    exact hinv.bnn _ (by omega) (by omega)
  have hpX : (stack_pop f.curves).2.x ≤ X := by
    rw [htop]
    exact hinv.xle _ (by omega) (by omega)
  have haccX : (stack_pop f.curves).2.x + x ≤ X + x := by omega
  have hinit : PruneInv X x b
      ⟨(stack_pop f.curves).2.x + x, (stack_pop f.curves).2.b + b,
        (stack_pop f.curves).2.t + 1, (stack_pop f.curves).2.m⟩
      (stack_pop f.curves).1 (stack_pop f.curves).2 := by
    refine ⟨stack_pop_wf f.curves hinv.wf, ?_, hinv.bottom, hinv.t64,
      ?_, ?_, ?_, ?_, ?_, ?_, ?_, ?_, ?_, ?_⟩
    · rw [hszpop]
      omega
    · intro k h1 h2
      rw [hszpop] at h2
      exact hinv.xnn k h1 (by omega)
    · intro k h1 h2
      rw [hszpop] at h2
      exact hinv.xle k h1 (by omega)
    · intro k h1 h2
      rw [hszpop] at h2
      exact hinv.bnn k h1 (by omega)
    · intro j k h1 h2 h3
      rw [hszpop] at h3
      exact hinv.mono j k h1 h2 (by omega)
    · intro k h1 h2
      rw [hszpop] at h2
      rw [htop]
      exact hinv.mono k (stackSize f.curves - 1) h1 (by omega) (by omega)
    · exact hpop_xnn
    · exact hpX
    · exact hpop_bnn
    · exact le_of_eq rfl
    · exact le_of_eq rfl
  have hprune := pruneAux_inv X x b
      ⟨(stack_pop f.curves).2.x + x, (stack_pop f.curves).2.b + b,
        (stack_pop f.curves).2.t + 1, (stack_pop f.curves).2.m⟩
      hx hb haccX hX (STACK_LEN + 1) (stack_pop f.curves).1
      (stack_pop f.curves).2 hinit
  have hP : PruneInv X x b
      ⟨(stack_pop f.curves).2.x + x, (stack_pop f.curves).2.b + b,
        (stack_pop f.curves).2.t + 1, (stack_pop f.curves).2.m⟩
      (step_prune f x b).1 (step_prune f x b).2.1 := hprune.1
  have hnotTail : TAIL_CURVE ∉ stepPopped f x b := hprune.2.1
  by_cases hnaQ : stepNonAnomalous f x b
  · have hnot2 : ¬(((((step_prune f x b).2.2.1.x
          - (step_prune f x b).2.1.x : ℤ)) : ℚ) >
        f.mu_crit
          * ((step_prune f x b).2.2.1.b - (step_prune f x b).2.1.b)) := hnaQ
    have hcur : (step_helper L f x b).curves
        = stack_push (stack_push (stack_reset (step_prune f x b).1)
            TAIL_CURVE) NULL_CURVE := by
      rw [step_helper_eq, if_neg hnot2]
    obtain ⟨hinvF, hlistF⟩ := pfInv_fresh (step_helper L f x b) (X + x)
        (stack_reset (step_prune f x b).1) (by omega) hcur rfl rfl
        hP.wf.cap hP.wf.len
    exact ⟨hinvF, hnotTail, fun h2 => hlistF⟩
  · have hcond := not_not.mp hnaQ
    have hcur : (step_helper L f x b).curves
        = stack_push
            (stack_push (step_prune f x b).1 (step_prune f x b).2.1)
            { (step_prune f x b).2.2.1 with
              m := (step_prune f x b).2.1.m
                + curve_max L (step_prune f x b).2.1
                    (step_prune f x b).2.2.1 } := by
      rw [step_helper_eq, if_pos hcond]
    have hpaccx : (step_prune f x b).2.1.x + x
        ≤ (stack_pop f.curves).2.x + x := hP.paccx
    have hpaccb : (step_prune f x b).2.1.b + b
        ≤ (stack_pop f.curves).2.b + b := hP.paccb
    have hP2x : (step_prune f x b).2.1.x
        ≤ (stack_pop f.curves).2.x + x := by omega
    have hP2b : (step_prune f x b).2.1.b
        ≤ (stack_pop f.curves).2.b + b := by linarith
    have hqx2 : (0 : ℤ) ≤ (stack_pop f.curves).2.x + x := by omega
    have hqb2 : (0 : ℚ) ≤ (stack_pop f.curves).2.b + b := by linarith
    obtain ⟨hw1, hs1, hb1, ht1, hbd1, hm1⟩ :=
      push_keeps_inv (step_prune f x b).1 (step_prune f x b).2.1 (X + x)
        hP.wf hP.size1 hP.bottom hP.t64 hP.xnn
        (fun k h1 h2 => le_trans (hP.xle k h1 h2) (by omega))
        hP.bnn hP.mono hP.ple hP.pxnn (le_trans hP.pxle (by omega)) hP.pbnn
    obtain ⟨hw2, hs2, hb2, ht2, hbd2, hm2⟩ :=
      push_keeps_inv
        (stack_push (step_prune f x b).1 (step_prune f x b).2.1)
        { (step_prune f x b).2.2.1 with
          m := (step_prune f x b).2.1.m
            + curve_max L (step_prune f x b).2.1 (step_prune f x b).2.2.1 }
        (X + x) hw1 (by omega) hb1 ht1
        (fun k h1 h2 => (hbd1 k h1 h2).1)
        (fun k h1 h2 => (hbd1 k h1 h2).2.1)
        (fun k h1 h2 => (hbd1 k h1 h2).2.2.1)
        hm1
        (fun k h1 h2 => ⟨le_trans (hbd1 k h1 h2).2.2.2.1 hP2x,
          le_trans (hbd1 k h1 h2).2.2.2.2 hP2b⟩)
        hqx2 haccX hqb2
    refine ⟨⟨?_, ?_, by omega, ?_, ?_, ?_, ?_, ?_, ?_⟩, hnotTail,
      fun h2 => absurd h2 hnaQ⟩
    · rw [hcur]
      exact hw2
    · rw [hcur]
      exact hs2
    · rw [hcur]
      exact hb2
    · intro h64
      rw [hcur] at h64 ⊢
      exact ht2 h64
    · intro k h1 h2
      rw [hcur] at h2 ⊢
      exact (hbd2 k h1 h2).1
    · intro k h1 h2
      rw [hcur] at h2 ⊢
      exact (hbd2 k h1 h2).2.1
    · intro k h1 h2
      rw [hcur] at h2 ⊢
      exact (hbd2 k h1 h2).2.2.1
    · intro j k h1 h2 h3
      rw [hcur] at h3 ⊢
      exact hm2 j k h1 h2 h3

set_option maxHeartbeats 1600000 in
/-- Every reachable FOCuS state satisfies the curve-stack invariant at its
count total. -/
theorem pfReach_inv (L : ℚ → ℚ) (f : pf) (X : ℤ) (h : PfReach L f X) :
    PfInv f X := by
  induction h with
  | init buf thr mu hthr hmu hbuf =>
    exact (pfInv_fresh (pf_mk L buf thr mu) 0 (stack_init buf) (le_refl 0)
      rfl rfl rfl rfl hbuf).1
  | @step_ok f X x b hf hx hb hX ih =>
    cases hc : f.status.code with
    | TEST =>
      rw [pf_step_test_valid L f x b hc hx hb]
      exact (step_helper_inv L f X x b ih hx hb hX).1
    | STOP =>
      have h1 : (pf_step L f x b).1 = f := by
        rw [pf_step_stop L f x b hc]
      rw [h1]
      exact pfInv_mono f X (X + x) (by have := ih.Xnn; omega) ih
  | @step_bad f X x b hf hxb ih =>
    cases hc : f.status.code with
    | TEST =>
      have hcond : b ≤ 0 ∨ x < 0 := hxb.symm
      have hcur : (pf_step L f x b).1.curves = f.curves := by
        simp [pf_step, hc, hcond]
      exact pfInv_congr (pf_step L f x b).1 f X hcur ih
    | STOP =>
      have h1 : (pf_step L f x b).1 = f := by
        rw [pf_step_stop L f x b hc]
      rw [h1]
      exact ih

/-- C5 (confirmed): in every reachable state of a running FOCuS instance
the curve stack has `TAIL_CURVE` at the bottom; given a valid next
observation (keeping the count total within `INT64_MAX`), the pruning
loop of `step_helper` never pops `TAIL_CURVE` — no curve within the
accumulator's reach dominates the floor — and a non-anomalous step taken
from the running (`TEST`) state leaves the stack containing exactly
`TAIL_CURVE` then `NULL_CURVE`, i.e. size `2`. -/
theorem C5_tail_floor (L : ℚ → ℚ) (f : pf) (X x : ℤ) (b : ℚ)
    (h : PfReach L f X) (hx : 0 ≤ x) (hb : 0 < b) (hX : X + x < COUNT_MAX) :
    liveGet f.curves 0 = TAIL_CURVE ∧
    TAIL_CURVE ∉ stepPopped f x b ∧
    (f.status.code = pf_status_codes.TEST → stepNonAnomalous f x b →
      liveList (pf_step L f x b).1.curves = [TAIL_CURVE, NULL_CURVE]) := by
  have hinv := pfReach_inv L f X h
  obtain ⟨hinv2, hnot, hna⟩ := step_helper_inv L f X x b hinv hx hb hX
  refine ⟨hinv.bottom, hnot, ?_⟩
  intro hcode hna2
  rw [pf_step_test_valid L f x b hcode hx hb]
  exact hna hna2

/-- Witness for C5: the freshly initialized instance with unit parameters
and the observation `(x, b) = (0, 1)`. -/
theorem C5_tail_floor_witness :
    liveGet (pf_mk Lzero bufZ 1 1).curves 0 = TAIL_CURVE ∧
    TAIL_CURVE ∉ stepPopped (pf_mk Lzero bufZ 1 1) 0 1 ∧
    ((pf_mk Lzero bufZ 1 1).status.code = pf_status_codes.TEST →
      stepNonAnomalous (pf_mk Lzero bufZ 1 1) 0 1 →
      liveList (pf_step Lzero (pf_mk Lzero bufZ 1 1) 0 1).1.curves
        = [TAIL_CURVE, NULL_CURVE]) :=
  C5_tail_floor Lzero (pf_mk Lzero bufZ 1 1) 0 0 1
    (PfReach.init bufZ 1 1 (by decide) (by decide) rfl)
    (by decide) (by decide) (by decide)

end Hbs
